import Mathlib

/-!
# PIOS (64-bit) virtual memory manager: a shallow embedding of `kern/pmap.c`

Physical memory is a function from byte addresses to bytes; a page-map entry
(`pte_t`, 64 bit) is the little-endian value of eight consecutive bytes.  Kernel
pointers are physical addresses (`mem_ptr` and `mem_phys` are the identity), a
`pageinfo *` is the page number of its frame, and `NULL` is `none`.  A failed
`assert` (kernel panic) makes an operation return `none` at the outer `Option`.
The TLB (`pmap_inval`) and the console (`cprintf`) are not part of the state; the
conflict diagnostic of `pmap_mergepage` is returned as a flag.
-/

namespace Pios

/-! ## Constants of `inc/mmu.h`, `inc/syscall.h` -/

/-- Modelled from the spec: `inc/mmu.h` is missing; a frame is a 4 KiB page. -/
def PAGESIZE : Nat := 4096
/-- Modelled from the spec: `inc/mmu.h` is missing; a table holds 512 64-bit entries. -/
def NPTENTRIES : Nat := 512
/-- Modelled from the spec: `inc/mmu.h` is missing; four levels, the root is level 3. -/
def NPTLVLS : Nat := 3

/-- Modelled from the spec: `inc/mmu.h` is missing; hardware "present" bit. -/
def PTE_P : Nat := 0x001
/-- Modelled from the spec: `inc/mmu.h` is missing; hardware "writable" bit. -/
def PTE_W : Nat := 0x002
/-- Modelled from the spec: `inc/mmu.h` is missing; hardware "user" bit. -/
def PTE_U : Nat := 0x004
/-- Modelled from the spec: `inc/mmu.h` is missing; hardware "accessed" bit. -/
def PTE_A : Nat := 0x020
/-- Modelled from the spec: `inc/mmu.h` is missing; hardware "dirty" bit. -/
def PTE_D : Nat := 0x040

-- inc/syscall.h lines 58-60
def SYS_READ : Nat := 0x200
def SYS_WRITE : Nat := 0x400
def SYS_RW : Nat := 0x600

/-- The link-time and layout constants the code takes from `kern/pmap.h` and
`inc/vm.h`, which are missing: the physical address of the all-zero page
`pmap_zero` (`PTE_ZERO`) and the user window `[VM_USERLO, VM_USERHI)`. -/
structure Layout where
  PTE_ZERO : Nat
  VM_USERLO : Nat
  VM_USERHI : Nat

/-- Modelled from the spec: `PDSHIFT(l)` of the missing `inc/mmu.h`; an entry of a
level-`l` table spans `2^(12+9l)` bytes. -/
def PDSHIFT (l : Nat) : Nat := 12 + 9 * l
/-- Modelled from the spec: `PDSIZE(l) = 1 << PDSHIFT(l)`. -/
def PDSIZE (l : Nat) : Nat := 2 ^ PDSHIFT l
/-- Modelled from the spec: `PDX(l, va) = (va >> PDSHIFT(l)) & 0x1FF`. -/
def PDX (l va : Nat) : Nat := (va / PDSIZE l) % NPTENTRIES
/-- Modelled from the spec: `PDOFF(l, va) = va & (PDSIZE(l) - 1)`. -/
def PDOFF (l va : Nat) : Nat := va % PDSIZE l
/-- Modelled from the spec: `PDADDR(l, va) = va & ~(PDSIZE(l) - 1)`. -/
def PDADDR (l va : Nat) : Nat := va - va % PDSIZE l
/-- Modelled from the spec: `PTE_ADDR(pte) = pte & ~0xFFF`, the frame address of an entry. -/
def PTE_ADDR (pte : Nat) : Nat := pte - pte % 4096
/-- Modelled from the spec: `PGADDR(x) = x & ~0xFFF`. -/
def PGADDR (x : Nat) : Nat := x - x % 4096

/-- `x & ~(uint64_t)PTE_W`. -/
def clrW (x : Nat) : Nat := x &&& 0xFFFFFFFFFFFFFFFD

/-! ## Machine state -/

/-- Physical memory, the frame table's reference counts and the free list. -/
structure KState where
  mem : Nat → Nat
  refcount : Nat → Nat
  freelist : List Nat

/-- One byte of memory. -/
def rd8 (m : Nat → Nat) (a : Nat) : Nat := m a
/-- Store one byte. -/
def wr8 (m : Nat → Nat) (a v : Nat) : Nat → Nat := fun x => if x = a then v % 256 else m x

/-- Read the 64-bit little-endian word at byte address `a` (`*pte`). -/
def rd64 (m : Nat → Nat) (a : Nat) : Nat :=
  m a + m (a + 1) * 256 + m (a + 2) * 65536 + m (a + 3) * 16777216
    + m (a + 4) * 4294967296 + m (a + 5) * 1099511627776
    + m (a + 6) * 281474976710656 + m (a + 7) * 72057594037927936

/-- Store the 64-bit little-endian word `v` at byte address `a` (`*pte = v`). -/
def wr64 (m : Nat → Nat) (a v : Nat) : Nat → Nat :=
  fun x => if a ≤ x ∧ x < a + 8 then (v / 256 ^ (x - a)) % 256 else m x

/-- `memmove(dst, src, PAGESIZE)`. -/
def memmovePage (m : Nat → Nat) (dst src : Nat) : Nat → Nat :=
  fun x => if dst ≤ x ∧ x < dst + PAGESIZE then m (src + (x - dst)) else m x

/-- Modelled from the spec: `mem_pi2phys` of the missing `kern/mem.h`; the frame of
page number `pi` starts at `pi * PAGESIZE`. -/
def mem_pi2phys (pi : Nat) : Nat := pi * PAGESIZE
/-- Modelled from the spec: `mem_phys2pi` of the missing `kern/mem.h`. -/
def mem_phys2pi (a : Nat) : Nat := a / PAGESIZE

/-- Modelled from the spec: `mem_alloc` of the missing `kern/mem.c` hands out the
head of the free list, or `NULL` when the list is empty; the reference count is
left to the caller. -/
def mem_alloc (K : KState) : Option (Nat × KState) :=
  match K.freelist with
  | [] => none
  | pi :: fl => some (pi, { K with freelist := fl })

/-- Modelled from the spec: `mem_free` of the missing `kern/mem.c` pushes the frame
on the free list. -/
def mem_free (K : KState) (pi : Nat) : KState :=
  { K with freelist := pi :: K.freelist }

/-- Modelled from the spec: `mem_incref` of the missing `kern/mem.h` adds one to the
frame's reference count. -/
def mem_incref (K : KState) (pi : Nat) : KState :=
  { K with refcount := fun q => if q = pi then K.refcount pi + 1 else K.refcount q }

/-- Modelled from the spec: `mem_decref` of the missing `kern/mem.h` subtracts one
from the frame's reference count and calls `freefun` when it reaches zero. -/
def mem_decref (K : KState) (pi : Nat) (freefun : KState → Nat → KState) : KState :=
  let K1 : KState :=
    { K with refcount := fun q => if q = pi then K.refcount pi - 1 else K.refcount q }
  if K.refcount pi = 1 then freefun K1 pi else K1

/-! ## `pmap_mergepage` (pmap.c 727-767) -/

/-- The byte loop of `pmap_mergepage` (lines 750-763) from index `i` for `n` more
bytes: the memory after the loop and the index of the first conflict, if any. -/
def mergeLoop (rpg spg dpg : Nat) : Nat → Nat → (Nat → Nat) → (Nat → Nat) × Option Nat
  | 0, _, m => (m, none)
  | n + 1, i, m =>
    if m (spg + i) = m (rpg + i) then mergeLoop rpg spg dpg n (i + 1) m
    else if m (dpg + i) = m (rpg + i) then
      mergeLoop rpg spg dpg n (i + 1) (wr8 m (dpg + i) (m (spg + i)))
    else (m, some i)

/-- Lines 736-747 of `pmap_mergepage`: make sure the destination page `dpg` isn't
shared.  Returns the state and the page the merge writes to; `none` is the failed
`assert(npi)`. -/
def mergeUnshare (L : Layout) (K : KState) (dpte dpg : Nat) : Option (KState × Nat) :=
  if dpg = L.PTE_ZERO ∨ K.refcount (mem_phys2pi dpg) > 1 then
    match mem_alloc K with
    | none => none
    | some (npi, K1) =>
      let K2 := mem_incref K1 npi
      let npg := mem_pi2phys npi
      let K3 : KState := { K2 with mem := memmovePage K2.mem npg dpg }
      let K4 := if dpg ≠ L.PTE_ZERO then mem_decref K3 (mem_phys2pi dpg) mem_free else K3
      let npte := npg ||| SYS_RW ||| PTE_A ||| PTE_D ||| PTE_W ||| PTE_U ||| PTE_P
      some ({ K4 with mem := wr64 K4.mem dpte npte }, npg)
  else some (K, dpg)

/-- Lines 749-763 of `pmap_mergepage`: the byte-by-byte diff-and-merge into the page
`dpg`, and on a conflict the release and unmapping of the destination leaf. -/
def mergeBytes (L : Layout) (K : KState) (rpg spg dpg dpte : Nat) : KState × Bool :=
  match mergeLoop rpg spg dpg PAGESIZE 0 K.mem with
  | (m1, none) => ({ K with mem := m1 }, false)
  | (m1, some _) =>
    let Kc : KState := { K with mem := m1 }
    let Kd := mem_decref Kc (mem_phys2pi (PTE_ADDR (rd64 Kc.mem dpte))) mem_free
    ({ Kd with mem := wr64 Kd.mem dpte L.PTE_ZERO }, true)

/-- The C function `pmap_mergepage(rpte, spte, dpte, dva)`; the pointers are byte
addresses of the three leaf entries.  Returns the new state and whether the
conflict diagnostic was printed; `none` is the failed `assert(npi)`. -/
def pmap_mergepage (L : Layout) (K : KState) (rpte spte dpte : Nat) :
    Option (KState × Bool) :=
  let rpg := PTE_ADDR (rd64 K.mem rpte)
  let spg := PTE_ADDR (rd64 K.mem spte)
  let dpg := PTE_ADDR (rd64 K.mem dpte)
  match mergeUnshare L K dpte dpg with
  | none => none
  | some (Ku, dpg1) => some (mergeBytes L Ku rpg spg dpg1 dpte)

/-- Every memory cell holds a byte. -/
def ByteMem (m : Nat → Nat) : Prop := ∀ a, m a < 256


/-! ## Page-table loops over the `NPTENTRIES` entries of one table -/

/-- Byte `k` of the little-endian word `v`. -/
def byteOf (v k : Nat) : Nat := (v / 256 ^ k) % 256

/-- The loop `for (i = 0; i < NPTENTRIES; i++) dst[i] = f(src[i])` over two tables
that are equal or disjoint pages: every entry of the page at `dst` becomes `f` of
the entry with the same index in the page at `src`. -/
def mapTable (m : Nat → Nat) (dst src : Nat) (f : Nat → Nat) : Nat → Nat :=
  fun x =>
    if dst ≤ x ∧ x < dst + PAGESIZE then
      byteOf (f (rd64 m (src + 8 * ((x - dst) / 8)))) ((x - dst) % 8)
    else m x

/-- The reference-count half of the copy loop of `pmap_walk_level` (lines 352-358)
from entry `i` for `n` more entries: `assert(PTE_ADDR(pte) != 0)`, and
`mem_incref` of every entry that is not a zero-mapping.  `none` is the failed
assertion. -/
def increfLoop (L : Layout) (tab : Nat) : Nat → Nat → KState → Option KState
  | 0, _, K => some K
  | n + 1, i, K =>
    let pte := rd64 K.mem (tab + 8 * i)
    if PTE_ADDR pte = 0 then none
    else if PTE_ADDR pte ≠ L.PTE_ZERO then
      increfLoop L tab n (i + 1) (mem_incref K (mem_phys2pi (PTE_ADDR pte)))
    else increfLoop L tab n (i + 1) K

/-- The loop shared by `pmap_freept`, `pmap_freepd` and `pmap_freepdp` (lines
216-220, 230-234, 244-248) from entry `i` for `n` more entries: `mem_decref` of
every entry that is not a zero-mapping, freeing the child with `child`. -/
def freeLoop (L : Layout) (child : KState → Nat → KState) (tab : Nat) :
    Nat → Nat → KState → KState
  | 0, _, K => K
  | n + 1, i, K =>
    let a := PTE_ADDR (rd64 K.mem (tab + 8 * i))
    if a ≠ L.PTE_ZERO then
      freeLoop L child tab n (i + 1) (mem_decref K (mem_phys2pi a) child)
    else freeLoop L child tab n (i + 1) K

/-- The free functions by the level of the frame they free: `pmap_freefun L 0` is
`mem_free` (a data page), `pmap_freefun L 1` is `pmap_freept`, `pmap_freefun L 2`
is `pmap_freepd`, `pmap_freefun L 3` is `pmap_freepdp`; the C table
`pmap_freefun[k]` is `pmap_freefun L (k + 1)`. -/
def pmap_freefun (L : Layout) : Nat → KState → Nat → KState
  | 0 => fun K pi => mem_free K pi
  | n + 1 => fun K pi =>
    mem_free (freeLoop L (pmap_freefun L n) (mem_pi2phys pi) NPTENTRIES 0 K) pi

/-! ## `pmap_walk_level`, `pmap_walk`, `pmap_insert` (pmap.c 285-421) -/

/-- The permissive interior bits `PTE_A | PTE_P | PTE_W | PTE_U`. -/
def interiorBits (a : Nat) : Nat := a ||| PTE_A ||| PTE_P ||| PTE_W ||| PTE_U

/-- The C function `pmap_walk_level(pmlevel, pmtab, la, writing)`.  The result is
the state and the returned entry pointer (`none` for `NULL`); the outer `none` is
a failed assertion. -/
def pmap_walk_level (L : Layout) : Nat → KState → Nat → Nat → Bool →
    Option (KState × Option Nat)
  | 0, _, _, _, _ => none                               -- assert(pmlevel > 0)
  | l + 1, K, pmtab, la, writing =>
    let pmte := pmtab + 8 * PDX (l + 1) la
    -- lines 310-329: find or create the lower table
    let found : Option (KState × Nat) :=
      if PTE_ADDR (rd64 K.mem pmte) ≠ L.PTE_ZERO then
        let m1 := wr64 K.mem pmte (rd64 K.mem pmte ||| PTE_P)
        some ({ K with mem := m1 }, PTE_ADDR (rd64 m1 pmte))
      else if ¬ writing then none
      else
        match mem_alloc K with
        | none => none
        | some (pi, K1) =>
          let K2 := mem_incref K1 pi
          let m3 := mapTable K2.mem (mem_pi2phys pi) (mem_pi2phys pi) (fun _ => L.PTE_ZERO)
          some ({ K2 with mem := wr64 m3 pmte (interiorBits (mem_pi2phys pi)) }, mem_pi2phys pi)
    match found with
    | none => some (K, none)
    | some (Ka, plowtab) =>
      -- lines 333-365: copy-on-write of a read-shared lower table
      let cow : Option (Option (KState × Nat)) :=
        if writing ∧ rd64 Ka.mem pmte &&& PTE_W = 0 then
          if Ka.refcount (mem_phys2pi plowtab) = 1 then
            let m1 := mapTable Ka.mem plowtab plowtab clrW
            some (some ({ Ka with mem := wr64 m1 pmte (interiorBits plowtab) }, plowtab))
          else
            match mem_alloc Ka with
            | none => some none
            | some (pi, K1) =>
              let K2 := mem_incref K1 pi
              let nplowtab := mem_pi2phys pi
              match increfLoop L plowtab NPTENTRIES 0 K2 with
              | none => none
              | some K3 =>
                let K4 : KState := { K3 with mem := mapTable K3.mem nplowtab plowtab clrW }
                let K5 := mem_decref K4 (mem_phys2pi plowtab) (pmap_freefun L (l + 1))
                some (some ({ K5 with mem := wr64 K5.mem pmte (interiorBits nplowtab) },
                  nplowtab))
        else some (some (Ka, plowtab))
      match cow with
      | none => none
      | some none => some (Ka, none)
      | some (some (Kb, plowtab1)) =>
        if l = 0 then some (Kb, some (plowtab1 + 8 * PDX 0 la))
        else pmap_walk_level L l Kb (PTE_ADDR (rd64 Kb.mem pmte)) la writing

/-- The C function `pmap_walk(pml4, va, writing)`. -/
def pmap_walk (L : Layout) (K : KState) (pml4 va : Nat) (writing : Bool) :
    Option (KState × Option Nat) :=
  if L.VM_USERLO ≤ va ∧ va < L.VM_USERHI then pmap_walk_level L NPTLVLS K pml4 va writing
  else none

/-- The C function `pmap_insert(pml4, pi, va, perm)`: the state and the returned
entry pointer (`none` for `NULL`). -/
def pmap_insert (L : Layout) (K : KState) (pml4 pi va perm : Nat) :
    Option (KState × Option Nat) :=
  match pmap_walk L K pml4 va true with
  | none => none
  | some (K1, none) => some (K1, none)
  | some (K1, some pte) =>
    let K2 := mem_incref K1 pi
    let K3 :=
      if PTE_ADDR (rd64 K2.mem pte) ≠ L.PTE_ZERO then
        mem_decref K2 (mem_phys2pi (PGADDR (rd64 K2.mem pte))) mem_free
      else K2
    some ({ K3 with mem := wr64 K3.mem pte (mem_pi2phys pi ||| perm ||| PTE_P) }, some pte)

/-! ## `pmap_remove` (pmap.c 445-522) -/

/-- The `while (va < vahi)` loop of `pmap_remove_level` (lines 481-520) at level
`pmlevel`, with `lower` standing for `pmap_remove_level(pmlevel - 1, ...)`; `pmte`
is the running entry pointer.  Returns the state and the final `va`; `none` is a
failed assertion.  Every iteration advances `va`, so `fuel = vahi - va` suffices. -/
def removeLoop (L : Layout) (pmlevel : Nat)
    (lower : KState → Nat → Nat → Nat → Option (KState × Nat)) (pmtab vahi : Nat) :
    Nat → KState → Nat → Nat → Option (KState × Nat)
  | 0, K, _, va => if va < vahi then none else some (K, va)
  | fuel + 1, K, pmte, va =>
    if ¬ va < vahi then some (K, va)
    else if PTE_ADDR (rd64 K.mem pmte) = L.PTE_ZERO then
      removeLoop L pmlevel lower pmtab vahi fuel K (pmte + 8) (PDADDR pmlevel (va + PDSIZE pmlevel))
    else if PDOFF pmlevel va = 0 ∧ vahi - va ≥ PDSIZE pmlevel then
      let pgaddr := PGADDR (rd64 K.mem pmte)
      let K1 := mem_decref K (mem_phys2pi pgaddr) (pmap_freefun L pmlevel)
      let K2 : KState := { K1 with mem := wr64 K1.mem pmte L.PTE_ZERO }
      removeLoop L pmlevel lower pmtab vahi fuel K2 (pmte + 8) (va + PDSIZE pmlevel)
    else if pmlevel = 0 then none                       -- assert(pmlevel > 0)
    else
      match pmap_walk_level L pmlevel K pmtab va true with
      | none => none
      | some (K1, _) =>
        let lvahi :=
          if PDADDR pmlevel va + PDSIZE pmlevel > vahi then vahi
          else PDADDR pmlevel va + PDSIZE pmlevel
        match lower K1 (PTE_ADDR (rd64 K1.mem pmte)) va lvahi with
        | none => none
        | some (K2, _) => removeLoop L pmlevel lower pmtab vahi fuel K2 (pmte + 8) lvahi

/-- The C function `pmap_remove_level(pmlevel, pmtab, va, vahi)`. -/
def pmap_remove_level (L : Layout) : Nat → KState → Nat → Nat → Nat → Option (KState × Nat)
  | 0, K, pmtab, va, vahi =>
    removeLoop L 0 (fun _ _ _ _ => none) pmtab vahi (vahi - va) K (pmtab + 8 * PDX 0 va) va
  | l + 1, K, pmtab, va, vahi =>
    removeLoop L (l + 1) (pmap_remove_level L l) pmtab vahi (vahi - va) K
      (pmtab + 8 * PDX (l + 1) va) va

/-- The `while (va < vahi)` loop of `pmap_remove` (lines 457-459). -/
def removeTop (L : Layout) (pml4 vahi : Nat) : Nat → KState → Nat → Option KState
  | 0, K, va => if va < vahi then none else some K
  | fuel + 1, K, va =>
    if ¬ va < vahi then some K
    else
      match pmap_remove_level L NPTLVLS K pml4 va vahi with
      | none => none
      | some (K1, va1) => removeTop L pml4 vahi fuel K1 va1

/-- The C function `pmap_remove(pml4, va, size)`. -/
def pmap_remove (L : Layout) (K : KState) (pml4 va size : Nat) : Option KState :=
  if size % PAGESIZE = 0 ∧ L.VM_USERLO ≤ va ∧ va < L.VM_USERHI ∧ size ≤ L.VM_USERHI - va then
    removeTop L pml4 (va + size) (size + 1) K va
  else none

/-! ## `pmap_copy` (pmap.c 550-655) -/

/-- The `while (sva < svahi)` loop of `pmap_copy_level` (lines 594-654) at level
`pmlevel`, with `lower` standing for `pmap_copy_level(pmlevel - 1, ...)`.  Every
iteration advances `sva`, so `fuel = svahi - sva` suffices. -/
def copyLoop (L : Layout) (pmlevel : Nat)
    (lower : KState → Nat → Nat → Nat → Nat → Nat → Option KState) (spmtab dpmtab svahi : Nat) :
    Nat → KState → Nat → Nat → Nat → Nat → Option KState
  | 0, K, _, _, sva, _ => if sva < svahi then none else some K
  | fuel + 1, K, spmte, dpmte, sva, dva =>
    if ¬ sva < svahi then some K
    else if PDOFF pmlevel sva = 0 ∧ PDOFF pmlevel dva = 0 ∧ svahi - sva ≥ PDSIZE pmlevel then
      -- we can share an entire lower-level table
      let removed : Option KState :=
        if PTE_ADDR (rd64 K.mem dpmte) ≠ L.PTE_ZERO then
          (pmap_remove_level L pmlevel K dpmtab dva (dva + PDSIZE pmlevel)).map Prod.fst
        else some K
      match removed with
      | none => none
      | some K1 =>
        if PTE_ADDR (rd64 K1.mem dpmte) ≠ L.PTE_ZERO then none     -- assert
        else
          let m2 := wr64 K1.mem spmte (clrW (rd64 K1.mem spmte))
          let m3 := wr64 m2 dpmte (rd64 m2 spmte)
          let K3 : KState := { K1 with mem := m3 }
          let K4 :=
            if PTE_ADDR (rd64 m3 spmte) ≠ L.PTE_ZERO then
              mem_incref K3 (mem_phys2pi (PTE_ADDR (rd64 m3 spmte)))
            else K3
          copyLoop L pmlevel lower spmtab dpmtab svahi fuel K4 (spmte + 8) (dpmte + 8)
            (sva + PDSIZE pmlevel) (dva + PDSIZE pmlevel)
    else
      let size0 :=
        if PDOFF pmlevel sva > PDOFF pmlevel dva then PDSIZE pmlevel - PDOFF pmlevel sva
        else PDSIZE pmlevel - PDOFF pmlevel dva
      let size := if sva + size0 > svahi then svahi - sva else size0
      let copied : Option KState :=
        if PTE_ADDR (rd64 K.mem spmte) = L.PTE_ZERO then
          (pmap_remove_level L pmlevel K dpmtab dva (dva + size)).map Prod.fst
        else
          let walked : Option KState :=
            if PTE_ADDR (rd64 K.mem dpmte) = L.PTE_ZERO then
              (pmap_walk_level L pmlevel K dpmtab dva true).map Prod.fst
            else some K
          match walked with
          | none => none
          | some K1 =>
            if PTE_ADDR (rd64 K1.mem dpmte) = L.PTE_ZERO then none   -- assert
            else
              lower K1 (PTE_ADDR (rd64 K1.mem spmte)) sva (PTE_ADDR (rd64 K1.mem dpmte)) dva
                (sva + size)
      match copied with
      | none => none
      | some K2 =>
        copyLoop L pmlevel lower spmtab dpmtab svahi fuel K2
          (if PDOFF pmlevel (sva + size) = 0 then spmte + 8 else spmte)
          (if PDOFF pmlevel (dva + size) = 0 then dpmte + 8 else dpmte)
          (sva + size) (dva + size)

/-- The C function `pmap_copy_level(pmlevel, spmtab, sva, dpmtab, dva, svahi)`;
`pmap_copy_level L 0` is the leaf level, and the level below it fails
`assert(pmlevel >= 0)` unless its range is empty. -/
def pmap_copy_level (L : Layout) : Nat → KState → Nat → Nat → Nat → Nat → Nat → Option KState
  | 0, K, spmtab, sva, dpmtab, dva, svahi =>
    if sva ≥ svahi then some K
    else
      copyLoop L 0 (fun K1 _ sva1 _ _ svahi1 => if sva1 ≥ svahi1 then some K1 else none)
        spmtab dpmtab svahi (svahi - sva) K (spmtab + 8 * PDX 0 sva) (dpmtab + 8 * PDX 0 dva)
        sva dva
  | l + 1, K, spmtab, sva, dpmtab, dva, svahi =>
    if sva ≥ svahi then some K
    else
      copyLoop L (l + 1) (pmap_copy_level L l) spmtab dpmtab svahi (svahi - sva) K
        (spmtab + 8 * PDX (l + 1) sva) (dpmtab + 8 * PDX (l + 1) dva) sva dva

/-- The C function `pmap_copy(spml4, sva, dpml4, dva, size)`: the state and the
returned `int`. -/
def pmap_copy (L : Layout) (K : KState) (spml4 sva dpml4 dva size : Nat) :
    Option (KState × Nat) :=
  if PDOFF 0 sva = 0 ∧ PDOFF 0 dva = 0 ∧ PDOFF 0 size = 0
      ∧ L.VM_USERLO ≤ sva ∧ sva < L.VM_USERHI ∧ L.VM_USERLO ≤ dva ∧ dva < L.VM_USERHI
      ∧ size ≤ L.VM_USERHI - sva ∧ size ≤ L.VM_USERHI - dva then
    (pmap_copy_level L NPTLVLS K spml4 sva dpml4 dva (sva + size)).map (fun K1 => (K1, 1))
  else none

/-! ## `pmap_merge` (pmap.c 775-847) -/

/-- A returned pointer as the C value: `NULL` is address 0. -/
def ptrVal : Option Nat → Nat
  | none => 0
  | some p => p

/-- The `while (sva < svahi)` loop of `pmap_merge_level` (lines 814-846) at level
`pmlevel`, with `lower` standing for `pmap_merge_level(pmlevel - 1, ...)`.  The
second component counts the conflict diagnostics printed.  Every iteration
advances `sva` by `PDSIZE(pmlevel)`, so `fuel = svahi - sva` suffices. -/
def mergeLevelLoop (L : Layout) (pmlevel : Nat)
    (lower : KState → Nat → Nat → Nat → Nat → Nat → Nat → Option (KState × Nat))
    (spmtab dpmtab svahi : Nat) :
    Nat → KState → Nat → Nat → Nat → Nat → Nat → Nat → Option (KState × Nat)
  | 0, K, _, _, _, sva, _, c => if sva < svahi then none else some (K, c)
  | fuel + 1, K, rpmte, spmte, dpmte, sva, dva, c =>
    if ¬ sva < svahi then some (K, c)
    else
      let body : Option (KState × Nat) :=
        if rd64 K.mem spmte = rd64 K.mem rpmte then some (K, 0)
        else if rd64 K.mem dpmte = rd64 K.mem rpmte then
          (pmap_copy_level L pmlevel K spmtab sva dpmtab dva (sva + PDSIZE pmlevel)).map
            (fun K1 => (K1, 0))
        else if pmlevel > 0 then
          let rl0 := PTE_ADDR (rd64 K.mem rpmte)
          let sl0 := PTE_ADDR (rd64 K.mem spmte)
          let dl0 := PTE_ADDR (rd64 K.mem dpmte)
          let rlpmtab := if rl0 = 0 then L.PTE_ZERO else rl0
          let slpmtab := if sl0 = 0 then L.PTE_ZERO else sl0
          let walked : Option (KState × Nat) :=
            if PTE_ADDR dl0 = L.PTE_ZERO then
              (pmap_walk_level L pmlevel K dpmtab dva true).map (fun r => (r.1, ptrVal r.2))
            else some (K, dl0)
          match walked with
          | none => none
          | some (K1, dlpmtab) =>
            if PTE_ADDR dlpmtab = L.PTE_ZERO then none      -- assert
            else
              let lsvahi0 := PDADDR pmlevel sva + PDSIZE pmlevel
              let lsvahi := if lsvahi0 > svahi then svahi else lsvahi0
              lower K1 rlpmtab slpmtab sva dlpmtab dva lsvahi
        else
          (pmap_mergepage L K rpmte spmte dpmte).map (fun r => (r.1, if r.2 then 1 else 0))
      match body with
      | none => none
      | some (K2, c2) =>
        mergeLevelLoop L pmlevel lower spmtab dpmtab svahi fuel K2 (rpmte + 8) (spmte + 8)
          (dpmte + 8) (sva + PDSIZE pmlevel) (dva + PDSIZE pmlevel) (c + c2)

/-- The C function `pmap_merge_level(pmlevel, rpmtab, spmtab, sva, dpmtab, dva,
svahi)`: the state and the number of conflict diagnostics printed. -/
def pmap_merge_level (L : Layout) :
    Nat → KState → Nat → Nat → Nat → Nat → Nat → Nat → Option (KState × Nat)
  | 0, K, rpmtab, spmtab, sva, dpmtab, dva, svahi =>
    if sva ≥ svahi then some (K, 0)
    else
      mergeLevelLoop L 0 (fun _ _ _ _ _ _ _ => none) spmtab dpmtab svahi (svahi - sva) K
        (rpmtab + 8 * PDX 0 sva) (spmtab + 8 * PDX 0 sva) (dpmtab + 8 * PDX 0 dva) sva dva 0
  | l + 1, K, rpmtab, spmtab, sva, dpmtab, dva, svahi =>
    if sva ≥ svahi then some (K, 0)
    else
      mergeLevelLoop L (l + 1) (pmap_merge_level L l) spmtab dpmtab svahi (svahi - sva) K
        (rpmtab + 8 * PDX (l + 1) sva) (spmtab + 8 * PDX (l + 1) sva)
        (dpmtab + 8 * PDX (l + 1) dva) sva dva 0

/-- The C function `pmap_merge(rpml4, spml4, sva, dpml4, dva, size)`: the state,
the returned `int` and the number of conflict diagnostics printed. -/
def pmap_merge (L : Layout) (K : KState) (rpml4 spml4 sva dpml4 dva size : Nat) :
    Option (KState × Nat × Nat) :=
  if PDOFF 0 sva = 0 ∧ PDOFF 0 dva = 0 ∧ PDOFF 0 size = 0
      ∧ L.VM_USERLO ≤ sva ∧ sva < L.VM_USERHI ∧ L.VM_USERLO ≤ dva ∧ dva < L.VM_USERHI
      ∧ size ≤ L.VM_USERHI - sva ∧ size ≤ L.VM_USERHI - dva then
    (pmap_merge_level L NPTLVLS K rpml4 spml4 sva dpml4 dva (sva + size)).map
      (fun r => (r.1, 1, r.2))
  else none

/-- The address translation `va2pa(pmtab, va)` (lines 940-956): the frame mapped
at `va`, or `none` for `~0`. -/
def va2paWalk (m : Nat → Nat) : Nat → Nat → Nat → Option Nat
  | 0, ptab, va =>
    if rd64 m (ptab + 8 * PDX 0 va) &&& PTE_P = 0 then none
    else some (PTE_ADDR (rd64 m (ptab + 8 * PDX 0 va)))
  | l + 1, pmtab, va =>
    if rd64 m (pmtab + 8 * PDX (l + 1) va) &&& PTE_P = 0 then none
    else va2paWalk m l (PTE_ADDR (rd64 m (pmtab + 8 * PDX (l + 1) va))) va

/-- The C function `va2pa(pmtab, va)`. -/
def va2pa (K : KState) (pml4 va : Nat) : Option Nat := va2paWalk K.mem NPTLVLS pml4 va

/-! ## `pmap_setperm` (pmap.c 858-933) -/

/-- The `while (va < vahi)` loop of `pmap_setperm_level` (lines 894-932) at level
`pmlevel`, with `lower` standing for `pmap_setperm_level(pmlevel - 1, ...)`.  Every
iteration advances `va`, so `fuel = vahi - va` suffices. -/
def setpermLoop (L : Layout) (pmlevel : Nat)
    (lower : KState → Nat → Nat → Nat → Option KState) (pmtab vahi pteand pteor : Nat) :
    Nat → KState → Nat → Option KState
  | 0, K, va => if va < vahi then none else some K
  | fuel + 1, K, va =>
    if ¬ va < vahi then some K
    else
      let pmte := pmtab + 8 * PDX pmlevel va
      if PTE_ADDR (rd64 K.mem pmte) = L.PTE_ZERO ∧ pteor = 0 then
        -- no such page exists, we can just jump over
        setpermLoop L pmlevel lower pmtab vahi pteand pteor fuel K
          (PDADDR pmlevel va + PDSIZE pmlevel)
      else
        -- find & unshare PTE
        let walked : Option KState :=
          if pmlevel > 0 then (pmap_walk_level L pmlevel K pmtab va true).map Prod.fst
          else some K
        match walked with
        | none => none
        | some K1 =>
          if PDOFF pmlevel va = 0 ∧ vahi - va ≥ PDSIZE pmlevel then
            let done : Option KState :=
              if pmlevel = 0 then
                some { K1 with mem := wr64 K1.mem pmte ((rd64 K1.mem pmte &&& pteand) ||| pteor) }
              else lower K1 (PTE_ADDR (rd64 K1.mem pmte)) va (va + PDSIZE pmlevel)
            match done with
            | none => none
            | some K2 =>
              setpermLoop L pmlevel lower pmtab vahi pteand pteor fuel K2 (va + PDSIZE pmlevel)
          else
            let lvahi :=
              if PDADDR pmlevel va + PDSIZE pmlevel > vahi then vahi
              else PDADDR pmlevel va + PDSIZE pmlevel
            match lower K1 (PTE_ADDR (rd64 K1.mem pmte)) va lvahi with
            | none => none
            | some K2 => setpermLoop L pmlevel lower pmtab vahi pteand pteor fuel K2 lvahi

/-- The C function `pmap_setperm_level(pmlevel, pmtab, va, vahi, pteand, pteor)`;
below the leaf level `assert(pmlevel >= 0)` fails. -/
def pmap_setperm_level (L : Layout) : Nat → KState → Nat → Nat → Nat → Nat → Nat → Option KState
  | 0, K, pmtab, va, vahi, pteand, pteor =>
    setpermLoop L 0 (fun _ _ _ _ => none) pmtab vahi pteand pteor (vahi - va) K va
  | l + 1, K, pmtab, va, vahi, pteand, pteor =>
    setpermLoop L (l + 1)
      (fun K1 tab va1 vahi1 => pmap_setperm_level L l K1 tab va1 vahi1 pteand pteor)
      pmtab vahi pteand pteor (vahi - va) K va

/-- The 64-bit complement `~x` of a flag mask. -/
def not64 (x : Nat) : Nat := 2 ^ 64 - 1 - x

/-- The C function `pmap_setperm(pml4, va, size, perm)`: the state and the returned
`int`. -/
def pmap_setperm (L : Layout) (K : KState) (pml4 va size perm : Nat) : Option (KState × Nat) :=
  if va % PAGESIZE = 0 ∧ size % PAGESIZE = 0 ∧ L.VM_USERLO ≤ va ∧ va < L.VM_USERHI
      ∧ size ≤ L.VM_USERHI - va ∧ perm &&& not64 SYS_RW = 0 then
    let pteand :=
      if perm &&& SYS_READ = 0 then not64 (SYS_RW ||| PTE_W ||| PTE_P)
      else if perm &&& SYS_WRITE = 0 then not64 (SYS_WRITE ||| PTE_W)
      else not64 0
    let pteor :=
      if perm &&& SYS_READ = 0 then 0
      else if perm &&& SYS_WRITE = 0 then SYS_READ ||| PTE_U ||| PTE_P ||| PTE_A
      else SYS_RW ||| PTE_U ||| PTE_P ||| PTE_A ||| PTE_D
    (pmap_setperm_level L NPTLVLS K pml4 va (va + size) pteand pteor).map (fun K1 => (K1, 1))
  else none

/-! ## `pmap_pagefault` (pmap.c 664-718) -/

/-- Modelled from the spec: `PFE_WR` of the missing `inc/mmu.h`, the write bit of
the page-fault error code. -/
def PFE_WR : Nat := 0x2

/-- The presence check of `pmap_pagefault` (lines 678-687) from level `pmlevel`
down to level 1: whether every interior entry on the path of `fva` is present. -/
def pathPresent (m : Nat → Nat) : Nat → Nat → Nat → Bool
  | 0, _, _ => true
  | l + 1, pmtab, fva =>
    if rd64 m (pmtab + 8 * PDX (l + 1) fva) &&& PTE_P = 0 then false
    else pathPresent m l (PTE_ADDR (rd64 m (pmtab + 8 * PDX (l + 1) fva))) fva

/-- Lines 698-709 of `pmap_pagefault`: give the leaf at `pte` a private frame and
make it writable.  `none` is the failed `assert(npi)`. -/
def faultCopy (L : Layout) (K : KState) (pte : Nat) : Option KState :=
  let pg := PTE_ADDR (rd64 K.mem pte)
  let copied : Option (KState × Nat) :=
    if pg = L.PTE_ZERO ∨ K.refcount (mem_phys2pi pg) > 1 then
      match mem_alloc K with
      | none => none
      | some (npi, K1) =>
        let K2 := mem_incref K1 npi
        let npg := mem_pi2phys npi
        let K3 : KState := { K2 with mem := memmovePage K2.mem npg pg }
        let K4 := if pg ≠ L.PTE_ZERO then mem_decref K3 (mem_phys2pi pg) mem_free else K3
        some (K4, npg)
    else some (K, pg)
  match copied with
  | none => none
  | some (K5, pg1) =>
    let npte := pg1 ||| SYS_RW ||| PTE_A ||| PTE_D ||| PTE_W ||| PTE_U ||| PTE_P
    some { K5 with mem := wr64 K5.mem pte npte }

/-- The C function `pmap_pagefault(tf)` for the faulting address `fva` (`cr2`), the
error code `err` (`tf->err`) and the current process's root `pml4`.  The flag
tells whether the fault was handled (`trap_return`) or left to be blamed on the
user (plain `return`); `none` is a failed assertion. -/
def pmap_pagefault (L : Layout) (K : KState) (pml4 fva err : Nat) : Option (KState × Bool) :=
  if fva < L.VM_USERLO ∨ fva ≥ L.VM_USERHI ∨ err &&& PFE_WR = 0 then some (K, false)
  else if ¬ pathPresent K.mem NPTLVLS pml4 fva then some (K, false)
  else
    match pmap_walk L K pml4 fva true with
    | none => none
    | some (K1, r) =>
      let pte := ptrVal r
      if rd64 K1.mem pte &&& (SYS_READ ||| SYS_WRITE ||| PTE_P) ≠ (SYS_READ ||| SYS_WRITE ||| PTE_P)
      then some (K1, false)
      else if rd64 K1.mem pte &&& PTE_W ≠ 0 then none        -- assert(!(*pte & PTE_W))
      else (faultCopy L K1 pte).map (fun K2 => (K2, true))

/-- The 8-byte entry at `p` lies outside the page at `pg`. -/
def entryOutside (p pg : Nat) : Prop := p + 8 ≤ pg ∨ pg + PAGESIZE ≤ p

instance (p pg : Nat) : Decidable (entryOutside p pg) := by
  unfold entryOutside; infer_instance

/-- The state after the unsharing step of `pmap_mergepage` when a frame is
allocated. -/
def unsharedState (L : Layout) (K : KState) (npi : Nat) (fl : List Nat) (dpte d : Nat) :
    KState :=
  { (if d ≠ L.PTE_ZERO then
      mem_decref { mem_incref { K with freelist := fl } npi with
          mem := memmovePage K.mem (mem_pi2phys npi) d } (mem_phys2pi d) mem_free
    else { mem_incref { K with freelist := fl } npi with
          mem := memmovePage K.mem (mem_pi2phys npi) d }) with
    mem := wr64 (memmovePage K.mem (mem_pi2phys npi) d) dpte (mem_pi2phys npi ||| 0x667) }


/-- The destination page of a merge has to be copied first: it is the zero page
or its frame is shared (the test of line 737). -/
def dstShared (L : Layout) (K : KState) (d : Nat) : Prop :=
  d = L.PTE_ZERO ∨ K.refcount (mem_phys2pi d) > 1

/-- Separation conditions under which `pmap_mergepage(rpte, spte, dpte)` is
studied: the destination leaf entry does not lie inside the page the merge
writes, and when the destination has to be unshared the head of the free list is
a frame that is none of the three pages and not the zero page, and the leaf
entry does not lie inside that frame or inside the reference or source page. -/
def MergeReady (L : Layout) (K : KState) (rpte spte dpte : Nat) : Prop :=
  (¬ dstShared L K (PTE_ADDR (rd64 K.mem dpte)) →
      entryOutside dpte (PTE_ADDR (rd64 K.mem dpte))) ∧
  (dstShared L K (PTE_ADDR (rd64 K.mem dpte)) →
    ∃ npi fl, K.freelist = npi :: fl ∧ npi < 2 ^ 52 ∧ mem_pi2phys npi ≠ L.PTE_ZERO ∧
      mem_pi2phys npi ≠ PTE_ADDR (rd64 K.mem rpte) ∧
      mem_pi2phys npi ≠ PTE_ADDR (rd64 K.mem spte) ∧
      mem_pi2phys npi ≠ PTE_ADDR (rd64 K.mem dpte) ∧
      entryOutside dpte (mem_pi2phys npi) ∧
      entryOutside dpte (PTE_ADDR (rd64 K.mem rpte)) ∧
      entryOutside dpte (PTE_ADDR (rd64 K.mem spte)))

/-- Byte index `i` is a conflict: source and destination both differ from the
reference. -/
def conflictAt (m : Nat → Nat) (r s d i : Nat) : Prop :=
  m (s + i) ≠ m (r + i) ∧ m (d + i) ≠ m (r + i)

instance (m : Nat → Nat) (r s d i : Nat) : Decidable (conflictAt m r s d i) := by
  unfold conflictAt; infer_instance

/-! ## Example states -/

/-- An example layout: the zero page at `0x1000`, the user window from 1 GiB. -/
def exLayout : Layout :=
  { PTE_ZERO := 0x1000, VM_USERLO := 0x40000000, VM_USERHI := 0x8000000000 }

/-- Example memory for `pmap_mergepage`: a page table at `0x20000` whose entries 0,
1, 2 map the frames `0x30000` (reference, all zero), `0x31000` (source, byte 0 is
7) and `0x32000` (destination, byte `k` is 9), each with `SYS_RW` and the
hardware bits `0x007`. -/
def exMergeMem (k : Nat) : Nat → Nat :=
  wr8 (wr8 (wr64 (wr64 (wr64 (fun _ => 0) 0x20000 0x30607) 0x20008 0x31607) 0x20010 0x32607)
    0x31000 7) (0x32000 + k) 9

/-- Example state for `pmap_mergepage`: the destination frame is shared, the
free list holds frame `0x40`. -/
def exMergeK (k : Nat) : KState :=
  { mem := exMergeMem k
    refcount := fun q => if q = 0x30 ∨ q = 0x31 then 1 else if q = 0x32 then 2 else 0
    freelist := [0x40] }

/-! ## Example scenarios, built with the operations themselves -/

/-- A root table whose 512 entries are all `PTE_ZERO` (the user half of a fresh
page-map root). -/
def exRoot (m : Nat → Nat) (root : Nat) : Nat → Nat :=
  mapTable m root root (fun _ => exLayout.PTE_ZERO)

/-- Fill the page at `pg` with the byte `v`. -/
def frameFill (m : Nat → Nat) (pg v : Nat) : Nat → Nat :=
  fun x => if pg ≤ x ∧ x < pg + 4096 then v else m x

/-- The three example roots: parent (destination), child (source) and the child's
reference snapshot. -/
def rootP : Nat := 0x10000
def rootS : Nat := 0x11000
def rootR : Nat := 0x12000

/-- The start of the example user window, `exLayout.VM_USERLO`. -/
def UL : Nat := 0x40000000

/-- The initial example state, shaped as `pmap_newpmap` leaves three fresh roots:
each root's entry 0 points (with `PTE_A | PTE_P | PTE_W | PTE_U`) to a private
page-directory-pointer table (`0x13000`, `0x14000`, `0x15000`) whose entries are
all `PTE_ZERO`; the six tables have one reference each.  Four data frames
`0x80 .. 0x83` are filled with the bytes `0xA1`, `0xB2`, `0xC3`, `0xD4` (not yet
mapped, reference count 0), and 26 frames `0x20 .. 0x39` are free. -/
def exK0 : KState :=
  { mem := wr64 (wr64 (wr64 (frameFill (frameFill (frameFill (frameFill
      (exRoot (exRoot (exRoot (exRoot (exRoot (exRoot (fun _ => 0) rootP) rootS) rootR)
        0x13000) 0x14000) 0x15000)
        0x80000 0xA1) 0x81000 0xB2) 0x82000 0xC3) 0x83000 0xD4)
      rootP 0x13027) rootS 0x14027) rootR 0x15027
    refcount := fun q => if 0x10 ≤ q ∧ q ≤ 0x15 then 1 else 0
    freelist := [0x20, 0x21, 0x22, 0x23, 0x24, 0x25, 0x26, 0x27, 0x28, 0x29, 0x2a, 0x2b, 0x2c,
      0x2d, 0x2e, 0x2f, 0x30, 0x31, 0x32, 0x33, 0x34, 0x35, 0x36, 0x37, 0x38, 0x39] }

/-- Run `pmap_insert` and keep the state when it returns an entry. -/
def thenInsert (K : Option KState) (root pi va perm : Nat) : Option KState :=
  K.bind (fun K =>
    (pmap_insert exLayout K root pi va perm).bind (fun r => r.2.map (fun _ => r.1)))

/-- Run `pmap_copy` and keep the state. -/
def thenCopy (K : Option KState) (s sva d dva size : Nat) : Option KState :=
  K.bind (fun K => (pmap_copy exLayout K s sva d dva size).map Prod.fst)

/-- Run `pmap_merge` and keep the state. -/
def thenMerge (K : Option KState) (r s sva d dva size : Nat) : Option KState :=
  K.bind (fun K => (pmap_merge exLayout K r s sva d dva size).map Prod.fst)

/-- Run `pmap_setperm` and keep the state. -/
def thenSetperm (K : Option KState) (root va size perm : Nat) : Option KState :=
  K.bind (fun K => (pmap_setperm exLayout K root va size perm).map Prod.fst)

/-- Run `pmap_remove`. -/
def thenRemove (K : Option KState) (root va size : Nat) : Option KState :=
  K.bind (fun K => pmap_remove exLayout K root va size)

/-- The translation `va2pa(root, va)` in a scenario state. -/
def lookAt (K : Option KState) (root va : Nat) : Option (Option Nat) :=
  K.map (fun K => va2pa K root va)

/-- The leaf entry for `va` found by a read-only `pmap_walk`, in a scenario state. -/
def leafAt (K : Option KState) (root va : Nat) : Option (Option Nat) :=
  K.bind (fun K =>
    (pmap_walk exLayout K root va false).map (fun r => r.2.map (fun p => rd64 r.1.mem p)))

/-- Byte `i` of the page translated at `va`, in a scenario state. -/
def byteAt (K : Option KState) (root va i : Nat) : Option (Option Nat) :=
  K.map (fun K => (va2pa K root va).map (fun pg => K.mem (pg + i)))

/-- Scenario with a shared page table: the child maps frame `0x81` at
`UL + 4 MiB` (so it owns a page directory), the parent maps frame `0x80` at `UL`
and frame `0x82` at `UL + PAGESIZE` with nominal read/write permission, and the
parent's first 2 MiB are copied to the child.  The child's page-directory entry
now points, read-only, to the parent's page table (two references); frame `0x80`
has one reference. -/
def scSharedPT : Option KState :=
  thenCopy (thenInsert (thenInsert (thenInsert (some exK0) rootS 0x81 (UL + 0x400000) 0x600)
    rootP 0x80 UL 0x600) rootP 0x82 (UL + 0x1000) 0x600) rootP UL rootS UL 0x200000

/-- Scenario for an unaligned `pmap_merge`: reference and destination both map
frame `0x80` at `UL + 0x1FF000` (last page of the first page table) and frame
`0x82` at `UL + 0x200000` (first page of the second page table); the source maps
frame `0x80` at the first address and frame `0x81` at the second.  Every root
has its own tables. -/
def scMergeUnaligned : Option KState :=
  thenInsert (thenInsert (thenInsert (thenInsert (thenInsert (thenInsert (some exK0)
    rootR 0x80 (UL + 0x1FF000) 0x600) rootR 0x82 (UL + 0x200000) 0x600)
    rootS 0x80 (UL + 0x1FF000) 0x600) rootS 0x81 (UL + 0x200000) 0x600)
    rootP 0x80 (UL + 0x1FF000) 0x600) rootP 0x82 (UL + 0x200000) 0x600

/-- Scenario for a one-page `pmap_merge`: the parent maps frames `0x80`, `0x81` at
`UL`, `UL + PAGESIZE`; the reference is a snapshot of the parent's first
gigabyte (it shares the parent's page directory); the source maps frames
`0x82`, `0x83` at the same two addresses through its own tables. -/
def scMergeOnePage : Option KState :=
  thenInsert (thenInsert
    (thenCopy (thenInsert (thenInsert (some exK0) rootP 0x80 UL 0x600) rootP 0x81 (UL + 0x1000)
      0x600) rootP UL rootR UL 0x40000000)
    rootS 0x82 UL 0x600) rootS 0x83 (UL + 0x1000) 0x600

/-- Scenario for `pmap_copy` between address spaces that share a page table: the
source maps frames `0x80`, `0x81`, `0x82` at `UL`, `UL + PAGESIZE`,
`UL + 2 * PAGESIZE`, and its first gigabyte is copied to the destination, which
now shares the source's page directory and page table. -/
def scCopyShared : Option KState :=
  thenCopy (thenInsert (thenInsert (thenInsert (some exK0) rootS 0x80 UL 0x600)
    rootS 0x81 (UL + 0x1000) 0x600) rootS 0x82 (UL + 0x2000) 0x600) rootS UL rootP UL 0x40000000

/-- Scenario for `pmap_merge` after a fork: the source (child) maps frame `0x82` at
`UL` through its own tables; the parent maps frame `0x80` at `UL`; the reference
is a snapshot of the parent's first gigabyte; then the parent maps frame `0x81`
at `UL + 2 MiB`, which gives it a private copy of the page directory whose
entries still point, read-only, to the page table shared with the reference. -/
def scMergeFork : Option KState :=
  thenInsert
    (thenCopy (thenInsert (thenInsert (some exK0) rootS 0x82 UL 0x600) rootP 0x80 UL 0x600)
      rootP UL rootR UL 0x40000000)
    rootP 0x81 (UL + 0x200000) 0x600

/-- Scenario without free memory: the source maps frame `0x80` at `UL`, the
destination has no page directory, and the free list is empty. -/
def scNoMemory : Option KState :=
  (thenInsert (some exK0) rootS 0x80 UL 0x600).map (fun K => { K with freelist := [] })

/-- Scenario for `pmap_insert` without free memory: the child's first gigabyte is a
copy of the parent's, the parent's gigabyte has been overwritten since with a
copy of the empty reference (so the child's page-directory-pointer entry is
read-only and its page directory has one reference), and the free list is
empty. -/
def scInsertNoMemory : Option KState :=
  (thenCopy (thenCopy (thenInsert (some exK0) rootP 0x80 UL 0x600) rootP UL rootS UL
    0x40000000) rootR UL rootP UL 0x40000000).map (fun K => { K with freelist := [] })

/-- Scenario for `pmap_remove` of a zero-mapping: the parent maps frame `0x80` at
`UL` and `pmap_setperm` has granted `SYS_READ` on the unmapped page at
`UL + PAGESIZE`. -/
def scReadZero : Option KState :=
  thenSetperm (thenInsert (some exK0) rootP 0x80 UL 0x600) rootP (UL + 0x1000) 0x1000 SYS_READ

/-- Scenario for `pmap_setperm` without free memory: the initial example state with
an empty free list; the parent has no page directory yet. -/
def scFreshNoMemory : KState := { exK0 with freelist := [] }

/-- Scenario for the `pmap_setperm` round trip: the parent maps frame `0x80` (bytes
`0xA1`) at `UL` with nominal read/write permission. -/
def scMapped : Option KState := thenInsert (some exK0) rootP 0x80 UL 0x600

/-! # Process manager: a shallow embedding of `kern/proc.c`

A `proc *` is the address of the process's frame, `NULL` is `none`, and a
`proc **` (`readytail`, `pacingtail`, the running pointer `pp` of the list
loops) is a `Link`: either the head variable itself or the link field of a
process.  One CPU is modelled (`cpu_cur()` is CPU 0, `cur` is its `proc`
field); the queue spinlocks `readylock` and `pacinglock`, taken and released
inside one function, are not part of the state, the per-process lock is.
Every function is modelled up to its final call of `proc_sched` (which does not
return); `proc_sched` itself is the dequeue followed by `proc_run`. -/

/-- The `proc_state` enumeration of `kern/proc.h`. -/
inductive proc_state where
  | PROC_STOP | PROC_READY | PROC_RUN | PROC_WAIT | PROC_BLOCK
  | PROC_MIGR | PROC_AWAY | PROC_PULL | PROC_SEND | PROC_RECV
  deriving DecidableEq, Repr

open proc_state

/-- The fields of `struct proc` (kern/proc.h) that the scheduler and the network
code use; labels are kept abstract. -/
structure Proc where
  lock : Bool := false
  parent : Option Nat := none
  state : proc_state := PROC_STOP
  readynext : Option Nat := none
  pacingnext : Option Nat := none
  runcpu : Option Nat := none
  waitproc : Option Nat := none
  ts : Nat := 0
  sv_tf : Nat := 0
  pff_reexec : Bool := false
  pml4 : Nat := 0
  home : Nat := 0
  migrdest : Nat := 0
  migrnext : Option Nat := none
  pullnext : Option Nat := none
  pullva : Nat := 0
  pullrr : Nat := 0
  pullpg : Nat := 0
  pglev : Nat := 0
  arrived : Nat := 0
  mid : Nat := 0
  label : Nat := 0
  clearance : Nat := 0
  remotenext : Option Nat := none
  remoteid : Nat := 0
  remoteva : Nat := 0
  remotelimit : Nat := 0
  deriving DecidableEq, Repr

/-- A `proc **`: the address of a list head variable or of the link field of the
process `p`. -/
inductive Link where
  | head
  | next (p : Nat)
  deriving DecidableEq, Repr

/-- The address of the special null process `proc_null`. -/
def proc_null : Nat := 0

/-- The scheduler's global state: the process frames, the ready queue
(`readyhead`, `readytail`), the pacing list (`pacinghead`, `pacingtail`), the
global `proc_net` and the current process of the CPU. -/
structure Sched where
  procs : Nat → Proc
  readyhead : Option Nat
  readytail : Link
  pacinghead : Option Nat
  pacingtail : Link
  proc_net : Option Nat
  cur : Option Nat

/-- Store `f p` in the frame of process `p`. -/
def Sched.upd (S : Sched) (p : Nat) (f : Proc → Proc) : Sched :=
  { S with procs := fun q => if q = p then f (S.procs p) else S.procs q }

/-- The C function `proc_init`: both queues empty. -/
def proc_init (procs : Nat → Proc) (net : Option Nat) : Sched :=
  { procs := procs, readyhead := none, readytail := Link.head, pacinghead := none,
    pacingtail := Link.head, proc_net := net, cur := none }

/-- The C function `proc_ready(p)` (lines 131-147). -/
def proc_ready (S : Sched) (p : Nat) : Sched :=
  let S1 := S.upd p (fun r => { r with state := PROC_READY, readynext := none, waitproc := none })
  -- *readytail = p;
  let S2 : Sched :=
    match S1.readytail with
    | Link.head => { S1 with readyhead := some p }
    | Link.next q => S1.upd q (fun r => { r with readynext := some p })
  -- readytail = &p->readynext;
  { S2 with readytail := Link.next p }

/-- The C function `proc_save(p, tf, entry)` (lines 157-197): `none` is the failed
`assert(p == proc_cur())`.  The trap frame is a token; `entry` is 0 when the
system call has to be re-executed. -/
def proc_save (S : Sched) (p tf : Nat) (entry : Int) : Option Sched :=
  if S.cur ≠ some p then none
  else
    some (S.upd p (fun r =>
      { r with sv_tf := tf, pff_reexec := if entry = 0 then true else r.pff_reexec }))

/-- The C function `proc_wait(p, cp, tf, ts)` (lines 202-235) up to its call of
`proc_sched`; `none` is a failed assertion. -/
def proc_wait (S : Sched) (p : Nat) (cp : Option Nat) (tf ts : Nat) : Option Sched :=
  match cp with
  | none => none                                           -- assert(cp && ...)
  | some c =>
    if ¬ (S.procs p).lock then none
    else if c = proc_null then none
    else if ¬ (ts ≠ 0 ∨ (S.procs c).state ≠ PROC_STOP) then none
    else if ¬ (ts ≠ 0 ∨ (S.procs c).state ≠ PROC_BLOCK ∨ (S.procs c).waitproc ≠ some p) then none
    else
      let S1 := S.upd p (fun r =>
        { r with state := PROC_WAIT, runcpu := none, waitproc := some c, ts := ts })
      match proc_save S1 p tf 0 with
      | none => none
      | some S2 =>
        let S3 := S2.upd p (fun r => { r with lock := false })
        if ts ≠ 0 then
          -- put it in pacing list
          let S4 := S3.upd p (fun r => { r with pacingnext := none })
          let S5 : Sched :=
            match S4.pacingtail with
            | Link.head => { S4 with pacinghead := some p }
            | Link.next q => S4.upd q (fun r => { r with pacingnext := some p })
          some { S5 with pacingtail := Link.next p }
        else some S3

/-- Lines 246-250 of `proc_wake`: forget the awaited process when it is stopped. -/
def wakeClear (S : Sched) (p : Nat) : Sched :=
  match (S.procs p).waitproc with
  | none => S
  | some cp =>
    if some cp = S.proc_net ∨ (S.procs cp).state = PROC_STOP ∨ (S.procs cp).state = PROC_BLOCK
    then S.upd p (fun r => { r with waitproc := none })   -- child is stopped
    else S

/-- Lines 251-254 of `proc_wake`: clear the timestamp when it has passed. -/
def wakeTime (S : Sched) (p time : Nat) : Sched :=
  if time > (S.procs p).ts then S.upd p (fun r => { r with ts := 0 }) else S

/-- The C function `proc_wake(p, time)` (lines 240-258); `none` is a failed
assertion. -/
def proc_wake (S : Sched) (p time : Nat) : Option Sched :=
  if ¬ (S.procs p).lock then none
  else if (S.procs p).state ≠ PROC_WAIT then none
  else
    let S2 := wakeTime (wakeClear S p) p time
    if (S2.procs p).waitproc = none ∧ (S2.procs p).ts = 0 then some (proc_ready S2 p)
    else some S2

/-- The store `*l = v` through a pacing-list link. -/
def pacingSet (S : Sched) : Link → Option Nat → Sched
  | Link.head, v => { S with pacinghead := v }
  | Link.next q, v => S.upd q (fun r => { r with pacingnext := v })

/-- The value `*l` of a pacing-list link. -/
def pacingAt (S : Sched) : Link → Option Nat
  | Link.head => S.pacinghead
  | Link.next q => (S.procs q).pacingnext

/-- The body of the `while (p)` loop of `proc_wake_all` (lines 270-287) for the
process `p = *pp`: the state and the link `pp` after it.  `none` is a failed
assertion or a lock that is already held. -/
def wakeAllBody (time : Nat) (S : Sched) (pp : Link) (p : Nat) : Option (Sched × Link) :=
  if (S.procs p).lock then none                              -- spinlock_acquire(&p->lock)
  else
    match proc_wake (S.upd p (fun r => { r with lock := true })) p time with
    | none => none
    | some S1 =>
      if (S1.procs p).state = PROC_READY then
        -- *pp = p->pacingnext;
        let S2 := pacingSet S1 pp (S1.procs p).pacingnext
        let S3 : Option Sched :=
          if pp = Link.head ∧ S2.pacingtail = Link.next p then
            if S2.pacinghead ≠ none then none                -- assert(pacinghead == NULL)
            else some { S2 with pacingtail := Link.head }
          else some S2
        match S3 with
        | none => none
        | some S4 => some (S4.upd p (fun r => { r with pacingnext := none, lock := false }), pp)
      else
        some (S1.upd p (fun r => { r with lock := false }), Link.next p)

/-- The `while (p)` loop of `proc_wake_all` (lines 267-289) with the running link
`pp`; `none` is a failure of the body, or the end of the fuel (a list of at
most `fuel` processes is walked to its end). -/
def wakeAllLoop (time : Nat) : Nat → Sched → Link → Option Sched
  | 0, S, pp =>
    match pacingAt S pp with
    | none => some S
    | some _ => none
  | fuel + 1, S, pp =>
    match pacingAt S pp with
    | none => some S
    | some p =>
      match wakeAllBody time S pp p with
      | none => none
      | some (S1, pp1) => wakeAllLoop time fuel S1 pp1

/-- The C function `proc_wake_all(time)` (lines 260-291) for a pacing list of at
most `fuel` processes. -/
def proc_wake_all (fuel : Nat) (S : Sched) (time : Nat) : Option Sched :=
  wakeAllLoop time fuel S Link.head

/-- The C function `proc_run(p)` (lines 333-400) up to the return to user mode;
`none` is the failed `assert(spinlock_holding(&p->lock))`. -/
def proc_run (S : Sched) (p : Nat) : Option Sched :=
  if ¬ (S.procs p).lock then none
  else
    let S1 := S.upd p (fun r => { r with state := PROC_RUN, runcpu := some 0 })
    some ({ S1 with cur := some p }.upd p (fun r => { r with lock := false }))

/-- Lines 318-330 of `proc_sched`: remove the next process from the ready queue
and lock it.  `none` stands for the spin-wait on an empty queue, the failed
assertion of line 322, or a lock that is already held. -/
def sched_dequeue (S : Sched) : Option (Sched × Nat) :=
  match S.readyhead with
  | none => none
  | some p =>
    let S1 : Sched := { S with readyhead := (S.procs p).readynext }
    let S2 : Option Sched :=
      if S1.readytail = Link.next p then
        if S1.readyhead ≠ none then none                    -- assert(readyhead == NULL)
        else some { S1 with readytail := Link.head }
      else some S1
    match S2 with
    | none => none
    | some S3 =>
      let S4 := S3.upd p (fun r => { r with readynext := none })
      if (S4.procs p).lock then none
      else some (S4.upd p (fun r => { r with lock := true }), p)

/-- The C function `proc_sched()` (lines 298-331): dequeue and `proc_run`. -/
def proc_sched (S : Sched) : Option (Sched × Nat) :=
  match sched_dequeue S with
  | none => none
  | some (S1, p) => (proc_run S1 p).map (fun S2 => (S2, p))

/-- The C function `proc_yield(tf)` (lines 404-421) up to its call of
`proc_sched`. -/
def proc_yield (S : Sched) (tf : Nat) : Option Sched :=
  match S.cur with
  | none => none
  | some p =>
    if (S.procs p).runcpu ≠ some 0 then none
    else
      match proc_save (S.upd p (fun r => { r with runcpu := none })) p tf (-1) with
      | none => none
      | some S1 => some (proc_ready S1 p)

/-- The C function `proc_ret(tf, entry)` (lines 427-475) for a process on its home
node that has a parent, up to its call of `proc_sched`.  `none` is a failed
assertion, a parent lock that is already held, or one of the paths that leave
the function (migration to the home node, return from the root process). -/
def proc_ret (S : Sched) (tf : Nat) (entry : Int) (atHome : Bool) : Option Sched :=
  match S.cur with
  | none => none
  | some cp =>
    if ¬ ((S.procs cp).state = PROC_RUN ∧ (S.procs cp).runcpu = some 0) then none
    else if ¬ atHome then none
    else
      match (S.procs cp).parent with
      | none => none
      | some p =>
        if (S.procs p).lock then none
        else
          let S1 := S.upd p (fun r => { r with lock := true })
          let S2 := S1.upd cp (fun r => { r with state := PROC_STOP, runcpu := none })
          match proc_save S2 cp tf entry with
          | none => none
          | some S3 =>
            let S4 : Option Sched :=
              if (S3.procs p).state = PROC_WAIT ∧ (S3.procs p).waitproc = some cp then
                proc_wake S3 p 0
              else some S3
            S4.map (fun S5 => S5.upd p (fun r => { r with lock := false }))

/-- The value `*l` of a ready-queue link. -/
def readyAt (S : Sched) : Link → Option Nat
  | Link.head => S.readyhead
  | Link.next q => (S.procs q).readynext

/-- The test of line 247 of `proc_wake` on the state at entry: the process `p`
awaits nobody, or the process it awaits is `proc_net`, stopped or blocked. -/
def awaitDone (S : Sched) (p : Nat) : Prop :=
  match (S.procs p).waitproc with
  | none => True
  | some cp =>
    some cp = S.proc_net ∨ (S.procs cp).state = PROC_STOP ∨ (S.procs cp).state = PROC_BLOCK

instance (S : Sched) (p : Nat) : Decidable (awaitDone S p) := by
  unfold awaitDone; split <;> infer_instance

/-- A singly linked list: starting at `h` and following `next`, the processes
of `l` are met in order and then `NULL`. -/
def Chain (next : Nat → Option Nat) : Option Nat → List Nat → Prop
  | h, [] => h = none
  | h, p :: l => h = some p ∧ Chain next (next p) l

/-- The link that holds the terminating `NULL` of the list `l`. -/
def tailLink : List Nat → Link
  | [] => Link.head
  | [p] => Link.next p
  | _ :: q :: l => tailLink (q :: l)

/-- The `spinlock_acquire(&p->lock)` that a caller performs before it calls
`proc_wait` or `proc_wake`. -/
def lockProc (S : Sched) (p : Nat) : Sched := S.upd p (fun r => { r with lock := true })

/-- A sequence of `proc_ready` calls on the processes of `l`, in order. -/
def readyAll (S : Sched) (l : List Nat) : Sched := l.foldl proc_ready S

/-- The first `n` successive runs of `proc_sched`, with the processes they
dequeue, in order. -/
def schedN : Nat → Sched → Option (Sched × List Nat)
  | 0, S => some (S, [])
  | n + 1, S =>
    match proc_sched S with
    | none => none
    | some (S1, p) => (schedN n S1).map (fun r => (r.1, p :: r.2))

/-- Example process table: every frame is zeroed (state STOP), process 2 is the
child of process 1. -/
def exProcs : Nat → Proc := fun p => if p = 2 then { parent := some 1 } else {}

/-- Example: a locked process 1 in WAIT with pacing timestamp 5 that awaits
nobody. -/
def exWaiting : Sched :=
  proc_init (fun p => if p = 1 then { state := PROC_WAIT, lock := true, ts := 5 } else {}) none

/-- Example: process 1 runs, starts its child 2 and waits for it with the pacing
timestamp `ts`; then the child runs. -/
def scChildRuns (ts : Nat) : Option Sched := do
  let S1 := proc_ready (proc_init exProcs none) 1
  let (S2, _) ← proc_sched S1
  let S3 := proc_ready S2 2
  let S4 ← proc_wait (lockProc S3 1) 1 (some 2) 100 ts
  let (S5, _) ← proc_sched S4
  pure S5

/-- Example: as `scChildRuns 5`, then the timer tick `proc_wake_all(10)` while
the child still runs, then the child returns with `proc_ret`. -/
def scBothLists : Option Sched := do
  let S5 ← scChildRuns 5
  let S6 ← proc_wake_all 4 S5 10
  proc_ret S6 200 1 true

/-- Example: processes 1, 2 and 3 run in turn; 1 waits with timestamp 100 and 2
with timestamp 5 (both for the stopped process 9), the timer tick
`proc_wake_all(10)` wakes 2, then 3 waits with timestamp 7. -/
def scTailLost : Option Sched := do
  let S1 := readyAll (proc_init exProcs none) [1, 2, 3]
  let (S2, _) ← proc_sched S1
  let S3 ← proc_wait (lockProc S2 1) 1 (some 9) 100 100
  let (S4, _) ← proc_sched S3
  let S5 ← proc_wait (lockProc S4 2) 2 (some 9) 100 5
  let (S6, _) ← proc_sched S5
  let S7 ← proc_wake_all 4 S6 10
  proc_wait (lockProc S7 3) 3 (some 9) 100 7

/-- Example: the state reached by `scChildRuns 0`: the child 2 runs and its
parent 1 waits for it without a pacing timestamp. -/
def exChildRunning : Sched := (scChildRuns 0).getD (proc_init exProcs none)

/-- The ready queue of `S` is the well-formed list `l`: `readyhead` leads through
the `readynext` fields to the processes of `l`, which are distinct, and
`readytail` addresses the terminating link. -/
def ReadyQ (S : Sched) (l : List Nat) : Prop :=
  Chain (fun q => (S.procs q).readynext) S.readyhead l ∧ S.readytail = tailLink l ∧ l.Nodup

/-- The pacing list of `S` is the well-formed list `l`. -/
def PacingQ (S : Sched) (l : List Nat) : Prop :=
  Chain (fun q => (S.procs q).pacingnext) S.pacinghead l ∧ S.pacingtail = tailLink l ∧ l.Nodup

/-- The wake condition of `proc_wake` for the process `p` at `time`: the awaited
process is done and the time is past the pacing timestamp (or that is 0). -/
def wakeable (S : Sched) (time p : Nat) : Prop :=
  awaitDone S p ∧ (time > (S.procs p).ts ∨ (S.procs p).ts = 0)

instance (S : Sched) (time p : Nat) : Decidable (wakeable S time p) := by
  unfold wakeable; infer_instance

/-- Loop invariant of `proc_wake_all` relative to the state `S0` at entry: the
processes of `kept` have been visited and stay on the list, those of `rest`
are still to visit and untouched. -/
def PacingInv (S0 S : Sched) (kept rest : List Nat) : Prop :=
  Chain (fun q => (S.procs q).pacingnext) S.pacinghead (kept ++ rest) ∧
  (kept ++ rest).Nodup ∧
  (rest ≠ [] → S.pacingtail = tailLink (kept ++ rest)) ∧
  S.proc_net = S0.proc_net ∧
  (∀ q, ((S.procs q).state = PROC_STOP ↔ (S0.procs q).state = PROC_STOP) ∧
        ((S.procs q).state = PROC_BLOCK ↔ (S0.procs q).state = PROC_BLOCK)) ∧
  (∀ p ∈ rest, (S.procs p).state = PROC_WAIT ∧ (S.procs p).lock = false ∧
      (S.procs p).waitproc = (S0.procs p).waitproc ∧ (S.procs p).ts = (S0.procs p).ts)

/-- Example: the pacing list holds the processes 1 (timestamp 100) and 2
(timestamp 5), both in WAIT and awaiting nobody. -/
def exPaced : Sched :=
  { procs := fun p =>
      if p = 1 then { state := PROC_WAIT, ts := 100, pacingnext := some 2 }
      else if p = 2 then { state := PROC_WAIT, ts := 5 }
      else {},
    readyhead := none, readytail := Link.head,
    pacinghead := some 1, pacingtail := Link.next 2,
    proc_net := none, cur := none }

/-- The value `*l` of a link of the list with head `h` and link fields `next`. -/
def linkVal (next : Nat → Option Nat) (h : Option Nat) : Link → Option Nat
  | Link.head => h
  | Link.next q => next q

/-- The link reached from `pp` after stepping over the processes of `l`. -/
def linkAfter : Link → List Nat → Link
  | pp, [] => pp
  | _, a :: t => linkAfter (Link.next a) t

/-! # Network layer: a shallow embedding of `kern/net.c`

A received message is the record of the fields the handler reads; the body
bytes are a function from the offset.  A transmitted frame is appended to the
log `sent`.  The handlers take the list loops with a fuel argument.  `none` is
a failed assertion, a `NULL` dereference, a spinlock that is already held, or
the end of the fuel. -/

/-- Modelled from the spec: the constants of `kern/net.h` (cluster size, part
sizes of a page transfer, `sizeof` of every message structure, message-type
tags), which the sources use but do not contain, and the `level` field of the
result of `label_leq_hi` of the label module: non-zero when the label is not
below the clearance, in which case the transfer is discarded. -/
structure NetCfg where
  NET_MAXNODES : Nat
  NET_PULLPART : Nat
  NET_PULLPART0 : Nat
  NET_PULLPART1 : Nat
  NET_PULLPART2 : Nat
  sz_hdr : Nat
  sz_migrq : Nat
  sz_migrp : Nat
  sz_pullrq : Nat
  sz_pullrphdr : Nat
  sz_sendrq : Nat
  sz_sendrp : Nat
  sz_recvrq : Nat
  sz_recvrp : Nat
  sz_fetchrq : Nat
  sz_fetchrp : Nat
  NET_MIGRQ : Nat
  NET_MIGRP : Nat
  NET_PULLRQ : Nat
  NET_PULLRP : Nat
  NET_SENDRQ : Nat
  NET_SENDRP : Nat
  NET_RECVRQ : Nat
  NET_RECVRP : Nat
  NET_FETCHRQ : Nat
  NET_FETCHRP : Nat
  leq_hi_level : Nat → Nat → Nat

/-- The reserved EtherType (net.c line 38). -/
def NET_ETHERTYPE : Nat := 0x9876

/-- Byte swap of a 16-bit value (`htons` on the little-endian x86). -/
def htons (x : Nat) : Nat := (x % 256) * 256 + (x / 256) % 256

/-- The ten message types of the `switch` of `net_rx`. -/
inductive MsgKind where
  | MIGRQ | MIGRP | PULLRQ | PULLRP | SENDRQ | SENDRP | RECVRQ | RECVRP | FETCHRQ | FETCHRP
  deriving DecidableEq, Repr

/-- The `case` selected by `switch (h->type)` (lines 146-220); `none` is
`default`. -/
def tagOf (C : NetCfg) (t : Nat) : Option MsgKind :=
  if t = C.NET_MIGRQ then some MsgKind.MIGRQ
  else if t = C.NET_MIGRP then some MsgKind.MIGRP
  else if t = C.NET_PULLRQ then some MsgKind.PULLRQ
  else if t = C.NET_PULLRP then some MsgKind.PULLRP
  else if t = C.NET_SENDRQ then some MsgKind.SENDRQ
  else if t = C.NET_SENDRP then some MsgKind.SENDRP
  else if t = C.NET_RECVRQ then some MsgKind.RECVRQ
  else if t = C.NET_RECVRP then some MsgKind.RECVRP
  else if t = C.NET_FETCHRQ then some MsgKind.FETCHRQ
  else if t = C.NET_FETCHRP then some MsgKind.FETCHRP
  else none

/-- The `sizeof` that each `case` of `net_rx` compares the length with. -/
def minLen (C : NetCfg) : MsgKind → Nat
  | MsgKind.MIGRQ => C.sz_migrq
  | MsgKind.MIGRP => C.sz_migrp
  | MsgKind.PULLRQ => C.sz_pullrq
  | MsgKind.PULLRP => C.sz_pullrphdr
  | MsgKind.SENDRQ => C.sz_sendrq
  | MsgKind.SENDRP => C.sz_sendrp
  | MsgKind.RECVRQ => C.sz_recvrq
  | MsgKind.RECVRP => C.sz_recvrp
  | MsgKind.FETCHRQ => C.sz_fetchrq
  | MsgKind.FETCHRP => C.sz_fetchrp

/-- The fields of the common header `net_hdr` that `net_rx` reads: the two MAC
addresses (6 bytes each), the raw 16-bit type field and the message type. -/
structure net_hdr where
  dst : List Nat
  src : List Nat
  ethtype : Nat
  type : Nat

/-- The conversion of the `int len` to `size_t` in `len < sizeof(...)`. -/
def ulen (len : Int) : Nat := (len % 2 ^ 64).toNat

/-- The checks of `net_rx` (lines 126-220): the handler that is called, `none`
when the packet is dropped. -/
def net_rx_dispatch (C : NetCfg) (net_mac : List Nat) (h : net_hdr) (len : Int) :
    Option MsgKind :=
  if ulen len < C.sz_hdr then none                                   -- runt packet
  else if h.dst.take 6 ≠ net_mac.take 6 then none                    -- is it for us?
  else if h.src.take 5 ≠ net_mac.take 5 ∨ h.src.getD 5 0 < 1 ∨
      h.src.getD 5 0 > C.NET_MAXNODES then none                      -- from a node we know?
  else if h.ethtype ≠ htons NET_ETHERTYPE then none
  else
    match tagOf C h.type with
    | none => none
    | some k => if ulen len < minLen C k then none else some k

/-- The C function `net_rx(pkt, len)` (lines 122-225) over any state: `H k` is the
handler of the message type `k` applied to this packet. -/
def net_rx {σ : Type} (C : NetCfg) (net_mac : List Nat) (H : MsgKind → σ → σ) (N : σ)
    (h : net_hdr) (len : Int) : σ :=
  match net_rx_dispatch C net_mac h len with
  | none => N
  | some k => H k N

/-- A frame handed to `net_tx`: the destination node of `net_ethsetup`, the
message type, the header fields that the message has (the others are 0) and
the address and length of the body. -/
structure TxFrame where
  destnode : Nat
  type : MsgKind
  srcid : Nat := 0
  dstid : Nat := 0
  srcaddr : Nat := 0
  dstaddr : Nat := 0
  size : Nat := 0
  part : Int := 0
  need : Nat := 0
  label : Nat := 0
  body : Nat := 0
  blen : Nat := 0
  deriving DecidableEq, Repr

/-- The state of the node: the scheduler state with the process frames, the
physical memory, the globals of `net.c`, the message-id table (`none`: the id
is not in the table) and the log of transmitted frames, newest first. -/
structure Net where
  S : Sched
  K : KState
  net_node : Nat
  net_lock : Bool
  net_migrlist : Option Nat
  net_pulllist : Option Nat
  net_recvlist : Option Nat
  net_fetchlist : Option Nat
  midtable : Nat → Option (Option Nat)
  sent : List TxFrame

/-- Store `f p` in the frame of process `p`. -/
def Net.upd (N : Net) (p : Nat) (f : Proc → Proc) : Net := { N with S := N.S.upd p f }

/-- The process frame at `p`. -/
def Net.proc (N : Net) (p : Nat) : Proc := N.S.procs p

/-- Modelled from the spec: `table_find` of the hash table module, which the
sources use but do not contain: the value stored for the key, or an error
(`none`) when the table has no entry for the key. -/
def table_find (t : Nat → Option (Option Nat)) (key : Nat) : Option (Option Nat) := t key

/-- The C function `mid_find(mid)` (proc.c lines 552-563): the pointer stored for
`mid`, `&proc_null` when `table_find` reports an error. -/
def mid_find (N : Net) (mid : Nat) : Option Nat :=
  match table_find N.midtable mid with
  | none => some proc_null
  | some p => p

/-- The assertions of `net_ethsetup(eth, destnode)` (lines 101-102). -/
def net_ethsetup_ok (C : NetCfg) (N : Net) (destnode : Nat) : Bool :=
  decide (destnode > 0 ∧ destnode ≤ C.NET_MAXNODES ∧ destnode ≠ N.net_node)

/-- The array `partlen` (lines 582, 656). -/
def partlen (C : NetCfg) (part : Nat) : Nat :=
  if part = 0 then C.NET_PULLPART0 else if part = 1 then C.NET_PULLPART1 else C.NET_PULLPART2

/-- The C call `memcpy(dst, data, n)` from a message body. -/
def memcpyBody (m : Nat → Nat) (dst : Nat) (data : Nat → Nat) (n : Nat) : Nat → Nat :=
  fun a => if dst ≤ a ∧ a < dst + n then data (a - dst) % 256 else m a

/-- The fields of a `net_migrp` that `net_rxmigrp` reads. -/
structure net_migrp where
  src5 : Nat
  home : Nat

/-- The search loop of `net_rxmigrp` (line 446) from the link `pp`: the process
found and the link that addresses it, or `some none` at the end of the list. -/
def migrFind (N : Net) (home : Nat) : Nat → Link → Option (Option (Nat × Link))
  | 0, _ => none
  | fuel + 1, pp =>
    match linkVal (fun q => (N.proc q).migrnext) N.net_migrlist pp with
    | none => some none
    | some p =>
      if (N.proc p).home = home then some (some (p, pp))
      else migrFind N home fuel (Link.next p)

/-- The store `*pp = v` through a link of the migrating list. -/
def migrSet (N : Net) : Link → Option Nat → Net
  | Link.head, v => { N with net_migrlist := v }
  | Link.next q, v => N.upd q (fun r => { r with migrnext := v })

/-- The C function `net_rxmigrp(migrp)` (lines 437-470). -/
def net_rxmigrp (C : NetCfg) (fuel : Nat) (N : Net) (m : net_migrp) : Option Net :=
  if ¬ (m.src5 > 0 ∧ m.src5 ≤ C.NET_MAXNODES) then none
  else if N.net_lock then none
  else
    match migrFind N m.home fuel Link.head with
    | none => none
    | some none => some N                                    -- drop packet
    | some (some (p, pp)) =>
      let N1 := migrSet N pp (N.proc p).migrnext             -- remove from migrlist
      if (N1.proc p).migrdest = 0 then none                  -- assert(p->migrdest != 0)
      else
        some (N1.upd p (fun r => { r with migrdest := 0, migrnext := none, state := PROC_AWAY }))

/-- The fields of a `net_pullrphdr` that `net_rxpullrp` reads, and the body. -/
structure net_pullrphdr where
  type : Nat
  rr : Nat
  part : Int
  data : Nat → Nat

/-- The search loop of `net_rxpullrp` (lines 665-669); the inner `none` of a
result is the end of the list, the outer `none` a process on the list that is
not in state PULL. -/
def pullFind (N : Net) (rr : Nat) : Nat → Link → Option (Option (Nat × Link))
  | 0, _ => none
  | fuel + 1, pp =>
    match linkVal (fun q => (N.proc q).pullnext) N.net_pulllist pp with
    | none => some none
    | some p =>
      if (N.proc p).state ≠ PROC_PULL then none
      else if (N.proc p).pullrr = rr then some (some (p, pp))
      else pullFind N rr fuel (Link.next p)

/-- The store `*pp = v` through a link of the pull list. -/
def pullSet (N : Net) : Link → Option Nat → Net
  | Link.head, v => { N with net_pulllist := v }
  | Link.next q, v => N.upd q (fun r => { r with pullnext := v })

/-- The C function `net_rxpullrp(rp, len)` up to line 698.  The flag of the result
is true when all three parts have arrived, where the function goes on at line
700 (that part is not modelled). -/
def net_rxpullrp (C : NetCfg) (fuel : Nat) (N : Net) (rp : net_pullrphdr) (len : Int) :
    Option (Net × Bool) :=
  if rp.type ≠ C.NET_PULLRP then none
  else if N.net_lock then none
  else
    match pullFind N rp.rr fuel Link.head with
    | none => none
    | some none => some (N, false)            -- probably a duplicate due to retransmission
    | some (some (p, pp)) =>
      if rp.part < 0 ∨ rp.part > 2 then some (N, false)
      else if (N.proc p).arrived &&& (1 <<< rp.part.toNat) ≠ 0 then some (N, false)
      else
        let datalen : Int := len - C.sz_pullrphdr
        if datalen ≠ partlen C rp.part.toNat then some (N, false)
        else
          -- Fill in the appropriate part of the page.
          let dst := (N.proc p).pullpg + C.NET_PULLPART * rp.part.toNat
          let K1 : KState := { N.K with mem := memcpyBody N.K.mem dst rp.data datalen.toNat }
          let N1 : Net := { N with K := K1 }
          let N2 := N1.upd p (fun r => { r with arrived := r.arrived ||| (1 <<< rp.part.toNat) })
          if (N2.proc p).arrived = 7 then
            some (pullSet N2 pp (N2.proc p).pullnext, true)
          else some (N2, false)

/-- The fields of a `net_recvrq` that `net_rxrecvrq` reads. -/
structure net_recvrq where
  src5 : Nat
  srcid : Nat
  dstid : Nat
  clearance : Nat

/-- The C function `net_txrecvrp(p)` (lines 1047-1065). -/
def net_txrecvrp (C : NetCfg) (N : Net) (p : Nat) : Option Net :=
  if (N.proc p).state ≠ PROC_WAIT then none
  else if (N.proc p).waitproc ≠ N.S.proc_net then none
  else if ¬ (N.proc p).lock then none
  else if ¬ net_ethsetup_ok C N ((N.proc p).remoteid / 2 ^ 56) then none
  else
    some { N with sent :=
      { destnode := (N.proc p).remoteid / 2 ^ 56, type := MsgKind.RECVRP,
        srcid := (N.net_node * 2 ^ 56) ||| (N.proc p).mid,
        dstid := (N.proc p).remoteid,
        srcaddr := (N.proc p).remoteva,
        dstaddr := (N.proc p).pullva,
        size := ((N.proc p).remotelimit + 2 ^ 64 - (N.proc p).remoteva) % 2 ^ 64,
        label := (N.proc p).label } :: N.sent }

/-- The C function `net_rxrecvrq(rq)` (lines 1008-1045). -/
def net_rxrecvrq (C : NetCfg) (N : Net) (rq : net_recvrq) : Option Net :=
  if ¬ (rq.src5 > 0 ∧ rq.src5 ≤ C.NET_MAXNODES ∧ rq.src5 ≠ N.net_node) then none
  else if rq.src5 ≠ rq.dstid / 2 ^ 56 then some N
  else if N.net_node ≠ rq.srcid / 2 ^ 56 then some N
  else
    match mid_find N (rq.srcid % 2 ^ 56) with
    | none => none                                             -- p->state with p == NULL
    | some p =>
      if (N.proc p).state ≠ PROC_WAIT ∨ (N.proc p).waitproc ≠ N.S.proc_net then some N
      else
        let less := C.leq_hi_level (N.proc p).label rq.clearance
        if (N.proc p).lock then none
        else
          let N1 := N.upd p (fun r => { r with lock := true })
          let N2 :=
            if less ≠ 0 then
              -- should not send
              N1.upd p (fun r => { r with remoteva := 0, remotelimit := 0, pullva := 0 })
            else N1
          match net_txrecvrp C N2 p with
          | none => none
          | some N3 =>
            let N4 := N3.upd p (fun r => { r with state := PROC_SEND, lock := false })
            if less ≠ 0 then some { N4 with S := proc_ready N4.S p } else some N4

/-- The fields of a `net_recvrp` that `net_rxrecvrp` reads. -/
structure net_recvrp where
  src5 : Nat
  srcid : Nat
  dstid : Nat
  srcaddr : Nat
  dstaddr : Nat
  size : Nat
  label : Nat

/-- The C function `net_txfetchrq(cp)` (lines 1129-1144). -/
def net_txfetchrq (C : NetCfg) (N : Net) (cp : Nat) : Option Net :=
  if (N.proc cp).state ≠ PROC_RECV then none
  else if ¬ (N.proc cp).lock then none
  else if ¬ net_ethsetup_ok C N ((N.proc cp).remoteid / 2 ^ 56) then none
  else
    some { N with sent :=
      { destnode := (N.proc cp).remoteid / 2 ^ 56, type := MsgKind.FETCHRQ,
        srcid := (N.proc cp).remoteid,
        dstid := (N.net_node * 2 ^ 56) ||| (N.proc cp).mid,
        srcaddr := (N.proc cp).pullva,
        need := (N.proc cp).arrived ^^^ 0x7 } :: N.sent }

/-- The loops of lines 1112-1118 and 1274-1280: unlink from the list with head
`h` the first process with this `mid` and `remoteid`.  The result is the new
state and the new value of the head variable. -/
def remoteUnlink (dstid srcid : Nat) : Nat → Net → Option Nat → Link → Option (Net × Option Nat)
  | 0, _, _, _ => none
  | fuel + 1, N, h, pp =>
    match linkVal (fun q => (N.proc q).remotenext) h pp with
    | none => some (N, h)
    | some p =>
      if (N.proc p).mid = dstid ∧ (N.proc p).remoteid = srcid then
        let nx := (N.proc p).remotenext
        match pp with
        | Link.head => some (N.upd p (fun r => { r with remotenext := none }), nx)
        | Link.next q =>
          some ((N.upd q (fun r => { r with remotenext := nx })).upd p
            (fun r => { r with remotenext := none }), h)
      else remoteUnlink dstid srcid fuel N h (Link.next p)

/-- The C function `net_rxrecvrp(rp)` (lines 1067-1127). -/
def net_rxrecvrp (C : NetCfg) (fuel : Nat) (N : Net) (rp : net_recvrp) : Option Net :=
  if ¬ (rp.src5 > 0 ∧ rp.src5 ≤ C.NET_MAXNODES ∧ rp.src5 ≠ N.net_node) then none
  else if rp.src5 ≠ rp.srcid / 2 ^ 56 then some N
  else if N.net_node ≠ rp.dstid / 2 ^ 56 then some N
  else if rp.srcaddr &&& 0xfff ≠ 0 then some N
  else if rp.dstaddr &&& 0xfff ≠ 0 then some N
  else if rp.size &&& 0xfff ≠ 0 then some N
  else
    let dstid := rp.dstid % 2 ^ 56
    match mid_find N dstid with
    | none => some N
    | some cp =>
      if (N.proc cp).lock then none
      else
        let N1 := N.upd cp (fun r => { r with lock := true })
        if (N1.proc cp).state ≠ PROC_BLOCK ∨ rp.size = 0 ∨
            C.leq_hi_level rp.label (N1.proc cp).clearance ≠ 0 then
          -- exit:
          let N2 := N1.upd cp (fun r => { r with lock := false })
          some { N2 with S := proc_ready N2.S cp }
        else
          let N2 := N1.upd cp (fun r =>
            { r with state := PROC_RECV, remoteid := rp.srcid, remoteva := rp.dstaddr,
                     remotelimit := (rp.dstaddr + rp.size) % 2 ^ 64, pullva := rp.srcaddr,
                     arrived := 0 })
          match net_txfetchrq C N2 cp with
          | none => none
          | some N3 =>
            let N4 := N3.upd cp (fun r => { r with lock := false })
            if N4.net_lock then none
            else
              match remoteUnlink dstid rp.srcid fuel N4 N4.net_recvlist Link.head with
              | none => none
              | some (N5, h) =>
                let N6 : Net := { N5 with net_recvlist := h }
                if (N6.proc cp).remotenext ≠ none then none
                else
                  let N7 := N6.upd cp (fun r => { r with remotenext := N6.net_fetchlist })
                  some { N7 with net_fetchlist := some cp }

/-- The fields of a `net_fetchrq` that `net_rxfetchrq` reads. -/
structure net_fetchrq where
  type : Nat
  src5 : Nat
  srcid : Nat
  dstid : Nat
  srcaddr : Nat
  need : Nat

/-- The C function `net_txfetchrp(p, srcaddr, part)` (lines 1190-1213). -/
def net_txfetchrp (L : Layout) (C : NetCfg) (N : Net) (p : Nat) (srcaddr : Nat) (part : Int) :
    Option Net :=
  if (N.proc p).state ≠ PROC_SEND then none
  else if ¬ (N.proc p).lock then none
  else if ¬ net_ethsetup_ok C N ((N.proc p).remoteid / 2 ^ 56) then none
  else
    let hdr : TxFrame :=
      { destnode := (N.proc p).remoteid / 2 ^ 56, type := MsgKind.FETCHRP,
        srcid := (N.net_node * 2 ^ 56) ||| (N.proc p).mid,
        dstid := (N.proc p).remoteid, srcaddr := srcaddr }
    if 0 ≤ part ∧ part < 3 then
      match pmap_walk L N.K (N.proc p).pml4 srcaddr false with
      | none => none
      | some (_, none) => none                                  -- *pte with pte == NULL
      | some (K1, some pte) =>
        let ptr := PTE_ADDR (rd64 K1.mem pte) + C.NET_PULLPART * part.toNat
        let len := partlen C part.toNat
        if ¬ len ≤ C.NET_PULLPART then none
        else
          some { N with K := K1, sent := { hdr with part := part, body := ptr, blen := len } :: N.sent }
    else
      some { N with sent := { hdr with part := -1 } :: N.sent }

/-- The three conditional calls of lines 1177-1182. -/
def fetchParts (L : Layout) (C : NetCfg) (N : Net) (p : Nat) (srcaddr need : Nat) : Option Net :=
  let s0 : Option Net := if need &&& 0x1 ≠ 0 then net_txfetchrp L C N p srcaddr 0 else some N
  let s1 : Option Net :=
    s0.bind (fun N1 => if need &&& 0x2 ≠ 0 then net_txfetchrp L C N1 p srcaddr 1 else some N1)
  s1.bind (fun N2 => if need &&& 0x4 ≠ 0 then net_txfetchrp L C N2 p srcaddr 2 else some N2)

/-- The C function `net_rxfetchrq(rq)` (lines 1146-1188). -/
def net_rxfetchrq (L : Layout) (C : NetCfg) (N : Net) (rq : net_fetchrq) : Option Net :=
  if rq.type ≠ C.NET_FETCHRQ then none
  else if ¬ (rq.src5 > 0 ∧ rq.src5 ≤ C.NET_MAXNODES ∧ rq.src5 ≠ N.net_node) then none
  else if rq.src5 ≠ rq.dstid / 2 ^ 56 then some N
  else if N.net_node ≠ rq.srcid / 2 ^ 56 then some N
  else if rq.srcaddr &&& 0xfff ≠ 0 then some N
  else
    match mid_find N (rq.srcid % 2 ^ 56) with
    | none => none                                 -- nak: spinlock_release(&p->lock), p == NULL
    | some p =>
      if (N.proc p).lock then none
      else
        let N1 := N.upd p (fun r => { r with lock := true })
        if ((N1.proc p).state ≠ PROC_SEND ∨ (N1.proc p).remoteid ≠ rq.dstid) ∨
            (rq.srcaddr < (N1.proc p).remoteva ∨ rq.srcaddr > (N1.proc p).remotelimit) then
          -- nak:
          net_txfetchrp L C (N1.upd p (fun r => { r with lock := false })) p 0 (-1)
        else if rq.srcaddr = (N1.proc p).remotelimit then
          -- if exceed limit, wake proc
          match net_txfetchrp L C N1 p rq.srcaddr (-1) with
          | none => none
          | some N2 =>
            let N3 := N2.upd p (fun r => { r with lock := false })
            some { N3 with S := proc_ready N3.S p }
        else
          (fetchParts L C N1 p rq.srcaddr rq.need).map
            (fun N2 => N2.upd p (fun r => { r with lock := false }))

/-- The fields of a `net_fetchrp` that `net_rxfetchrp` reads, and the body. -/
structure net_fetchrp where
  type : Nat
  src5 : Nat
  srcid : Nat
  dstid : Nat
  srcaddr : Nat
  part : Int
  data : Nat → Nat

/-- The C function `net_rxfetchrp(rp, len)` (lines 1215-1282). -/
def net_rxfetchrp (L : Layout) (C : NetCfg) (fuel : Nat) (N : Net) (rp : net_fetchrp)
    (len : Int) : Option Net :=
  if rp.type ≠ C.NET_FETCHRP then none
  else if ¬ (rp.src5 > 0 ∧ rp.src5 ≤ C.NET_MAXNODES ∧ rp.src5 ≠ N.net_node) then none
  else if rp.src5 ≠ rp.srcid / 2 ^ 56 then some N
  else if N.net_node ≠ rp.dstid / 2 ^ 56 then some N
  else if rp.srcaddr &&& 0xfff ≠ 0 then some N
  else if rp.part < -1 ∨ rp.part > 2 then some N
  else
    let dstid := rp.dstid % 2 ^ 56
    match mid_find N dstid with
    | none => some N
    | some cp =>
      if (N.proc cp).lock then none
      else
        let N1 := N.upd cp (fun r => { r with lock := true })
        let unlock : Net → Net := fun M => M.upd cp (fun r => { r with lock := false })
        if (N1.proc cp).state ≠ PROC_RECV ∨ (N1.proc cp).remoteid ≠ rp.srcid then some (unlock N1)
        else if rp.srcaddr ≠ (N1.proc cp).pullva then some (unlock N1)
        else if rp.part = -1 ∧ (N1.proc cp).remoteva = (N1.proc cp).remotelimit then
          -- wake:
          let N2 := unlock N1
          let N3 : Net := { N2 with S := proc_ready N2.S cp }
          -- remove cp from fetchlist
          if N3.net_lock then none
          else
            (remoteUnlink dstid rp.srcid fuel N3 N3.net_fetchlist Link.head).map
              (fun r => { r.1 with net_fetchlist := r.2 })
        else if rp.part = -1 ∨ (N1.proc cp).remoteva = (N1.proc cp).remotelimit then
          some (unlock N1)
        else if (N1.proc cp).arrived &&& (1 <<< rp.part.toNat) ≠ 0 then some (unlock N1)
        else
          let dlen : Int := len - C.sz_fetchrp
          if dlen ≠ partlen C rp.part.toNat then some (unlock N1)
          else
            match pmap_walk L N1.K (N1.proc cp).pml4 (N1.proc cp).remoteva true with
            | none => none
            | some (_, none) => none                            -- *pte with pte == NULL
            | some (K1, some pte) =>
              let ptr := PTE_ADDR (rd64 K1.mem pte) + C.NET_PULLPART * rp.part.toNat
              let K2 : KState := { K1 with mem := memcpyBody K1.mem ptr rp.data dlen.toNat }
              let N2 : Net := { N1 with K := K2 }
              let N3 := N2.upd cp (fun r => { r with arrived := r.arrived ||| (1 <<< rp.part.toNat) })
              -- advance if possible
              if (N3.proc cp).arrived = 7 then
                let N4 := N3.upd cp (fun r =>
                  { r with pullva := (r.pullva + PAGESIZE) % 2 ^ 64,
                           remoteva := (r.remoteva + PAGESIZE) % 2 ^ 64, arrived := 0 })
                (net_txfetchrq C N4 cp).map unlock
              else some (unlock N3)

/-- Example configuration: 32 nodes, page parts of 1368 + 1368 + 1360 bytes, the
message tags 1 to 10, and labels compared as numbers. -/
def exCfg : NetCfg :=
  { NET_MAXNODES := 32, NET_PULLPART := 1368, NET_PULLPART0 := 1368, NET_PULLPART1 := 1368,
    NET_PULLPART2 := 1360, sz_hdr := 16, sz_migrq := 32, sz_migrp := 24, sz_pullrq := 32,
    sz_pullrphdr := 24, sz_sendrq := 32, sz_sendrp := 32, sz_recvrq := 48, sz_recvrp := 64,
    sz_fetchrq := 48, sz_fetchrp := 48,
    NET_MIGRQ := 1, NET_MIGRP := 2, NET_PULLRQ := 3, NET_PULLRP := 4, NET_SENDRQ := 5,
    NET_SENDRP := 6, NET_RECVRQ := 7, NET_RECVRP := 8, NET_FETCHRQ := 9, NET_FETCHRP := 10,
    leq_hi_level := fun l c => if l ≤ c then 0 else 1 }

/-- Example: the MAC address of node 1. -/
def exMac : List Nat := [0x52, 0x54, 0x00, 0x12, 0x34, 1]

/-- Example: a header from node 2 to node 1 with the reserved EtherType and the
message type `t`. -/
def exHdr (t : Nat) : net_hdr :=
  { dst := exMac, src := [0x52, 0x54, 0x00, 0x12, 0x34, 2], ethtype := 0x7698, type := t }

/-- Example process table of node 1: the processes 3, 4, 5 migrate to node 2; 6
pulls the page `0x77` and has part 0 of it; 7 waits in a send to the message
id 80 of node 2; 8 is blocked in a receive; 10 receives from the message id 71
of node 2 into the unmapped page at `UL` of the address space `rootP`; 11 is
in SEND to the message id 90 of node 2; 9 is `proc_net`. -/
def exNetProcs : Nat → Proc := fun p =>
  if p = 3 then { state := PROC_MIGR, home := 30, migrdest := 2, migrnext := some 4 }
  else if p = 4 then { state := PROC_MIGR, home := 40, migrdest := 2, migrnext := some 5 }
  else if p = 5 then { state := PROC_MIGR, home := 50, migrdest := 2 }
  else if p = 6 then { state := PROC_PULL, pullrr := 0x77, arrived := 1, pullpg := 0x30000 }
  else if p = 7 then
    { state := PROC_WAIT, waitproc := some 9, label := 5, mid := 70,
      remoteid := 2 * 2 ^ 56 + 80, remoteva := 0x40000000, remotelimit := 0x40002000,
      pullva := 0x50000000 }
  else if p = 8 then { state := PROC_BLOCK, mid := 81, clearance := 9 }
  else if p = 9 then { state := PROC_WAIT }
  else if p = 10 then
    { state := PROC_RECV, mid := 82, remoteid := 2 * 2 ^ 56 + 71, pml4 := rootP,
      remoteva := UL, remotelimit := UL + 0x1000, pullva := 0x50000000, clearance := 9 }
  else if p = 11 then
    { state := PROC_SEND, mid := 83, remoteid := 2 * 2 ^ 56 + 90, pml4 := rootP,
      remoteva := 0x40000000, remotelimit := 0x40001000 }
  else {}

/-- Example state of node 1: the processes of `exNetProcs` over the memory of
`exK0`, with the message ids 70, 81, 82 and 83 registered. -/
def exNet : Net :=
  { S := { procs := exNetProcs, readyhead := none, readytail := Link.head, pacinghead := none,
           pacingtail := Link.head, proc_net := some 9, cur := none },
    K := exK0, net_node := 1, net_lock := false,
    net_migrlist := some 3, net_pulllist := some 6, net_recvlist := none,
    net_fetchlist := some 10,
    midtable := fun mid =>
      if mid = 70 then some (some 7) else if mid = 81 then some (some 8)
      else if mid = 82 then some (some 10) else if mid = 83 then some (some 11) else none,
    sent := [] }

/-- Example: the RECVRQ of the message id 80 of node 2 for the message id 70 of
this node, with clearance 3. -/
def exRecvrq : net_recvrq :=
  { src5 := 2, srcid := 2 ^ 56 + 70, dstid := 2 * 2 ^ 56 + 80, clearance := 3 }

/-- Example: a RECVRP of the message id 70 of node 2 for the message id `mid` of
this node that offers `size` bytes. -/
def exRecvrp (mid size : Nat) : net_recvrp :=
  { src5 := 2, srcid := 2 * 2 ^ 56 + 71, dstid := 2 ^ 56 + mid, srcaddr := 0x50000000,
    dstaddr := UL, size := size, label := 5 }

/-- Example: a FETCHRQ of the message id 90 of node 2 for the source id `mid` of
this node and the address `srcaddr`. -/
def exFetchrq (mid srcaddr : Nat) : net_fetchrq :=
  { type := 9, src5 := 2, srcid := 2 ^ 56 + mid, dstid := 2 * 2 ^ 56 + 90, srcaddr := srcaddr,
    need := 7 }

/-- Example: part 0 of the page at `0x50000000` of the message id 71 of node 2 for
the message id 82 of this node; every body byte is `0xAB`. -/
def exFetchrp : net_fetchrp :=
  { type := 10, src5 := 2, srcid := 2 * 2 ^ 56 + 71, dstid := 2 ^ 56 + 82,
    srcaddr := 0x50000000, part := 0, data := fun _ => 0xAB }

/-- Example: the state of `scMapped`: the parent maps frame `0x80` at `UL` with
nominal read/write permission. -/
def exMapped : KState := scMapped.getD exK0

/-- Example: `exMapped` after frame `0x80` has been mapped a second time, at
`UL + PAGESIZE`, so that it has two references. -/
def exMappedTwice : KState :=
  (thenInsert scMapped rootP 0x80 (UL + 0x1000) 0x600).getD exK0

/-- The number of entries `i, ..., i + n - 1` of the table at `tab` that map the
frame `q` (zero-mappings do not count). -/
def refsIn (L : Layout) (m : Nat → Nat) (tab q : Nat) : Nat → Nat → Nat
  | 0, _ => 0
  | n + 1, i =>
    (if PTE_ADDR (rd64 m (tab + 8 * i)) ≠ L.PTE_ZERO ∧
        mem_phys2pi (PTE_ADDR (rd64 m (tab + 8 * i))) = q then 1 else 0)
      + refsIn L m tab q n (i + 1)

/-- Example state for the walker: the root at `0x10000` points to the
page-directory-pointer table at `0x13000`, whose entry 1 points, read-only
(`0x16025`), to the page directory at `0x16000`, whose entry 0 is `pde` and
points to the page table at `0x17000`; each table has one reference and all
other entries are zero-mappings. -/
def exCowK (pde : Nat) : KState :=
  { mem := wr64 (wr64 (wr64 (exRoot (exRoot (exRoot (exRoot (fun _ => 0) 0x10000) 0x13000)
      0x16000) 0x17000) 0x10000 0x13027) 0x13008 0x16025) 0x16000 pde
    refcount := fun q => if q = 0x10 ∨ q = 0x13 ∨ q = 0x16 ∨ q = 0x17 then 1 else 0
    freelist := [0x20, 0x21] }

/-- Every 8-aligned word of `m1` has the frame address it has in `m`: the two
memories hold the same page-table entries up to flag bits. -/
def AddrPres (m m1 : Nat → Nat) : Prop :=
  ∀ a, a % 8 = 0 → PTE_ADDR (rd64 m1 a) = PTE_ADDR (rd64 m a)

/-- A page-table entry `e1` keeps what the entry `e` holds, up to the bits
`PTE_A | PTE_P | PTE_W | PTE_U` (`0x27`): either every other bit is as in `e`, or
`e1` is the bare frame address of `e` with some of those four bits, as after
`*pmte = table | PTE_A | PTE_P | PTE_W | PTE_U`. -/
def EntryKept (e e1 : Nat) : Prop :=
  e1 ||| 0x27 = e ||| 0x27 ∨ e1 ||| 0x27 = PTE_ADDR e ||| 0x27

/-- Every 8-aligned word of `m1` keeps what it holds in `m`, in the sense of
`EntryKept`. -/
def EntriesKept (m m1 : Nat → Nat) : Prop :=
  ∀ a, a % 8 = 0 → EntryKept (rd64 m a) (rd64 m1 a)

/-- A table needed to reach `la` from the table `pmtab` of level `pmlevel` does
not exist: some interior entry on the path is a zero-mapping. -/
def pathMissing (L : Layout) (m : Nat → Nat) : Nat → Nat → Nat → Prop
  | 0, _, _ => False
  | l + 1, pmtab, la =>
    PTE_ADDR (rd64 m (pmtab + 8 * PDX (l + 1) la)) = L.PTE_ZERO ∨
      pathMissing L m l (PTE_ADDR (rd64 m (pmtab + 8 * PDX (l + 1) la))) la

instance (L : Layout) (m : Nat → Nat) : (l pmtab la : Nat) → Decidable (pathMissing L m l pmtab la)
  | 0, _, _ => isFalse (fun h => h)
  | l + 1, pmtab, la =>
    have : Decidable (pathMissing L m l (PTE_ADDR (rd64 m (pmtab + 8 * PDX (l + 1) la))) la) :=
      instDecidablePathMissing L m l _ la
    inferInstanceAs (Decidable (_ ∨ _))

/-- Example: `exCowK 0x17027` with an empty free list. -/
def exCowNoMem : KState := { exCowK 0x17027 with freelist := [] }

/-- Example: `exCowK 0x17025` in which the page table at `0x17000` has a second
reference, as when a second page directory maps it. -/
def exCowShared : KState :=
  { exCowK 0x17025 with refcount := fun q => if q = 0x17 then 2 else (exCowK 0x17025).refcount q }

/-- Example: `exCowK 0x17027` in which the page directory at `0x16000` has a second
reference, as when a second page-directory-pointer table maps it. -/
def exCowSharedDir : KState :=
  { exCowK 0x17027 with refcount := fun q => if q = 0x16 then 2 else (exCowK 0x17027).refcount q }

/-- The path of `la` from the table `pmtab` of level `pmlevel` is private: every
interior entry on it is a stored 64-bit word (eight bytes), points to a table
and is present and writable, so a writing walk finds nothing to allocate or
copy. -/
def pathPrivate (L : Layout) (m : Nat → Nat) : Nat → Nat → Nat → Prop
  | 0, _, _ => True
  | l + 1, pmtab, la =>
    (∀ k, k < 8 → m (pmtab + 8 * PDX (l + 1) la + k) < 256) ∧
    PTE_ADDR (rd64 m (pmtab + 8 * PDX (l + 1) la)) ≠ L.PTE_ZERO ∧
    rd64 m (pmtab + 8 * PDX (l + 1) la) &&& PTE_P ≠ 0 ∧
    rd64 m (pmtab + 8 * PDX (l + 1) la) &&& PTE_W ≠ 0 ∧
    pathPrivate L m l (PTE_ADDR (rd64 m (pmtab + 8 * PDX (l + 1) la))) la

instance (L : Layout) (m : Nat → Nat) : (l pmtab la : Nat) → Decidable (pathPrivate L m l pmtab la)
  | 0, _, _ => isTrue trivial
  | l + 1, pmtab, la =>
    have : Decidable (pathPrivate L m l (PTE_ADDR (rd64 m (pmtab + 8 * PDX (l + 1) la))) la) :=
      instDecidablePathPrivate L m l _ la
    inferInstanceAs (Decidable (_ ∧ _ ∧ _ ∧ _ ∧ _))

/-- The address of the leaf entry for `la`, reached from the table `pmtab` of level
`pmlevel`. -/
def leafAddr (m : Nat → Nat) : Nat → Nat → Nat → Nat
  | 0, pmtab, la => pmtab + 8 * PDX 0 la
  | l + 1, pmtab, la => leafAddr m l (PTE_ADDR (rd64 m (pmtab + 8 * PDX (l + 1) la))) la

/-- No interior entry on the path of `la` overlaps the 8-byte word at `pte`. -/
def pathApart (m : Nat → Nat) (pte : Nat) : Nat → Nat → Nat → Prop
  | 0, _, _ => True
  | l + 1, pmtab, la =>
    (pmtab + 8 * PDX (l + 1) la + 8 ≤ pte ∨ pte + 8 ≤ pmtab + 8 * PDX (l + 1) la) ∧
    pathApart m pte l (PTE_ADDR (rd64 m (pmtab + 8 * PDX (l + 1) la))) la

instance (m : Nat → Nat) (pte : Nat) : (l pmtab la : Nat) → Decidable (pathApart m pte l pmtab la)
  | 0, _, _ => isTrue trivial
  | l + 1, pmtab, la =>
    have : Decidable (pathApart m pte l (PTE_ADDR (rd64 m (pmtab + 8 * PDX (l + 1) la))) la) :=
      instDecidablePathApart m pte l _ la
    inferInstanceAs (Decidable (_ ∧ _))

/-- What `pmap_setperm_level` does to a leaf entry `e` (lines 897-903 and 916): a
zero-mapping is jumped over when `pteor` is 0, any other entry becomes
`(e & pteand) | pteor`. -/
def permLeaf (L : Layout) (pteand pteor e : Nat) : Nat :=
  if PTE_ADDR e = L.PTE_ZERO ∧ pteor = 0 then e else (e &&& pteand) ||| pteor

/-- The page tables of the pages of `[va, vahi)` under the table `pmtab` of level
`pmlevel` exist, are private and form a tree: every page of the range has a
private path, no leaf entry of the range overlaps an interior entry on the
path of a page of the range, and different pages have different leaf
entries. -/
def PrivateRange (L : Layout) (m : Nat → Nat) (l pmtab va vahi : Nat) : Prop :=
  ∀ v, va ≤ v → v < vahi → v % PAGESIZE = 0 →
    pathPrivate L m l pmtab v ∧
    ∀ w, va ≤ w → w < vahi → w % PAGESIZE = 0 →
      pathApart m (leafAddr m l pmtab v) l pmtab w ∧
      (leafAddr m l pmtab v = leafAddr m l pmtab w → v = w)

/-- The memory `m1` is `m` with the leaf entry of every page of `[va, vahi)`
replaced by `f` of it: nothing outside these entries differs. -/
def LeavesSet (f : Nat → Nat) (m m1 : Nat → Nat) (leaf : Nat → Nat) (va vahi : Nat) : Prop :=
  (∀ a, (∀ v, va ≤ v → v < vahi → v % PAGESIZE = 0 → a < leaf v ∨ leaf v + 8 ≤ a) →
    m1 a = m a) ∧
  ∀ v, va ≤ v → v < vahi → v % PAGESIZE = 0 → rd64 m1 (leaf v) = f (rd64 m (leaf v))

/-- Example state with private tables: the root at `0x10000` points to the
page-directory-pointer table at `0x13000`, whose entry 1 points to the page
directory at `0x16000`, whose entry 0 points to the page table at `0x17000`,
every entry with `PTE_A | PTE_P | PTE_W | PTE_U`.  The page table maps frame
`0x80` at `UL` (nominal read/write, present, not writable) and frame `0x81` at
`UL + 2 * PAGESIZE` (nominal read/write, present and writable); the page
between them and all others are zero-mappings. -/
def exPrivK : KState :=
  { mem := wr64 (wr64 (wr64 (wr64 (wr64 (exRoot (exRoot (exRoot (exRoot (fun _ => 0) 0x10000)
      0x13000) 0x16000) 0x17000) 0x10000 0x13027) 0x13008 0x16027) 0x16000 0x17027)
      0x17000 0x80601) 0x17010 0x81667
    refcount := fun q =>
      if q = 0x10 ∨ q = 0x13 ∨ q = 0x16 ∨ q = 0x17 ∨ q = 0x80 ∨ q = 0x81 then 1 else 0
    freelist := [0x20, 0x21] }

/-! ## Memory lemmas -/

theorem rd64_congr (m m' : Nat → Nat) (a : Nat)
    (h : ∀ k, k < 8 → m' (a + k) = m (a + k)) : rd64 m' a = rd64 m a := by
  unfold rd64
  have h0 := h 0 (by omega)
  simp only [Nat.add_zero] at h0
  rw [h0, h 1 (by omega), h 2 (by omega), h 3 (by omega), h 4 (by omega), h 5 (by omega),
    h 6 (by omega), h 7 (by omega)]

theorem rd64_lt (m : Nat → Nat) (hm : ByteMem m) (a : Nat) : rd64 m a < 2 ^ 64 := by
  unfold rd64
  have h0 := hm a
  have h1 := hm (a + 1)
  have h2 := hm (a + 2)
  have h3 := hm (a + 3)
  have h4 := hm (a + 4)
  have h5 := hm (a + 5)
  have h6 := hm (a + 6)
  have h7 := hm (a + 7)
  omega

theorem wr64_at (m : Nat → Nat) (a v k : Nat) (hk : k < 8) :
    wr64 m a v (a + k) = (v / 256 ^ k) % 256 := by
  unfold wr64
  have h1 : a ≤ a + k ∧ a + k < a + 8 := ⟨by omega, by omega⟩
  rw [if_pos h1]
  have h2 : a + k - a = k := by omega
  rw [h2]

theorem wr64_out (m : Nat → Nat) (a v x : Nat) (h : x < a ∨ a + 8 ≤ x) :
    wr64 m a v x = m x := by
  unfold wr64
  have h1 : ¬ (a ≤ x ∧ x < a + 8) := by omega
  rw [if_neg h1]

theorem rd64_wr64_same (m : Nat → Nat) (a v : Nat) (hv : v < 2 ^ 64) :
    rd64 (wr64 m a v) a = v := by
  unfold rd64
  have h0 := wr64_at m a v 0 (by omega)
  simp only [Nat.add_zero] at h0
  rw [h0, wr64_at m a v 1 (by omega), wr64_at m a v 2 (by omega), wr64_at m a v 3 (by omega),
    wr64_at m a v 4 (by omega), wr64_at m a v 5 (by omega), wr64_at m a v 6 (by omega),
    wr64_at m a v 7 (by omega)]
  norm_num
  omega

theorem rd64_wr64_other (m : Nat → Nat) (a v b : Nat) (h : b + 8 ≤ a ∨ a + 8 ≤ b) :
    rd64 (wr64 m a v) b = rd64 m b := by
  apply rd64_congr
  intro k hk
  apply wr64_out
  omega

theorem ByteMem_wr64 (m : Nat → Nat) (hm : ByteMem m) (a v : Nat) : ByteMem (wr64 m a v) := by
  intro x
  unfold wr64
  split
  · exact Nat.mod_lt _ (by omega)
  · exact hm x

theorem ByteMem_wr8 (m : Nat → Nat) (hm : ByteMem m) (a v : Nat) : ByteMem (wr8 m a v) := by
  intro x
  unfold wr8
  split
  · exact Nat.mod_lt _ (by omega)
  · exact hm x

theorem ByteMem_memmovePage (m : Nat → Nat) (hm : ByteMem m) (d s : Nat) :
    ByteMem (memmovePage m d s) := by
  intro x
  unfold memmovePage
  split
  · exact hm _
  · exact hm x

theorem PTE_ADDR_mod (x : Nat) : PTE_ADDR x % 4096 = 0 := by
  unfold PTE_ADDR
  omega

theorem wr8_same (m : Nat → Nat) (a v : Nat) : wr8 m a v a = v % 256 := by
  unfold wr8; simp

theorem wr8_other (m : Nat → Nat) (a v x : Nat) (h : x ≠ a) : wr8 m a v x = m x := by
  unfold wr8; simp [h]

/-- What the byte loop of `pmap_mergepage` computes on page-aligned pages. -/
theorem mergeLoop_spec (r s d : Nat) (hr : r % 4096 = 0) (hs : s % 4096 = 0)
    (hd : d % 4096 = 0) :
    ∀ (n i : Nat) (m : Nat → Nat), i + n ≤ 4096 → ByteMem m →
      ByteMem (mergeLoop r s d n i m).1 ∧
      (∀ a, (∀ j, i ≤ j → j < i + n → a ≠ d + j) → (mergeLoop r s d n i m).1 a = m a) ∧
      ((mergeLoop r s d n i m).2 = none ↔
        ∀ j, i ≤ j → j < i + n → m (s + j) = m (r + j) ∨ m (d + j) = m (r + j)) ∧
      ((mergeLoop r s d n i m).2 = none → ∀ j, i ≤ j → j < i + n →
        (mergeLoop r s d n i m).1 (d + j) = if m (s + j) = m (r + j) then m (d + j) else m (s + j))
  := by
  intro n
  induction n with
  | zero =>
    intro i m _ hm
    exact ⟨hm, fun _ _ => rfl, ⟨fun _ j h1 h2 => by omega, fun _ => rfl⟩,
      fun _ j h1 h2 => by omega⟩
  | succ n ih =>
    intro i m hin hm
    by_cases h1 : m (s + i) = m (r + i)
    · have e : mergeLoop r s d (n + 1) i m = mergeLoop r s d n (i + 1) m := by
        simp only [mergeLoop, if_pos h1]
      rw [e]
      obtain ⟨a1, a2, a3, a4⟩ := ih (i + 1) m (by omega) hm
      refine ⟨a1, ?_, ?_, ?_⟩
      · intro a ha
        exact a2 a (fun j hj1 hj2 => ha j (by omega) (by omega))
      · rw [a3]
        constructor
        · intro h j hj1 hj2
          by_cases hji : j = i
          · subst hji; exact Or.inl h1
          · exact h j (by omega) (by omega)
        · intro h j hj1 hj2
          exact h j (by omega) (by omega)
      · intro hnone j hj1 hj2
        by_cases hji : j = i
        · subst hji
          rw [a2 (d + j) (fun k hk1 hk2 => by omega), if_pos h1]
        · exact a4 hnone j (by omega) (by omega)
    · by_cases h2 : m (d + i) = m (r + i)
      · have e : mergeLoop r s d (n + 1) i m
            = mergeLoop r s d n (i + 1) (wr8 m (d + i) (m (s + i))) := by
          simp only [mergeLoop, if_neg h1, if_pos h2]
        rw [e]
        have hm2 : ByteMem (wr8 m (d + i) (m (s + i))) := ByteMem_wr8 m hm _ _
        obtain ⟨a1, a2, a3, a4⟩ := ih (i + 1) (wr8 m (d + i) (m (s + i))) (by omega) hm2
        have keep : ∀ (b j : Nat), b % 4096 = 0 → i + 1 ≤ j → j < i + 1 + n →
            wr8 m (d + i) (m (s + i)) (b + j) = m (b + j) := by
          intro b j hb hj1 hj2
          apply wr8_other
          omega
        refine ⟨a1, ?_, ?_, ?_⟩
        · intro a ha
          rw [a2 a (fun j hj1 hj2 => ha j (by omega) (by omega))]
          apply wr8_other
          have := ha i (by omega) (by omega)
          exact this
        · rw [a3]
          constructor
          · intro h j hj1 hj2
            by_cases hji : j = i
            · subst hji; exact Or.inr h2
            · have := h j (by omega) (by omega)
              rw [keep s j hs (by omega) (by omega), keep r j hr (by omega) (by omega),
                keep d j hd (by omega) (by omega)] at this
              exact this
          · intro h j hj1 hj2
            rw [keep s j hs (by omega) (by omega), keep r j hr (by omega) (by omega),
              keep d j hd (by omega) (by omega)]
            exact h j (by omega) (by omega)
        · intro hnone j hj1 hj2
          by_cases hji : j = i
          · subst hji
            rw [a2 (d + j) (fun k hk1 hk2 => by omega), wr8_same, if_neg h1]
            exact Nat.mod_eq_of_lt (hm _)
          · rw [a4 hnone j (by omega) (by omega)]
            rw [keep s j hs (by omega) (by omega), keep r j hr (by omega) (by omega),
              keep d j hd (by omega) (by omega)]
      · have e : mergeLoop r s d (n + 1) i m = (m, some i) := by
          simp only [mergeLoop, if_neg h1, if_neg h2]
        rw [e]
        refine ⟨hm, fun _ _ => rfl, ?_, ?_⟩
        · constructor
          · intro h; exact absurd h (by simp)
          · intro h
            rcases h i (by omega) (by omega) with h3 | h3
            · exact absurd h3 h1
            · exact absurd h3 h2
        · intro h; exact absurd h (by simp)

theorem mergeLoop_page (r s d : Nat) (hr : r % 4096 = 0) (hs : s % 4096 = 0)
    (hd : d % 4096 = 0) (m : Nat → Nat) (hm : ByteMem m) :
    (∀ a, a < d ∨ d + 4096 ≤ a → (mergeLoop r s d PAGESIZE 0 m).1 a = m a) ∧
    ((mergeLoop r s d PAGESIZE 0 m).2 = none ↔
      ∀ j, j < 4096 → m (s + j) = m (r + j) ∨ m (d + j) = m (r + j)) ∧
    ((mergeLoop r s d PAGESIZE 0 m).2 = none → ∀ j, j < 4096 →
      (mergeLoop r s d PAGESIZE 0 m).1 (d + j)
        = if m (s + j) = m (r + j) then m (d + j) else m (s + j)) := by
  obtain ⟨_, a2, a3, a4⟩ := mergeLoop_spec r s d hr hs hd 4096 0 m (by omega) hm
  refine ⟨?_, ?_, ?_⟩
  · intro a ha
    exact a2 a (fun j _ hj => by omega)
  · show (mergeLoop r s d 4096 0 m).2 = none ↔ _
    rw [a3]
    constructor
    · intro h j hj; exact h j (by omega) (by omega)
    · intro h j _ hj; exact h j (by omega)
  · intro h j hj
    exact a4 h j (by omega) (by omega)

theorem PTE_ADDR_or_flags (a f : Nat) (ha : a % 4096 = 0) (hf : f < 4096) :
    PTE_ADDR (a ||| f) = a := by
  have h1 : a = 2 ^ 12 * (a / 4096) := by omega
  have h2 : a ||| f = a + f := by
    rw [h1]
    exact (Nat.mul_add_lt_is_or (by omega) _).symm
  rw [h2]
  unfold PTE_ADDR
  omega

theorem or_flags_lt (a f : Nat) (ha : a % 4096 = 0) (hf : f < 4096) (h : a < 2 ^ 64) :
    a ||| f < 2 ^ 64 := by
  have h1 : a = 2 ^ 12 * (a / 4096) := by omega
  have h2 : a ||| f = a + f := by
    rw [h1]
    exact (Nat.mul_add_lt_is_or (by omega) _).symm
  rw [h2]
  omega

theorem leafBits_eq (a : Nat) :
    (a ||| SYS_RW ||| PTE_A ||| PTE_D ||| PTE_W ||| PTE_U ||| PTE_P) = (a ||| 0x667) := by
  simp only [Nat.lor_assoc]
  rfl

theorem mem_decref_free_mem (K : KState) (pi : Nat) : (mem_decref K pi mem_free).mem = K.mem := by
  unfold mem_decref mem_free
  split <;> rfl

theorem mem_decref_free_refcount (K : KState) (pi q : Nat) :
    (mem_decref K pi mem_free).refcount q
      = if q = pi then K.refcount pi - 1 else K.refcount q := by
  unfold mem_decref mem_free
  split <;> rfl

theorem mem_decref_free_freelist (K : KState) (pi : Nat) :
    (mem_decref K pi mem_free).freelist
      = if K.refcount pi = 1 then pi :: K.freelist else K.freelist := by
  unfold mem_decref mem_free
  split <;> rfl

theorem mergeUnshare_shared (L : Layout) (K : KState) (dpte d npi : Nat) (fl : List Nat)
    (hsh : d = L.PTE_ZERO ∨ K.refcount (mem_phys2pi d) > 1) (hfl : K.freelist = npi :: fl) :
    mergeUnshare L K dpte d = some (unsharedState L K npi fl dpte d, mem_pi2phys npi) := by
  unfold mergeUnshare unsharedState
  simp only [if_pos hsh, mem_alloc, hfl, leafBits_eq]
  by_cases hz : d = L.PTE_ZERO
  · simp only [hz, ne_eq, not_true_eq_false, if_false, mem_incref]
  · simp only [ne_eq, hz, not_false_eq_true, if_true, mem_decref_free_mem, mem_incref]

theorem mergeUnshare_private (L : Layout) (K : KState) (dpte d : Nat)
    (hsh : ¬ (d = L.PTE_ZERO ∨ K.refcount (mem_phys2pi d) > 1)) :
    mergeUnshare L K dpte d = some (K, d) := by
  unfold mergeUnshare
  simp only [if_neg hsh]

theorem mergeBytes_none (L : Layout) (K : KState) (r s d dpte : Nat)
    (h : (mergeLoop r s d PAGESIZE 0 K.mem).2 = none) :
    mergeBytes L K r s d dpte
      = ({ K with mem := (mergeLoop r s d PAGESIZE 0 K.mem).1 }, false) := by
  unfold mergeBytes
  rcases hloop : mergeLoop r s d PAGESIZE 0 K.mem with ⟨m1, o⟩
  rw [hloop] at h
  simp only at h
  subst h
  rfl

theorem mergeBytes_some (L : Layout) (K : KState) (r s d dpte : Nat)
    (h : (mergeLoop r s d PAGESIZE 0 K.mem).2 ≠ none) :
    mergeBytes L K r s d dpte
      = ({ mem_decref { K with mem := (mergeLoop r s d PAGESIZE 0 K.mem).1 }
              (mem_phys2pi (PTE_ADDR (rd64 (mergeLoop r s d PAGESIZE 0 K.mem).1 dpte)))
              mem_free with
            mem := wr64 (mergeLoop r s d PAGESIZE 0 K.mem).1 dpte L.PTE_ZERO }, true) := by
  unfold mergeBytes
  rcases hloop : mergeLoop r s d PAGESIZE 0 K.mem with ⟨m1, o⟩
  rw [hloop] at h
  cases o with
  | none => exact absurd rfl h
  | some c => simp only [mem_decref_free_mem]

theorem unsharedState_mem (L : Layout) (K : KState) (npi : Nat) (fl : List Nat) (dpte d : Nat) :
    (unsharedState L K npi fl dpte d).mem
      = wr64 (memmovePage K.mem (mem_pi2phys npi) d) dpte (mem_pi2phys npi ||| 0x667) := rfl

/-- The unsharing step of `pmap_mergepage` under `MergeReady`: it returns a state
`Ku` and a page-aligned page `dd` such that the reference and source pages read
as before, `dd` holds the bytes of the old destination page, and the leaf maps
`dd`, which is not the zero page. -/
theorem mergeUnshare_spec (L : Layout) (K : KState) (rpte spte dpte : Nat)
    (hm : ByteMem K.mem) (hrdy : MergeReady L K rpte spte dpte) :
    ∃ Ku dd, mergeUnshare L K dpte (PTE_ADDR (rd64 K.mem dpte)) = some (Ku, dd) ∧
      dd % 4096 = 0 ∧ ByteMem Ku.mem ∧ dd ≠ L.PTE_ZERO ∧
      (dpte + 8 ≤ dd ∨ dd + 4096 ≤ dpte) ∧
      PTE_ADDR (rd64 Ku.mem dpte) = dd ∧
      (∀ j, j < 4096 → Ku.mem (PTE_ADDR (rd64 K.mem rpte) + j)
          = K.mem (PTE_ADDR (rd64 K.mem rpte) + j)) ∧
      (∀ j, j < 4096 → Ku.mem (PTE_ADDR (rd64 K.mem spte) + j)
          = K.mem (PTE_ADDR (rd64 K.mem spte) + j)) ∧
      (∀ j, j < 4096 → Ku.mem (dd + j) = K.mem (PTE_ADDR (rd64 K.mem dpte) + j)) := by
  have hr := PTE_ADDR_mod (rd64 K.mem rpte)
  have hs := PTE_ADDR_mod (rd64 K.mem spte)
  have hd := PTE_ADDR_mod (rd64 K.mem dpte)
  obtain ⟨hown, hfree⟩ := hrdy
  generalize PTE_ADDR (rd64 K.mem rpte) = r at *
  generalize PTE_ADDR (rd64 K.mem spte) = s at *
  generalize hddef : PTE_ADDR (rd64 K.mem dpte) = d at *
  by_cases hsh : dstShared L K d
  · obtain ⟨npi, fl, hfl, hnpi, hnz, hnr, hns, hnd, hon, hor, hos⟩ := hfree hsh
    have hna : mem_pi2phys npi % 4096 = 0 := by unfold mem_pi2phys PAGESIZE; omega
    have hnlt : mem_pi2phys npi < 2 ^ 64 := by unfold mem_pi2phys PAGESIZE; omega
    unfold entryOutside PAGESIZE at hon hor hos
    refine ⟨_, _, mergeUnshare_shared L K dpte d npi fl hsh hfl, hna, ?_, hnz, hon, ?_, ?_, ?_, ?_⟩
    · rw [unsharedState_mem]
      exact ByteMem_wr64 _ (ByteMem_memmovePage _ hm _ _) _ _
    · rw [unsharedState_mem, rd64_wr64_same _ _ _ (or_flags_lt _ _ hna (by omega) hnlt)]
      exact PTE_ADDR_or_flags _ _ hna (by omega)
    · intro j hj
      rw [unsharedState_mem, wr64_out _ _ _ _ (by omega)]
      unfold memmovePage PAGESIZE
      rw [if_neg (by omega)]
    · intro j hj
      rw [unsharedState_mem, wr64_out _ _ _ _ (by omega)]
      unfold memmovePage PAGESIZE
      rw [if_neg (by omega)]
    · intro j hj
      rw [unsharedState_mem, wr64_out _ _ _ _ (by omega)]
      unfold memmovePage PAGESIZE
      rw [if_pos (by omega)]
      congr 1
      omega
  · have hout := hown hsh
    unfold entryOutside PAGESIZE at hout
    exact ⟨_, _, mergeUnshare_private L K dpte d hsh, hd, hm, fun h => hsh (Or.inl h), hout,
      hddef, fun _ _ => rfl, fun _ _ => rfl, fun _ _ => rfl⟩

/-- What one call of `pmap_mergepage` does under `MergeReady`: it returns; the
conflict diagnostic is printed exactly when some byte index is a conflict; and
without a conflict the leaf maps a page, not the zero page, holding the merged
bytes. -/
theorem pmap_mergepage_spec (L : Layout) (K : KState) (rpte spte dpte : Nat)
    (hm : ByteMem K.mem) (hrdy : MergeReady L K rpte spte dpte) :
    ∃ K' c, pmap_mergepage L K rpte spte dpte = some (K', c) ∧
      (c = true ↔ ∃ i, i < 4096 ∧ conflictAt K.mem (PTE_ADDR (rd64 K.mem rpte))
          (PTE_ADDR (rd64 K.mem spte)) (PTE_ADDR (rd64 K.mem dpte)) i) ∧
      (c = false → PTE_ADDR (rd64 K'.mem dpte) ≠ L.PTE_ZERO ∧
        ∀ i, i < 4096 →
          K'.mem (PTE_ADDR (rd64 K'.mem dpte) + i) =
            if K.mem (PTE_ADDR (rd64 K.mem spte) + i) = K.mem (PTE_ADDR (rd64 K.mem rpte) + i)
            then K.mem (PTE_ADDR (rd64 K.mem dpte) + i)
            else K.mem (PTE_ADDR (rd64 K.mem spte) + i)) := by
  obtain ⟨Ku, dd, hun, hdd, hmu, hnz, hout, hleafu, hur, hus, hud⟩ :=
    mergeUnshare_spec L K rpte spte dpte hm hrdy
  have hr := PTE_ADDR_mod (rd64 K.mem rpte)
  have hs := PTE_ADDR_mod (rd64 K.mem spte)
  unfold pmap_mergepage
  simp only [hun]
  generalize PTE_ADDR (rd64 K.mem rpte) = r at *
  generalize PTE_ADDR (rd64 K.mem spte) = s at *
  generalize PTE_ADDR (rd64 K.mem dpte) = d at *
  obtain ⟨b1, b2, b3⟩ := mergeLoop_page r s dd hr hs hdd Ku.mem hmu
  have hiff : (mergeLoop r s dd PAGESIZE 0 Ku.mem).2 = none ↔
      ¬ ∃ i, i < 4096 ∧ conflictAt K.mem r s d i := by
    rw [b2]
    unfold conflictAt
    constructor
    · intro h ⟨i, hi, h1, h2⟩
      have := h i hi
      rw [hur i hi, hus i hi, hud i hi] at this
      rcases this with h3 | h3
      · exact h1 h3
      · exact h2 h3
    · intro h j hj
      rw [hur j hj, hus j hj, hud j hj]
      by_cases h1 : K.mem (s + j) = K.mem (r + j)
      · exact Or.inl h1
      · by_cases h2 : K.mem (d + j) = K.mem (r + j)
        · exact Or.inr h2
        · exact absurd ⟨j, hj, h1, h2⟩ h
  by_cases hnone : (mergeLoop r s dd PAGESIZE 0 Ku.mem).2 = none
  · rw [mergeBytes_none L Ku r s dd dpte hnone]
    have hleaf : rd64 (mergeLoop r s dd PAGESIZE 0 Ku.mem).1 dpte = rd64 Ku.mem dpte :=
      rd64_congr _ _ dpte (fun k hk => b1 _ (by omega))
    refine ⟨_, false, rfl, ?_, ?_⟩
    · constructor
      · intro h; exact absurd h (by simp)
      · intro h; exact absurd h (hiff.mp hnone)
    · intro _
      constructor
      · show PTE_ADDR (rd64 (mergeLoop r s dd PAGESIZE 0 Ku.mem).1 dpte) ≠ _
        rw [hleaf, hleafu]; exact hnz
      · intro i hi
        show (mergeLoop r s dd PAGESIZE 0 Ku.mem).1
          (PTE_ADDR (rd64 (mergeLoop r s dd PAGESIZE 0 Ku.mem).1 dpte) + i) = _
        rw [hleaf, hleafu, b3 hnone i hi, hur i hi, hus i hi, hud i hi]
  · rw [mergeBytes_some L Ku r s dd dpte hnone]
    refine ⟨_, true, rfl, ?_, ?_⟩
    · constructor
      · intro _
        by_contra h
        exact hnone (hiff.mpr h)
      · intro _; rfl
    · intro h; exact absurd h (by simp)

/-- C1. `pmap_mergepage`, byte rule: when no byte index has both `s[i] != r[i]` and
`d[i] != r[i]`, the call returns without the conflict diagnostic, the
destination leaf maps a frame other than the zero frame (it stays mapped), and
byte `i` of that frame is `d[i]` when `s[i] == r[i]` and `s[i]` otherwise. -/
theorem pmap_mergepage_byte_rule (L : Layout) (K : KState) (rpte spte dpte : Nat)
    (hm : ByteMem K.mem) (hrdy : MergeReady L K rpte spte dpte)
    (hnc : ∀ i, i < PAGESIZE → ¬ conflictAt K.mem (PTE_ADDR (rd64 K.mem rpte))
      (PTE_ADDR (rd64 K.mem spte)) (PTE_ADDR (rd64 K.mem dpte)) i) :
    ∃ K', pmap_mergepage L K rpte spte dpte = some (K', false) ∧
      PTE_ADDR (rd64 K'.mem dpte) ≠ L.PTE_ZERO ∧
      ∀ i, i < PAGESIZE →
        K'.mem (PTE_ADDR (rd64 K'.mem dpte) + i) =
          if K.mem (PTE_ADDR (rd64 K.mem spte) + i) = K.mem (PTE_ADDR (rd64 K.mem rpte) + i)
          then K.mem (PTE_ADDR (rd64 K.mem dpte) + i)
          else K.mem (PTE_ADDR (rd64 K.mem spte) + i) := by
  obtain ⟨K', c, hrun, hc, hres⟩ := pmap_mergepage_spec L K rpte spte dpte hm hrdy
  have hcf : c = false := by
    cases c with
    | false => rfl
    | true =>
      obtain ⟨i, hi, hconf⟩ := hc.mp rfl
      exact absurd hconf (hnc i hi)
  subst hcf
  exact ⟨K', hrun, (hres rfl).1, (hres rfl).2⟩

/-- C2. Three-way merge is commutative without conflicts and symmetric in
conflicts: merging `a` into `b` and merging `b` into `a` against the same
reference both return, with the same conflict flag `c`; the flag is set exactly
when some byte of the page differs from the reference in both `a` and `b`; and
when it is not set both destination leaves map a page, not the zero page, and
the two resulting destination pages are byte-for-byte equal. -/
theorem pmap_mergepage_comm (L : Layout) (K : KState) (rpte apte bpte : Nat)
    (hm : ByteMem K.mem) (hab : MergeReady L K rpte apte bpte)
    (hba : MergeReady L K rpte bpte apte) :
    ∃ K1 K2 c, pmap_mergepage L K rpte apte bpte = some (K1, c) ∧
      pmap_mergepage L K rpte bpte apte = some (K2, c) ∧
      (c = true ↔ ∃ i, i < PAGESIZE ∧ conflictAt K.mem (PTE_ADDR (rd64 K.mem rpte))
          (PTE_ADDR (rd64 K.mem apte)) (PTE_ADDR (rd64 K.mem bpte)) i) ∧
      (c = false →
        PTE_ADDR (rd64 K1.mem bpte) ≠ L.PTE_ZERO ∧ PTE_ADDR (rd64 K2.mem apte) ≠ L.PTE_ZERO ∧
        ∀ i, i < PAGESIZE →
          K1.mem (PTE_ADDR (rd64 K1.mem bpte) + i) = K2.mem (PTE_ADDR (rd64 K2.mem apte) + i)) := by
  obtain ⟨K1, c1, hrun1, hc1, hres1⟩ := pmap_mergepage_spec L K rpte apte bpte hm hab
  obtain ⟨K2, c2, hrun2, hc2, hres2⟩ := pmap_mergepage_spec L K rpte bpte apte hm hba
  have hsym : (∃ i, i < 4096 ∧ conflictAt K.mem (PTE_ADDR (rd64 K.mem rpte))
        (PTE_ADDR (rd64 K.mem apte)) (PTE_ADDR (rd64 K.mem bpte)) i) ↔
      (∃ i, i < 4096 ∧ conflictAt K.mem (PTE_ADDR (rd64 K.mem rpte))
        (PTE_ADDR (rd64 K.mem bpte)) (PTE_ADDR (rd64 K.mem apte)) i) := by
    unfold conflictAt
    constructor
    · rintro ⟨i, hi, h1, h2⟩; exact ⟨i, hi, h2, h1⟩
    · rintro ⟨i, hi, h1, h2⟩; exact ⟨i, hi, h2, h1⟩
  have hcc : c1 = c2 := by
    have : c1 = true ↔ c2 = true := by rw [hc1, hc2, hsym]
    cases c1 <;> cases c2 <;> simp_all
  subst hcc
  refine ⟨K1, K2, c1, hrun1, hrun2, hc1, ?_⟩
  intro hcf
  refine ⟨(hres1 hcf).1, (hres2 hcf).1, ?_⟩
  intro i hi
  unfold PAGESIZE at hi
  rw [(hres1 hcf).2 i hi, (hres2 hcf).2 i hi]
  have hno : ¬ conflictAt K.mem (PTE_ADDR (rd64 K.mem rpte))
      (PTE_ADDR (rd64 K.mem apte)) (PTE_ADDR (rd64 K.mem bpte)) i := by
    intro h
    have := hc1.mpr ⟨i, hi, h⟩
    rw [hcf] at this
    exact absurd this (by simp)
  unfold conflictAt at hno
  by_cases h1 : K.mem (PTE_ADDR (rd64 K.mem apte) + i) = K.mem (PTE_ADDR (rd64 K.mem rpte) + i)
  · by_cases h2 : K.mem (PTE_ADDR (rd64 K.mem bpte) + i)
        = K.mem (PTE_ADDR (rd64 K.mem rpte) + i)
    · rw [if_pos h1, if_pos h2, h1, h2]
    · rw [if_pos h1, if_neg h2]
  · by_cases h2 : K.mem (PTE_ADDR (rd64 K.mem bpte) + i)
        = K.mem (PTE_ADDR (rd64 K.mem rpte) + i)
    · rw [if_neg h1, if_pos h2]
    · exact absurd ⟨h1, h2⟩ hno

theorem mergeLoop_conflict_iff (m mu : Nat → Nat) (r s d dd : Nat) (hr : r % 4096 = 0)
    (hs : s % 4096 = 0) (hdd : dd % 4096 = 0) (hmu : ByteMem mu)
    (hur : ∀ j, j < 4096 → mu (r + j) = m (r + j))
    (hus : ∀ j, j < 4096 → mu (s + j) = m (s + j))
    (hud : ∀ j, j < 4096 → mu (dd + j) = m (d + j)) :
    (mergeLoop r s dd PAGESIZE 0 mu).2 = none ↔ ¬ ∃ i, i < 4096 ∧ conflictAt m r s d i := by
  obtain ⟨_, b2, _⟩ := mergeLoop_page r s dd hr hs hdd mu hmu
  rw [b2]
  unfold conflictAt
  constructor
  · intro h ⟨i, hi, h1, h2⟩
    have := h i hi
    rw [hur i hi, hus i hi, hud i hi] at this
    rcases this with h3 | h3
    · exact h1 h3
    · exact h2 h3
  · intro h j hj
    rw [hur j hj, hus j hj, hud j hj]
    by_cases h1 : m (s + j) = m (r + j)
    · exact Or.inl h1
    · by_cases h2 : m (d + j) = m (r + j)
      · exact Or.inr h2
      · exact absurd ⟨j, hj, h1, h2⟩ h

theorem mem_phys2pi_pi2phys (pi : Nat) : mem_phys2pi (mem_pi2phys pi) = pi := by
  unfold mem_phys2pi mem_pi2phys PAGESIZE
  omega

/-- Reference counts after the unsharing step of `pmap_mergepage`: either nothing
was copied, or the old destination frame (when it is not the zero frame) lost
one reference and the page now mapped is another frame. -/
theorem mergeUnshare_refcount (L : Layout) (K : KState) (rpte spte dpte : Nat)
    (hrdy : MergeReady L K rpte spte dpte) (Ku : KState) (dd : Nat)
    (hun : mergeUnshare L K dpte (PTE_ADDR (rd64 K.mem dpte)) = some (Ku, dd)) :
    (dd = PTE_ADDR (rd64 K.mem dpte) ∧ Ku.refcount = K.refcount) ∨
    (mem_phys2pi dd ≠ mem_phys2pi (PTE_ADDR (rd64 K.mem dpte)) ∧
      (PTE_ADDR (rd64 K.mem dpte) ≠ L.PTE_ZERO →
        Ku.refcount (mem_phys2pi (PTE_ADDR (rd64 K.mem dpte)))
          = K.refcount (mem_phys2pi (PTE_ADDR (rd64 K.mem dpte))) - 1)) := by
  have hd := PTE_ADDR_mod (rd64 K.mem dpte)
  obtain ⟨_, hfree⟩ := hrdy
  generalize PTE_ADDR (rd64 K.mem rpte) = r at *
  generalize PTE_ADDR (rd64 K.mem spte) = s at *
  generalize PTE_ADDR (rd64 K.mem dpte) = d at *
  by_cases hsh : dstShared L K d
  · obtain ⟨npi, fl, hfl, hnpi, hnz, hnr, hns, hnd, hon, hor, hos⟩ := hfree hsh
    rw [mergeUnshare_shared L K dpte d npi fl hsh hfl] at hun
    simp only [Option.some.injEq, Prod.mk.injEq] at hun
    obtain ⟨hKu, hdd⟩ := hun
    subst hKu hdd
    right
    have hne : npi ≠ mem_phys2pi d := by
      intro h
      apply hnd
      unfold mem_pi2phys
      rw [h]
      unfold mem_phys2pi PAGESIZE
      omega
    refine ⟨by rw [mem_phys2pi_pi2phys]; exact hne, ?_⟩
    intro hz
    unfold unsharedState
    simp only [ne_eq, hz, not_false_eq_true, if_true, mem_decref_free_refcount, mem_incref]
    simp [Ne.symm hne]
  · rw [mergeUnshare_private L K dpte d hsh] at hun
    simp only [Option.some.injEq, Prod.mk.injEq] at hun
    obtain ⟨hKu, hdd⟩ := hun
    subst hKu hdd
    exact Or.inl ⟨rfl, rfl⟩

/-- C6 (amended). Merge conflict outcome: when some byte index has `s[i] != r[i]`
and `d[i] != r[i]`, `pmap_mergepage` prints the diagnostic and overwrites the
destination leaf with exactly `PTE_ZERO`: a zero-mapping whose twelve flag bits,
the present bit and the nominal `SYS_READ`/`SYS_WRITE` bits among them, are all
clear; the frame the leaf mapped before the call, when it is not the zero
frame, has lost one reference. -/
theorem pmap_mergepage_conflict (L : Layout) (K : KState) (rpte spte dpte : Nat)
    (hm : ByteMem K.mem) (hrdy : MergeReady L K rpte spte dpte)
    (hz : L.PTE_ZERO < 2 ^ 64) (hza : L.PTE_ZERO % 4096 = 0)
    (hconf : ∃ i, i < PAGESIZE ∧ conflictAt K.mem (PTE_ADDR (rd64 K.mem rpte))
      (PTE_ADDR (rd64 K.mem spte)) (PTE_ADDR (rd64 K.mem dpte)) i) :
    ∃ K', pmap_mergepage L K rpte spte dpte = some (K', true) ∧
      rd64 K'.mem dpte = L.PTE_ZERO ∧
      rd64 K'.mem dpte % 4096 = 0 ∧
      (PTE_ADDR (rd64 K.mem dpte) ≠ L.PTE_ZERO →
        K'.refcount (mem_phys2pi (PTE_ADDR (rd64 K.mem dpte)))
          = K.refcount (mem_phys2pi (PTE_ADDR (rd64 K.mem dpte))) - 1) := by
  obtain ⟨Ku, dd, hun, hdd, hmu, hnz, hout, hleafu, hur, hus, hud⟩ :=
    mergeUnshare_spec L K rpte spte dpte hm hrdy
  have hrc := mergeUnshare_refcount L K rpte spte dpte hrdy Ku dd hun
  have hr := PTE_ADDR_mod (rd64 K.mem rpte)
  have hs := PTE_ADDR_mod (rd64 K.mem spte)
  have hiff := mergeLoop_conflict_iff K.mem Ku.mem _ _ (PTE_ADDR (rd64 K.mem dpte)) dd hr hs hdd
    hmu hur hus hud
  obtain ⟨b1, _, _⟩ := mergeLoop_page _ _ dd hr hs hdd Ku.mem hmu
  unfold pmap_mergepage
  simp only [hun]
  generalize PTE_ADDR (rd64 K.mem rpte) = r at *
  generalize PTE_ADDR (rd64 K.mem spte) = s at *
  generalize PTE_ADDR (rd64 K.mem dpte) = d at *
  have hsome : (mergeLoop r s dd PAGESIZE 0 Ku.mem).2 ≠ none := by
    intro h
    exact (hiff.mp h) hconf
  have hleaf : rd64 (mergeLoop r s dd PAGESIZE 0 Ku.mem).1 dpte = rd64 Ku.mem dpte :=
    rd64_congr _ _ dpte (fun k hk => b1 _ (by omega))
  rw [mergeBytes_some L Ku r s dd dpte hsome]
  have hrd : rd64 (wr64 (mergeLoop r s dd PAGESIZE 0 Ku.mem).1 dpte L.PTE_ZERO) dpte
      = L.PTE_ZERO := rd64_wr64_same _ _ _ hz
  refine ⟨_, rfl, hrd, ?_, ?_⟩
  · show rd64 (wr64 (mergeLoop r s dd PAGESIZE 0 Ku.mem).1 dpte L.PTE_ZERO) dpte % 4096 = 0
    rw [hrd]; exact hza
  · intro hdz
    show (mem_decref _ _ mem_free).refcount (mem_phys2pi d) = _
    rw [mem_decref_free_refcount]
    simp only [hleaf, hleafu]
    rcases hrc with ⟨h1, h2⟩ | ⟨h1, h2⟩
    · subst h1
      simp only [if_true, h2]
    · rw [if_neg (Ne.symm h1)]
      exact h2 hdz

theorem exMergeK_bytes (k : Nat) : ByteMem (exMergeK k).mem := by
  show ByteMem (exMergeMem k)
  unfold exMergeMem
  apply ByteMem_wr8
  apply ByteMem_wr8
  apply ByteMem_wr64
  apply ByteMem_wr64
  apply ByteMem_wr64
  intro a
  show 0 < 256
  omega

theorem exMergeK_ready_ab : MergeReady exLayout (exMergeK 1) 0x20000 0x20008 0x20010 := by
  unfold MergeReady dstShared
  refine ⟨by decide, fun _ => ⟨0x40, [], rfl, ?_⟩⟩
  decide

theorem exMergeK_ready_ba : MergeReady exLayout (exMergeK 1) 0x20000 0x20010 0x20008 := by
  unfold MergeReady dstShared
  refine ⟨by decide, fun h => absurd h (by decide)⟩

theorem exMergeK_ready_conflict : MergeReady exLayout (exMergeK 0) 0x20000 0x20008 0x20010 := by
  unfold MergeReady dstShared
  refine ⟨by decide, fun _ => ⟨0x40, [], rfl, ?_⟩⟩
  decide

theorem exMergeMem_hi (k x : Nat) (hx : 0x30000 ≤ x) :
    exMergeMem k x = if x = 0x32000 + k then 9 else if x = 0x31000 then 7 else 0 := by
  unfold exMergeMem wr8
  have h1 : ¬ (0x20000 ≤ x ∧ x < 0x20000 + 8) := by omega
  have h2 : ¬ (0x20008 ≤ x ∧ x < 0x20008 + 8) := by omega
  have h3 : ¬ (0x20010 ≤ x ∧ x < 0x20010 + 8) := by omega
  simp only [wr64, h1, h2, h3, if_false]

theorem exMergeK_noconflict : ∀ i, i < PAGESIZE →
    ¬ conflictAt (exMergeK 1).mem (PTE_ADDR (rd64 (exMergeK 1).mem 0x20000))
      (PTE_ADDR (rd64 (exMergeK 1).mem 0x20008)) (PTE_ADDR (rd64 (exMergeK 1).mem 0x20010)) i := by
  have e1 : PTE_ADDR (rd64 (exMergeK 1).mem 0x20000) = 0x30000 := by decide
  have e2 : PTE_ADDR (rd64 (exMergeK 1).mem 0x20008) = 0x31000 := by decide
  have e3 : PTE_ADDR (rd64 (exMergeK 1).mem 0x20010) = 0x32000 := by decide
  rw [e1, e2, e3]
  intro i hi
  unfold PAGESIZE at hi
  unfold conflictAt
  show ¬ (exMergeMem 1 _ ≠ exMergeMem 1 _ ∧ exMergeMem 1 _ ≠ exMergeMem 1 _)
  rw [exMergeMem_hi 1 _ (by omega), exMergeMem_hi 1 _ (by omega), exMergeMem_hi 1 _ (by omega)]
  intro ⟨h1, h2⟩
  have hi0 : i = 0 := by
    by_contra h
    apply h1
    rw [if_neg (by omega), if_neg (by omega), if_neg (by omega), if_neg (by omega)]
  subst hi0
  apply h2
  rw [if_neg (by omega), if_neg (by omega), if_neg (by omega), if_neg (by omega)]

/-- Witness for C1: the example state without a conflict satisfies the hypotheses
of `pmap_mergepage_byte_rule`. -/
theorem pmap_mergepage_byte_rule_witness :
    ∃ K', pmap_mergepage exLayout (exMergeK 1) 0x20000 0x20008 0x20010 = some (K', false) ∧
      PTE_ADDR (rd64 K'.mem 0x20010) ≠ exLayout.PTE_ZERO ∧
      ∀ i, i < PAGESIZE →
        K'.mem (PTE_ADDR (rd64 K'.mem 0x20010) + i) =
          if (exMergeK 1).mem (PTE_ADDR (rd64 (exMergeK 1).mem 0x20008) + i)
              = (exMergeK 1).mem (PTE_ADDR (rd64 (exMergeK 1).mem 0x20000) + i)
          then (exMergeK 1).mem (PTE_ADDR (rd64 (exMergeK 1).mem 0x20010) + i)
          else (exMergeK 1).mem (PTE_ADDR (rd64 (exMergeK 1).mem 0x20008) + i) :=
  pmap_mergepage_byte_rule exLayout (exMergeK 1) 0x20000 0x20008 0x20010 (exMergeK_bytes 1)
    exMergeK_ready_ab exMergeK_noconflict

/-- Witness for C2: in the example state neither direction conflicts, both
calls return with the flag clear, both leaves map a page, and the two result
pages are byte-for-byte equal. -/
theorem pmap_mergepage_comm_witness :
    ∃ K1 K2, pmap_mergepage exLayout (exMergeK 1) 0x20000 0x20008 0x20010 = some (K1, false) ∧
      pmap_mergepage exLayout (exMergeK 1) 0x20000 0x20010 0x20008 = some (K2, false) ∧
      PTE_ADDR (rd64 K1.mem 0x20010) ≠ exLayout.PTE_ZERO ∧
      PTE_ADDR (rd64 K2.mem 0x20008) ≠ exLayout.PTE_ZERO ∧
      ∀ i, i < PAGESIZE →
        K1.mem (PTE_ADDR (rd64 K1.mem 0x20010) + i)
          = K2.mem (PTE_ADDR (rd64 K2.mem 0x20008) + i) := by
  obtain ⟨K1, K2, c, h1, h2, hc, hres⟩ :=
    pmap_mergepage_comm exLayout (exMergeK 1) 0x20000 0x20008 0x20010 (exMergeK_bytes 1)
      exMergeK_ready_ab exMergeK_ready_ba
  have hcf : c = false := by
    cases c with
    | false => rfl
    | true =>
      obtain ⟨i, hi, hconf⟩ := hc.mp rfl
      exact absurd hconf (exMergeK_noconflict i hi)
  subst hcf
  exact ⟨K1, K2, h1, h2, (hres rfl).1, (hres rfl).2.1, (hres rfl).2.2⟩

/-- Witness for C6 (amended): the example state with a conflict at byte 0. -/
theorem pmap_mergepage_conflict_witness :
    ∃ K', pmap_mergepage exLayout (exMergeK 0) 0x20000 0x20008 0x20010 = some (K', true) ∧
      rd64 K'.mem 0x20010 = exLayout.PTE_ZERO ∧
      rd64 K'.mem 0x20010 % 4096 = 0 ∧
      (PTE_ADDR (rd64 (exMergeK 0).mem 0x20010) ≠ exLayout.PTE_ZERO →
        K'.refcount (mem_phys2pi (PTE_ADDR (rd64 (exMergeK 0).mem 0x20010)))
          = (exMergeK 0).refcount (mem_phys2pi (PTE_ADDR (rd64 (exMergeK 0).mem 0x20010))) - 1) :=
  pmap_mergepage_conflict exLayout (exMergeK 0) 0x20000 0x20008 0x20010 (exMergeK_bytes 0)
    exMergeK_ready_conflict (by decide) (by decide) ⟨0, by decide, by decide⟩

/-- C6, counterexample: in the example state the destination leaf carries
`SYS_READ | SYS_WRITE` before the merge, the merge finds a conflict, and the
leaf carries neither bit afterwards. -/
theorem pmap_mergepage_conflict_drops_perm :
    rd64 (exMergeK 0).mem 0x20010 &&& SYS_RW = SYS_RW ∧
    (pmap_mergepage exLayout (exMergeK 0) 0x20000 0x20008 0x20010).map
      (fun x => (x.2, rd64 x.1.mem 0x20010 &&& SYS_RW)) = some (true, 0) := by
  decide

theorem mem_incref_refcount (K : KState) (pi q : Nat) :
    (mem_incref K pi).refcount q = if q = pi then K.refcount pi + 1 else K.refcount q := rfl

theorem mem_incref_mem (K : KState) (pi : Nat) : (mem_incref K pi).mem = K.mem := rfl

theorem mem_incref_freelist (K : KState) (pi : Nat) : (mem_incref K pi).freelist = K.freelist := rfl

theorem PGADDR_eq_PTE_ADDR (x : Nat) : PGADDR x = PTE_ADDR x := rfl

theorem or_667_writable (a : Nat) : (a ||| 0x667) &&& PTE_W ≠ 0 := by
  have h1 : (a ||| 0x667) &&& 2 ^ 1 = ((a ||| 0x667).testBit 1).toNat * 2 ^ 1 :=
    Nat.and_two_pow _ _
  have h2 : (0x667 : Nat).testBit 1 = true := by decide
  rw [Nat.testBit_or, h2, Bool.or_true] at h1
  show (a ||| 0x667) &&& 2 ≠ 0
  have h3 : (a ||| 0x667) &&& 2 = 2 := h1
  rw [h3]
  decide

theorem memmovePage_in (m : Nat → Nat) (d s i : Nat) (hi : i < PAGESIZE) :
    memmovePage m d s (d + i) = m (s + i) := by
  unfold memmovePage
  have h : d ≤ d + i ∧ d + i < d + PAGESIZE := ⟨by omega, by omega⟩
  rw [if_pos h]
  congr 1
  omega

theorem faultCopy_keep (L : Layout) (K : KState) (pte : Nat)
    (hz : PTE_ADDR (rd64 K.mem pte) ≠ L.PTE_ZERO)
    (hr : K.refcount (mem_phys2pi (PTE_ADDR (rd64 K.mem pte))) ≤ 1) :
    faultCopy L K pte = some { K with mem := wr64 K.mem pte (PTE_ADDR (rd64 K.mem pte) ||| 0x667) } := by
  unfold faultCopy
  have h : ¬ (PTE_ADDR (rd64 K.mem pte) = L.PTE_ZERO ∨
      K.refcount (mem_phys2pi (PTE_ADDR (rd64 K.mem pte))) > 1) := by
    intro h
    rcases h with h | h
    · exact hz h
    · omega
  simp only [h, if_false, leafBits_eq]

theorem faultCopy_fresh (L : Layout) (K : KState) (pte npi : Nat) (fl : List Nat)
    (hc : PTE_ADDR (rd64 K.mem pte) = L.PTE_ZERO ∨
      K.refcount (mem_phys2pi (PTE_ADDR (rd64 K.mem pte))) > 1)
    (hf : K.freelist = npi :: fl) :
    ∃ K2, faultCopy L K pte = some K2 ∧
      K2.mem = wr64 (memmovePage K.mem (mem_pi2phys npi) (PTE_ADDR (rd64 K.mem pte))) pte
        (mem_pi2phys npi ||| 0x667) ∧
      K2.freelist = fl ∧
      ∀ q, K2.refcount q =
        if PTE_ADDR (rd64 K.mem pte) ≠ L.PTE_ZERO ∧ q = mem_phys2pi (PTE_ADDR (rd64 K.mem pte))
        then (if q = npi then K.refcount npi + 1 else K.refcount q) - 1
        else if q = npi then K.refcount npi + 1 else K.refcount q := by
  unfold faultCopy mem_alloc
  simp only [hc, if_true, hf, leafBits_eq]
  by_cases hz : PTE_ADDR (rd64 K.mem pte) = L.PTE_ZERO
  · simp only [hz, ne_eq, not_true_eq_false, if_false, false_and]
    refine ⟨_, rfl, rfl, rfl, ?_⟩
    intro q
    rfl
  · have hr : K.refcount (mem_phys2pi (PTE_ADDR (rd64 K.mem pte))) > 1 := hc.resolve_left hz
    simp only [ne_eq, hz, not_false_eq_true, if_true, true_and]
    refine ⟨_, rfl, ?_, ?_, ?_⟩
    · simp only [mem_decref_free_mem, mem_incref]
    · simp only [mem_decref_free_freelist, mem_incref]
      by_cases h1 : mem_phys2pi (PTE_ADDR (rd64 K.mem pte)) = npi
      · rw [h1] at hr ⊢
        have h2 : ¬ (K.refcount npi + 1 = 1) := by omega
        simp only [if_true, h2, if_false]
      · have h2 : ¬ (K.refcount (mem_phys2pi (PTE_ADDR (rd64 K.mem pte))) = 1) := by omega
        simp only [h1, if_false, h2]
    · intro q
      simp only [mem_decref_free_refcount, mem_incref]
      by_cases hq : q = mem_phys2pi (PTE_ADDR (rd64 K.mem pte))
      · subst hq
        simp
      · simp [hq]

theorem shr_or (a b i : Nat) : (a ||| b) >>> i = a >>> i ||| b >>> i := by
  apply Nat.eq_of_testBit_eq
  intro j
  simp only [Nat.testBit_shiftRight, Nat.testBit_or]

theorem shr_and (a b i : Nat) : (a &&& b) >>> i = a >>> i &&& b >>> i := by
  apply Nat.eq_of_testBit_eq
  intro j
  simp only [Nat.testBit_shiftRight, Nat.testBit_and]

theorem PTE_ADDR_eq_mul (x : Nat) : PTE_ADDR x = 4096 * (x / 4096) := by
  unfold PTE_ADDR
  omega

theorem PTE_ADDR_or_small (e f : Nat) (hf : f < 4096) : PTE_ADDR (e ||| f) = PTE_ADDR e := by
  rw [PTE_ADDR_eq_mul, PTE_ADDR_eq_mul]
  congr 1
  have h1 : (e ||| f) >>> 12 = e >>> 12 ||| f >>> 12 := shr_or e f 12
  have h2 : f >>> 12 = 0 := by
    rw [Nat.shiftRight_eq_div_pow]
    exact Nat.div_eq_of_lt hf
  rw [h2, Nat.or_zero, Nat.shiftRight_eq_div_pow, Nat.shiftRight_eq_div_pow] at h1
  exact h1

theorem clrW_lt (e : Nat) : clrW e < 2 ^ 64 := by
  unfold clrW
  have := @Nat.and_le_right e 0xFFFFFFFFFFFFFFFD
  omega

theorem PTE_ADDR_clrW (e : Nat) (he : e < 2 ^ 64) : PTE_ADDR (clrW e) = PTE_ADDR e := by
  rw [PTE_ADDR_eq_mul, PTE_ADDR_eq_mul]
  congr 1
  unfold clrW
  have h1 : (e &&& 0xFFFFFFFFFFFFFFFD) >>> 12 = e >>> 12 &&& 0xFFFFFFFFFFFFFFFD >>> 12 :=
    shr_and e 0xFFFFFFFFFFFFFFFD 12
  have h2 : (0xFFFFFFFFFFFFFFFD : Nat) >>> 12 = 2 ^ 52 - 1 := by decide
  have h3 : e >>> 12 < 2 ^ 52 := by
    rw [Nat.shiftRight_eq_div_pow]
    omega
  rw [h2, Nat.and_pow_two_sub_one_eq_mod, Nat.mod_eq_of_lt h3, Nat.shiftRight_eq_div_pow,
    Nat.shiftRight_eq_div_pow] at h1
  exact h1

theorem mapTable_in (m : Nat → Nat) (dst src : Nat) (f : Nat → Nat) (i k : Nat)
    (hi : i < NPTENTRIES) (hk : k < 8) :
    mapTable m dst src f (dst + 8 * i + k) = (f (rd64 m (src + 8 * i)) / 256 ^ k) % 256 := by
  unfold mapTable byteOf
  have h : dst ≤ dst + 8 * i + k ∧ dst + 8 * i + k < dst + PAGESIZE := by
    unfold NPTENTRIES at hi
    unfold PAGESIZE
    omega
  rw [if_pos h]
  have h1 : (dst + 8 * i + k - dst) / 8 = i := by omega
  have h2 : (dst + 8 * i + k - dst) % 8 = k := by omega
  rw [h1, h2]

theorem mapTable_out (m : Nat → Nat) (dst src : Nat) (f : Nat → Nat) (x : Nat)
    (h : x < dst ∨ dst + PAGESIZE ≤ x) : mapTable m dst src f x = m x := by
  unfold mapTable
  have h1 : ¬ (dst ≤ x ∧ x < dst + PAGESIZE) := by omega
  rw [if_neg h1]

theorem rd64_mapTable_in (m : Nat → Nat) (dst src : Nat) (f : Nat → Nat) (i : Nat)
    (hi : i < NPTENTRIES) (hf : f (rd64 m (src + 8 * i)) < 2 ^ 64) :
    rd64 (mapTable m dst src f) (dst + 8 * i) = f (rd64 m (src + 8 * i)) := by
  have h1 : rd64 (mapTable m dst src f) (dst + 8 * i)
      = rd64 (wr64 m (dst + 8 * i) (f (rd64 m (src + 8 * i)))) (dst + 8 * i) := by
    apply rd64_congr
    intro k hk
    rw [mapTable_in m dst src f i k hi hk, wr64_at _ _ _ _ hk]
  rw [h1, rd64_wr64_same _ _ _ hf]

theorem rd64_mapTable_out (m : Nat → Nat) (dst src : Nat) (f : Nat → Nat) (a : Nat)
    (h : a + 8 ≤ dst ∨ dst + PAGESIZE ≤ a) :
    rd64 (mapTable m dst src f) a = rd64 m a := by
  apply rd64_congr
  intro k hk
  apply mapTable_out
  omega

theorem ByteMem_mapTable (m : Nat → Nat) (hm : ByteMem m) (dst src : Nat) (f : Nat → Nat) :
    ByteMem (mapTable m dst src f) := by
  intro x
  unfold mapTable byteOf
  split
  · exact Nat.mod_lt _ (by omega)
  · exact hm x

theorem interiorBits_eq (a : Nat) : interiorBits a = a ||| 0x27 := by
  unfold interiorBits
  simp only [Nat.lor_assoc]
  rfl

theorem or_27_writable (a : Nat) : (a ||| 0x27) &&& PTE_W ≠ 0 := by
  have h1 : (a ||| 0x27) &&& 2 ^ 1 = ((a ||| 0x27).testBit 1).toNat * 2 ^ 1 :=
    Nat.and_two_pow _ _
  have h2 : (0x27 : Nat).testBit 1 = true := by decide
  rw [Nat.testBit_or, h2, Bool.or_true] at h1
  show (a ||| 0x27) &&& 2 ≠ 0
  have h3 : (a ||| 0x27) &&& 2 = 2 := h1
  rw [h3]
  decide

theorem or_P_and_W (e : Nat) : (e ||| PTE_P) &&& PTE_W = e &&& PTE_W := by
  apply Nat.eq_of_testBit_eq
  intro j
  simp only [Nat.testBit_and, Nat.testBit_or, PTE_P, PTE_W]
  by_cases hj : j = 1
  · subst hj
    have : (1 : Nat).testBit 1 = false := by decide
    rw [this, Bool.or_false]
  · have : (2 : Nat).testBit j = false := by
      have := @Nat.testBit_two_pow_of_ne 1 j (fun e => hj e.symm)
      simpa using this
    rw [this, Bool.and_false, Bool.and_false]

theorem increfLoop_spec (L : Layout) (tab : Nat) :
    ∀ (n i : Nat) (K : KState),
      (∀ j, i ≤ j → j < i + n → PTE_ADDR (rd64 K.mem (tab + 8 * j)) ≠ 0) →
      ∃ K1, increfLoop L tab n i K = some K1 ∧ K1.mem = K.mem ∧ K1.freelist = K.freelist ∧
        ∀ q, K1.refcount q = K.refcount q + refsIn L K.mem tab q n i
  | 0, i, K, _ => ⟨K, rfl, rfl, rfl, fun q => rfl⟩
  | n + 1, i, K, h => by
    have h0 : PTE_ADDR (rd64 K.mem (tab + 8 * i)) ≠ 0 := h i (le_refl _) (by omega)
    unfold increfLoop
    simp only [h0, if_false]
    by_cases hz : PTE_ADDR (rd64 K.mem (tab + 8 * i)) = L.PTE_ZERO
    · simp only [hz, ne_eq, not_true_eq_false, if_false]
      obtain ⟨K1, e1, e2, e3, e4⟩ := increfLoop_spec L tab n (i + 1) K
        (fun j hj1 hj2 => h j (by omega) (by omega))
      refine ⟨K1, e1, e2, e3, ?_⟩
      intro q
      rw [e4 q]
      simp only [refsIn, hz, ne_eq, not_true_eq_false, false_and, if_false, Nat.zero_add]
    · simp only [ne_eq, hz, not_false_eq_true, if_true]
      obtain ⟨K1, e1, e2, e3, e4⟩ := increfLoop_spec L tab n (i + 1)
        (mem_incref K (mem_phys2pi (PTE_ADDR (rd64 K.mem (tab + 8 * i)))))
        (fun j hj1 hj2 => h j (by omega) (by omega))
      refine ⟨K1, e1, e2, e3, ?_⟩
      intro q
      rw [e4 q]
      simp only [refsIn, mem_incref, ne_eq, hz, not_false_eq_true, true_and]
      by_cases hq : q = mem_phys2pi (PTE_ADDR (rd64 K.mem (tab + 8 * i)))
      · subst hq
        simp only [if_true]
        omega
      · have hq2 : ¬ mem_phys2pi (PTE_ADDR (rd64 K.mem (tab + 8 * i))) = q := fun e => hq e.symm
        simp only [hq, hq2, if_false]
        omega

theorem refsIn_congr (L : Layout) (m m1 : Nat → Nat) (tab q : Nat) :
    ∀ (n i : Nat), (∀ j, i ≤ j → j < i + n → rd64 m1 (tab + 8 * j) = rd64 m (tab + 8 * j)) →
      refsIn L m1 tab q n i = refsIn L m tab q n i
  | 0, _, _ => rfl
  | n + 1, i, h => by
    simp only [refsIn, h i (le_refl _) (by omega)]
    rw [refsIn_congr L m m1 tab q n (i + 1) (fun j h1 h2 => h j (by omega) (by omega))]

theorem mem_decref_keep (K : KState) (pi : Nat) (f : KState → Nat → KState)
    (h : K.refcount pi ≠ 1) :
    mem_decref K pi f
      = { K with refcount := fun q => if q = pi then K.refcount pi - 1 else K.refcount q } := by
  unfold mem_decref
  simp only [h, if_false]

theorem walk_entry_found (K : KState) (pmte : Nat) (hb : ByteMem K.mem)
    (hro : rd64 K.mem pmte &&& PTE_W = 0) :
    rd64 (wr64 K.mem pmte (rd64 K.mem pmte ||| PTE_P)) pmte = (rd64 K.mem pmte ||| PTE_P) ∧
    PTE_ADDR (rd64 (wr64 K.mem pmte (rd64 K.mem pmte ||| PTE_P)) pmte)
      = PTE_ADDR (rd64 K.mem pmte) ∧
    rd64 (wr64 K.mem pmte (rd64 K.mem pmte ||| PTE_P)) pmte &&& PTE_W = 0 := by
  have he : rd64 K.mem pmte < 2 ^ 64 := rd64_lt K.mem hb pmte
  have hv : rd64 K.mem pmte ||| PTE_P < 2 ^ 64 := Nat.or_lt_two_pow he (by decide)
  have h1 := rd64_wr64_same K.mem pmte _ hv
  refine ⟨h1, ?_, ?_⟩
  · rw [h1]; exact PTE_ADDR_or_small _ _ (by decide)
  · rw [h1, or_P_and_W]; exact hro

theorem walk_cow_inplace (L : Layout) (K : KState) (pmtab la l : Nat)
    (hb : ByteMem K.mem)
    (hex : PTE_ADDR (rd64 K.mem (pmtab + 8 * PDX (l + 1) la)) ≠ L.PTE_ZERO)
    (hro : rd64 K.mem (pmtab + 8 * PDX (l + 1) la) &&& PTE_W = 0)
    (hrc : K.refcount (mem_phys2pi (PTE_ADDR (rd64 K.mem (pmtab + 8 * PDX (l + 1) la)))) = 1) :
    ∃ K1, K1.mem = wr64 (mapTable (wr64 K.mem (pmtab + 8 * PDX (l + 1) la)
            (rd64 K.mem (pmtab + 8 * PDX (l + 1) la) ||| PTE_P))
          (PTE_ADDR (rd64 K.mem (pmtab + 8 * PDX (l + 1) la)))
          (PTE_ADDR (rd64 K.mem (pmtab + 8 * PDX (l + 1) la))) clrW)
        (pmtab + 8 * PDX (l + 1) la)
        (interiorBits (PTE_ADDR (rd64 K.mem (pmtab + 8 * PDX (l + 1) la)))) ∧
      K1.refcount = K.refcount ∧ K1.freelist = K.freelist ∧
      pmap_walk_level L (l + 1) K pmtab la true =
        if l = 0 then
          some (K1, some (PTE_ADDR (rd64 K.mem (pmtab + 8 * PDX (l + 1) la)) + 8 * PDX 0 la))
        else pmap_walk_level L l K1 (PTE_ADDR (rd64 K.mem (pmtab + 8 * PDX (l + 1) la))) la
          true := by
  obtain ⟨f1, f2, f3⟩ := walk_entry_found K (pmtab + 8 * PDX (l + 1) la) hb hro
  have he : rd64 K.mem (pmtab + 8 * PDX (l + 1) la) < 2 ^ 64 := rd64_lt K.mem hb _
  have hold : PTE_ADDR (rd64 K.mem (pmtab + 8 * PDX (l + 1) la)) < 2 ^ 64 := by
    unfold PTE_ADDR; omega
  have hv : interiorBits (PTE_ADDR (rd64 K.mem (pmtab + 8 * PDX (l + 1) la))) < 2 ^ 64 := by
    rw [interiorBits_eq]
    exact or_flags_lt _ _ (PTE_ADDR_mod _) (by omega) hold
  have hT : PTE_ADDR (rd64 (wr64 (mapTable (wr64 K.mem (pmtab + 8 * PDX (l + 1) la)
            (rd64 K.mem (pmtab + 8 * PDX (l + 1) la) ||| PTE_P))
          (PTE_ADDR (rd64 K.mem (pmtab + 8 * PDX (l + 1) la)))
          (PTE_ADDR (rd64 K.mem (pmtab + 8 * PDX (l + 1) la))) clrW)
        (pmtab + 8 * PDX (l + 1) la)
        (interiorBits (PTE_ADDR (rd64 K.mem (pmtab + 8 * PDX (l + 1) la)))))
        (pmtab + 8 * PDX (l + 1) la))
      = PTE_ADDR (rd64 K.mem (pmtab + 8 * PDX (l + 1) la)) := by
    rw [rd64_wr64_same _ _ _ hv, interiorBits_eq]
    exact PTE_ADDR_or_flags _ _ (PTE_ADDR_mod _) (by omega)
  refine ⟨KState.mk (wr64 (mapTable (wr64 K.mem (pmtab + 8 * PDX (l + 1) la)
            (rd64 K.mem (pmtab + 8 * PDX (l + 1) la) ||| PTE_P))
          (PTE_ADDR (rd64 K.mem (pmtab + 8 * PDX (l + 1) la)))
          (PTE_ADDR (rd64 K.mem (pmtab + 8 * PDX (l + 1) la))) clrW)
        (pmtab + 8 * PDX (l + 1) la)
        (interiorBits (PTE_ADDR (rd64 K.mem (pmtab + 8 * PDX (l + 1) la)))))
      K.refcount K.freelist, rfl, rfl, rfl, ?_⟩
  conv_lhs =>
    unfold pmap_walk_level
    simp only [ne_eq, hex, not_false_eq_true, if_true, f2, f3, and_self, hrc, hT]

theorem walk_cow_copy (L : Layout) (K : KState) (pmtab la l pi : Nat) (fl : List Nat)
    (hb : ByteMem K.mem)
    (hex : PTE_ADDR (rd64 K.mem (pmtab + 8 * PDX (l + 1) la)) ≠ L.PTE_ZERO)
    (hro : rd64 K.mem (pmtab + 8 * PDX (l + 1) la) &&& PTE_W = 0)
    (hout : entryOutside (pmtab + 8 * PDX (l + 1) la)
      (PTE_ADDR (rd64 K.mem (pmtab + 8 * PDX (l + 1) la))))
    (hrc : K.refcount (mem_phys2pi (PTE_ADDR (rd64 K.mem (pmtab + 8 * PDX (l + 1) la)))) > 1)
    (hf : K.freelist = pi :: fl) (hpb : pi < 2 ^ 52) (hpi : K.refcount pi = 0)
    (hnz : ∀ i, i < NPTENTRIES →
      PTE_ADDR (rd64 K.mem (PTE_ADDR (rd64 K.mem (pmtab + 8 * PDX (l + 1) la)) + 8 * i)) ≠ 0) :
    ∃ K1, K1.mem = wr64 (mapTable (wr64 K.mem (pmtab + 8 * PDX (l + 1) la)
            (rd64 K.mem (pmtab + 8 * PDX (l + 1) la) ||| PTE_P))
          (mem_pi2phys pi) (PTE_ADDR (rd64 K.mem (pmtab + 8 * PDX (l + 1) la))) clrW)
        (pmtab + 8 * PDX (l + 1) la) (interiorBits (mem_pi2phys pi)) ∧
      K1.freelist = fl ∧
      (∀ q, K1.refcount q =
        if q = mem_phys2pi (PTE_ADDR (rd64 K.mem (pmtab + 8 * PDX (l + 1) la))) then
          K.refcount q
            + refsIn L K.mem (PTE_ADDR (rd64 K.mem (pmtab + 8 * PDX (l + 1) la))) q NPTENTRIES 0
            - 1
        else (if q = pi then 1 else K.refcount q)
            + refsIn L K.mem (PTE_ADDR (rd64 K.mem (pmtab + 8 * PDX (l + 1) la))) q
                NPTENTRIES 0) ∧
      pmap_walk_level L (l + 1) K pmtab la true =
        if l = 0 then some (K1, some (mem_pi2phys pi + 8 * PDX 0 la))
        else pmap_walk_level L l K1 (mem_pi2phys pi) la true := by
  obtain ⟨f1, f2, f3⟩ := walk_entry_found K (pmtab + 8 * PDX (l + 1) la) hb hro
  have hne1 : ¬ (K.refcount (mem_phys2pi
      (PTE_ADDR (rd64 K.mem (pmtab + 8 * PDX (l + 1) la)))) = 1) := by
    omega
  have hrd : ∀ j, j < NPTENTRIES →
      rd64 (wr64 K.mem (pmtab + 8 * PDX (l + 1) la)
            (rd64 K.mem (pmtab + 8 * PDX (l + 1) la) ||| PTE_P))
          (PTE_ADDR (rd64 K.mem (pmtab + 8 * PDX (l + 1) la)) + 8 * j)
        = rd64 K.mem (PTE_ADDR (rd64 K.mem (pmtab + 8 * PDX (l + 1) la)) + 8 * j) := by
    intro j hj
    apply rd64_wr64_other
    unfold entryOutside PAGESIZE at hout
    unfold NPTENTRIES at hj
    omega
  obtain ⟨K3, e1, e2, e3, e4⟩ := increfLoop_spec L
    (PTE_ADDR (rd64 K.mem (pmtab + 8 * PDX (l + 1) la))) NPTENTRIES 0
    (mem_incref (KState.mk (wr64 K.mem (pmtab + 8 * PDX (l + 1) la)
        (rd64 K.mem (pmtab + 8 * PDX (l + 1) la) ||| PTE_P)) K.refcount fl) pi)
    (by
      intro j _ hj
      show PTE_ADDR (rd64 (wr64 _ _ _) _) ≠ 0
      rw [hrd j (by omega)]
      exact hnz j (by omega))
  have hop : mem_phys2pi (PTE_ADDR (rd64 K.mem (pmtab + 8 * PDX (l + 1) la))) ≠ pi := by
    intro e
    rw [e] at hrc
    omega
  have hk3 : K3.refcount (mem_phys2pi (PTE_ADDR (rd64 K.mem (pmtab + 8 * PDX (l + 1) la))))
      ≠ 1 := by
    rw [e4]
    simp only [mem_incref, hop, if_false]
    omega
  have hk4 := mem_decref_keep (KState.mk (mapTable K3.mem (mem_pi2phys pi)
      (PTE_ADDR (rd64 K.mem (pmtab + 8 * PDX (l + 1) la))) clrW) K3.refcount K3.freelist)
    (mem_phys2pi (PTE_ADDR (rd64 K.mem (pmtab + 8 * PDX (l + 1) la))))
    (pmap_freefun L (l + 1)) hk3
  have hal : mem_pi2phys pi % 4096 = 0 := by unfold mem_pi2phys PAGESIZE; omega
  have hlt : mem_pi2phys pi < 2 ^ 64 := by unfold mem_pi2phys PAGESIZE; omega
  have hv : interiorBits (mem_pi2phys pi) < 2 ^ 64 := by
    rw [interiorBits_eq]
    exact or_flags_lt _ _ hal (by omega) hlt
  have hT : PTE_ADDR (rd64 (wr64 (mapTable K3.mem (mem_pi2phys pi)
        (PTE_ADDR (rd64 K.mem (pmtab + 8 * PDX (l + 1) la))) clrW)
        (pmtab + 8 * PDX (l + 1) la) (interiorBits (mem_pi2phys pi)))
        (pmtab + 8 * PDX (l + 1) la)) = mem_pi2phys pi := by
    rw [rd64_wr64_same _ _ _ hv, interiorBits_eq]
    exact PTE_ADDR_or_flags _ _ hal (by omega)
  refine ⟨KState.mk (wr64 (mapTable K3.mem (mem_pi2phys pi)
        (PTE_ADDR (rd64 K.mem (pmtab + 8 * PDX (l + 1) la))) clrW)
        (pmtab + 8 * PDX (l + 1) la) (interiorBits (mem_pi2phys pi)))
      (fun q => if q = mem_phys2pi (PTE_ADDR (rd64 K.mem (pmtab + 8 * PDX (l + 1) la)))
        then K3.refcount (mem_phys2pi (PTE_ADDR (rd64 K.mem (pmtab + 8 * PDX (l + 1) la)))) - 1
        else K3.refcount q) K3.freelist, ?_, e3, ?_, ?_⟩
  · show wr64 (mapTable K3.mem _ _ clrW) _ _ = _
    rw [e2]
    rfl
  · intro q
    show (if q = _ then K3.refcount _ - 1 else K3.refcount q) = _
    have hrefs : ∀ q, refsIn L (wr64 K.mem (pmtab + 8 * PDX (l + 1) la)
          (rd64 K.mem (pmtab + 8 * PDX (l + 1) la) ||| PTE_P))
        (PTE_ADDR (rd64 K.mem (pmtab + 8 * PDX (l + 1) la))) q NPTENTRIES 0
        = refsIn L K.mem (PTE_ADDR (rd64 K.mem (pmtab + 8 * PDX (l + 1) la))) q NPTENTRIES 0 := by
      intro q
      apply refsIn_congr
      intro j _ hj
      exact hrd j (by omega)
    by_cases hq : q = mem_phys2pi (PTE_ADDR (rd64 K.mem (pmtab + 8 * PDX (l + 1) la)))
    · rw [if_pos hq, if_pos hq, e4]
      simp only [mem_incref, hop, if_false]
      rw [hrefs, ← hq]
    · rw [if_neg hq, if_neg hq, e4]
      simp only [mem_incref]
      rw [hrefs]
      by_cases hqp : q = pi
      · subst hqp
        simp only [if_true, hpi]
      · simp only [hqp, if_false]
  · conv_lhs =>
      unfold pmap_walk_level
      simp only [ne_eq, hex, not_false_eq_true, if_true, f2, f3, and_self,
        hne1, if_false, mem_alloc, hf, e1, hk4, hT]

/-- C26 (amended): copy-on-write in the walker, at every level `pmlevel = l + 1`.
Let `pmap_walk_level` be called with `writing` set through an existing entry
whose writable bit is clear and which does not lie in the table it points to.
The call first makes the lower table private, reaching a state `Kb`, and then
returns the leaf pointer (`pmlevel = 1`) or is the recursive call from `Kb` at
the level below (`pmlevel > 1`); `Kb` differs from the state before the call
only in the entry and in the table the entry points to in `Kb`.
If the table has reference count 1, it is kept: in `Kb` the entry is writable,
no frame is allocated, no count changes, and each of the table's 512 entries is
the old entry with the writable bit cleared.  If the count is greater than 1
and the head `pi` of the free list is an unreferenced frame, then in `Kb` the
entry is writable and points to the frame `pi`, whose 512 entries are the old
table's entries with the writable bit cleared; the old table keeps its
contents; the count of every frame grows by the number of entries of the old
table that map it, the count of `pi` grows by one more and that of the old
table drops by one. -/
theorem pmap_walk_level_cow (L : Layout) (K : KState) (pmtab la l : Nat) (hb : ByteMem K.mem)
    (hex : PTE_ADDR (rd64 K.mem (pmtab + 8 * PDX (l + 1) la)) ≠ L.PTE_ZERO)
    (hro : rd64 K.mem (pmtab + 8 * PDX (l + 1) la) &&& PTE_W = 0)
    (hout : entryOutside (pmtab + 8 * PDX (l + 1) la)
      (PTE_ADDR (rd64 K.mem (pmtab + 8 * PDX (l + 1) la)))) :
    (K.refcount (mem_phys2pi (PTE_ADDR (rd64 K.mem (pmtab + 8 * PDX (l + 1) la)))) = 1 →
      ∃ Kb, pmap_walk_level L (l + 1) K pmtab la true =
          (if l = 0 then
            some (Kb, some (PTE_ADDR (rd64 K.mem (pmtab + 8 * PDX (l + 1) la)) + 8 * PDX 0 la))
          else pmap_walk_level L l Kb (PTE_ADDR (rd64 K.mem (pmtab + 8 * PDX (l + 1) la))) la
            true) ∧
        rd64 Kb.mem (pmtab + 8 * PDX (l + 1) la) &&& PTE_W ≠ 0 ∧
        PTE_ADDR (rd64 Kb.mem (pmtab + 8 * PDX (l + 1) la))
          = PTE_ADDR (rd64 K.mem (pmtab + 8 * PDX (l + 1) la)) ∧
        Kb.refcount = K.refcount ∧ Kb.freelist = K.freelist ∧
        (∀ i, i < NPTENTRIES →
          rd64 Kb.mem (PTE_ADDR (rd64 K.mem (pmtab + 8 * PDX (l + 1) la)) + 8 * i)
            = clrW (rd64 K.mem (PTE_ADDR (rd64 K.mem (pmtab + 8 * PDX (l + 1) la)) + 8 * i))) ∧
        ∀ a, (a < pmtab + 8 * PDX (l + 1) la ∨ pmtab + 8 * PDX (l + 1) la + 8 ≤ a) →
          (a < PTE_ADDR (rd64 K.mem (pmtab + 8 * PDX (l + 1) la)) ∨
            PTE_ADDR (rd64 K.mem (pmtab + 8 * PDX (l + 1) la)) + PAGESIZE ≤ a) →
          Kb.mem a = K.mem a) ∧
    (K.refcount (mem_phys2pi (PTE_ADDR (rd64 K.mem (pmtab + 8 * PDX (l + 1) la)))) > 1 →
      ∀ pi fl, K.freelist = pi :: fl → pi < 2 ^ 52 → K.refcount pi = 0 →
        entryOutside (pmtab + 8 * PDX (l + 1) la) (mem_pi2phys pi) →
        (∀ i, i < NPTENTRIES →
          PTE_ADDR (rd64 K.mem (PTE_ADDR (rd64 K.mem (pmtab + 8 * PDX (l + 1) la)) + 8 * i))
            ≠ 0) →
      ∃ Kb, pmap_walk_level L (l + 1) K pmtab la true =
          (if l = 0 then some (Kb, some (mem_pi2phys pi + 8 * PDX 0 la))
          else pmap_walk_level L l Kb (mem_pi2phys pi) la true) ∧
        rd64 Kb.mem (pmtab + 8 * PDX (l + 1) la) &&& PTE_W ≠ 0 ∧
        PTE_ADDR (rd64 Kb.mem (pmtab + 8 * PDX (l + 1) la)) = mem_pi2phys pi ∧
        Kb.freelist = fl ∧
        (∀ i, i < NPTENTRIES →
          rd64 Kb.mem (mem_pi2phys pi + 8 * i)
            = clrW (rd64 K.mem (PTE_ADDR (rd64 K.mem (pmtab + 8 * PDX (l + 1) la)) + 8 * i))) ∧
        (∀ i, i < NPTENTRIES →
          rd64 Kb.mem (PTE_ADDR (rd64 K.mem (pmtab + 8 * PDX (l + 1) la)) + 8 * i)
            = rd64 K.mem (PTE_ADDR (rd64 K.mem (pmtab + 8 * PDX (l + 1) la)) + 8 * i)) ∧
        (∀ q, Kb.refcount q =
          if q = mem_phys2pi (PTE_ADDR (rd64 K.mem (pmtab + 8 * PDX (l + 1) la))) then
            K.refcount q
              + refsIn L K.mem (PTE_ADDR (rd64 K.mem (pmtab + 8 * PDX (l + 1) la))) q
                  NPTENTRIES 0 - 1
          else (if q = pi then 1 else K.refcount q)
              + refsIn L K.mem (PTE_ADDR (rd64 K.mem (pmtab + 8 * PDX (l + 1) la))) q
                  NPTENTRIES 0) ∧
        ∀ a, (a < pmtab + 8 * PDX (l + 1) la ∨ pmtab + 8 * PDX (l + 1) la + 8 ≤ a) →
          (a < mem_pi2phys pi ∨ mem_pi2phys pi + PAGESIZE ≤ a) →
          Kb.mem a = K.mem a) := by
  have he : rd64 K.mem (pmtab + 8 * PDX (l + 1) la) < 2 ^ 64 := rd64_lt K.mem hb _
  have hold : PTE_ADDR (rd64 K.mem (pmtab + 8 * PDX (l + 1) la)) < 2 ^ 64 := by
    unfold PTE_ADDR; omega
  have hrd : ∀ j, j < NPTENTRIES →
      rd64 (wr64 K.mem (pmtab + 8 * PDX (l + 1) la)
            (rd64 K.mem (pmtab + 8 * PDX (l + 1) la) ||| PTE_P))
          (PTE_ADDR (rd64 K.mem (pmtab + 8 * PDX (l + 1) la)) + 8 * j)
        = rd64 K.mem (PTE_ADDR (rd64 K.mem (pmtab + 8 * PDX (l + 1) la)) + 8 * j) := by
    intro j hj
    apply rd64_wr64_other
    unfold entryOutside PAGESIZE at hout
    unfold NPTENTRIES at hj
    omega
  constructor
  · intro hrc
    obtain ⟨K1, e2, e3, e4, e1⟩ := walk_cow_inplace L K pmtab la l hb hex hro hrc
    have hv : interiorBits (PTE_ADDR (rd64 K.mem (pmtab + 8 * PDX (l + 1) la))) < 2 ^ 64 := by
      rw [interiorBits_eq]
      exact or_flags_lt _ _ (PTE_ADDR_mod _) (by omega) hold
    have hent : rd64 K1.mem (pmtab + 8 * PDX (l + 1) la)
        = interiorBits (PTE_ADDR (rd64 K.mem (pmtab + 8 * PDX (l + 1) la))) := by
      rw [e2]; exact rd64_wr64_same _ _ _ hv
    refine ⟨K1, e1, ?_, ?_, e3, e4, ?_, ?_⟩
    · rw [hent, interiorBits_eq]; exact or_27_writable _
    · rw [hent, interiorBits_eq]; exact PTE_ADDR_or_flags _ _ (PTE_ADDR_mod _) (by omega)
    · intro i hi
      rw [e2, rd64_wr64_other, rd64_mapTable_in _ _ _ _ _ hi (clrW_lt _), hrd i hi]
      unfold entryOutside PAGESIZE at hout
      unfold NPTENTRIES at hi
      omega
    · intro a h1 h2
      rw [e2, wr64_out _ _ _ _ h1, mapTable_out _ _ _ _ _ h2, wr64_out _ _ _ _ h1]
  · intro hrc pi fl hf hpi hp0 hout2 hnz
    obtain ⟨K1, e2, e3, e4, e1⟩ :=
      walk_cow_copy L K pmtab la l pi fl hb hex hro hout hrc hf hpi hp0 hnz
    have hal : mem_pi2phys pi % 4096 = 0 := by unfold mem_pi2phys PAGESIZE; omega
    have hlt : mem_pi2phys pi < 2 ^ 64 := by unfold mem_pi2phys PAGESIZE; omega
    have hv : interiorBits (mem_pi2phys pi) < 2 ^ 64 := by
      rw [interiorBits_eq]
      exact or_flags_lt _ _ hal (by omega) hlt
    have hent : rd64 K1.mem (pmtab + 8 * PDX (l + 1) la) = interiorBits (mem_pi2phys pi) := by
      rw [e2]; exact rd64_wr64_same _ _ _ hv
    have hne : mem_pi2phys pi ≠ PTE_ADDR (rd64 K.mem (pmtab + 8 * PDX (l + 1) la)) := by
      intro e
      have h1 : mem_phys2pi (PTE_ADDR (rd64 K.mem (pmtab + 8 * PDX (l + 1) la))) = pi := by
        rw [← e]; exact mem_phys2pi_pi2phys pi
      rw [h1] at hrc
      omega
    have hmod := PTE_ADDR_mod (rd64 K.mem (pmtab + 8 * PDX (l + 1) la))
    refine ⟨K1, e1, ?_, ?_, e3, ?_, ?_, e4, ?_⟩
    · rw [hent, interiorBits_eq]; exact or_27_writable _
    · rw [hent, interiorBits_eq]; exact PTE_ADDR_or_flags _ _ hal (by omega)
    · intro i hi
      rw [e2, rd64_wr64_other, rd64_mapTable_in _ _ _ _ _ hi (clrW_lt _), hrd i hi]
      unfold entryOutside PAGESIZE at hout2
      unfold NPTENTRIES at hi
      omega
    · intro i hi
      rw [e2, rd64_wr64_other, rd64_mapTable_out, hrd i hi]
      · unfold PAGESIZE
        unfold NPTENTRIES at hi
        omega
      · unfold entryOutside PAGESIZE at hout
        unfold NPTENTRIES at hi
        omega
    · intro a h1 h2
      rw [e2, wr64_out _ _ _ _ h1, mapTable_out _ _ _ _ _ h2, wr64_out _ _ _ _ h1]

theorem AddrPres_refl (m : Nat → Nat) : AddrPres m m := fun _ _ => rfl

theorem AddrPres_trans (m m1 m2 : Nat → Nat) (h1 : AddrPres m m1) (h2 : AddrPres m1 m2) :
    AddrPres m m2 := fun a ha => (h2 a ha).trans (h1 a ha)

theorem AddrPres_wr64 (m : Nat → Nat) (a v : Nat) (ha : a % 8 = 0) (hv : v < 2 ^ 64)
    (h : PTE_ADDR v = PTE_ADDR (rd64 m a)) : AddrPres m (wr64 m a v) := by
  intro b hb
  by_cases e : b = a
  · subst e
    rw [rd64_wr64_same _ _ _ hv, h]
  · rw [rd64_wr64_other]
    omega

theorem AddrPres_mapTable_clrW (m : Nat → Nat) (hm : ByteMem m) (t : Nat) (ht : t % 4096 = 0) :
    AddrPres m (mapTable m t t clrW) := by
  intro a ha
  by_cases hin : t ≤ a ∧ a < t + 4096
  · have e : a = t + 8 * ((a - t) / 8) := by omega
    have hi : (a - t) / 8 < NPTENTRIES := by unfold NPTENTRIES; omega
    rw [e, rd64_mapTable_in _ _ _ _ _ hi (clrW_lt _), PTE_ADDR_clrW _ (rd64_lt m hm _)]
  · rw [rd64_mapTable_out]
    unfold PAGESIZE
    omega

theorem pathMissing_AddrPres (L : Layout) (m m1 : Nat → Nat) (h : AddrPres m m1) (la : Nat) :
    ∀ (l pmtab : Nat), pmtab % 8 = 0 →
      (pathMissing L m1 l pmtab la ↔ pathMissing L m l pmtab la)
  | 0, _, _ => Iff.rfl
  | l + 1, pmtab, hp => by
    have ha : (pmtab + 8 * PDX (l + 1) la) % 8 = 0 := by omega
    have he := h _ ha
    unfold pathMissing
    rw [he]
    have ht : PTE_ADDR (rd64 m (pmtab + 8 * PDX (l + 1) la)) % 8 = 0 := by
      have := PTE_ADDR_mod (rd64 m (pmtab + 8 * PDX (l + 1) la))
      omega
    rw [pathMissing_AddrPres L m m1 h la l _ ht]

theorem or_and_or (a b c : Nat) : (a &&& b) ||| c = (a ||| c) &&& (b ||| c) := by
  apply Nat.eq_of_testBit_eq
  intro j
  simp only [Nat.testBit_or, Nat.testBit_and]
  cases a.testBit j <;> cases b.testBit j <;> cases c.testBit j <;> rfl

theorem clrW_or_27 (e : Nat) (he : e < 2 ^ 64) : clrW e ||| 0x27 = e ||| 0x27 := by
  unfold clrW
  rw [or_and_or]
  have h1 : (0xFFFFFFFFFFFFFFFD ||| 0x27 : Nat) = 2 ^ 64 - 1 := by decide
  have h2 : e ||| 0x27 < 2 ^ 64 := Nat.or_lt_two_pow he (by decide)
  rw [h1, Nat.and_pow_two_sub_one_eq_mod, Nat.mod_eq_of_lt h2]

theorem or_P_or_27 (e : Nat) : (e ||| PTE_P) ||| 0x27 = e ||| 0x27 := by
  rw [Nat.lor_assoc]
  rfl

theorem or_27_or_27 (e : Nat) : (e ||| 0x27) ||| 0x27 = e ||| 0x27 := by
  rw [Nat.lor_assoc]
  rfl

theorem PTE_ADDR_idem (e : Nat) : PTE_ADDR (PTE_ADDR e) = PTE_ADDR e := by
  unfold PTE_ADDR
  omega

theorem EntryKept_addr (e e1 : Nat) (h : EntryKept e e1) : PTE_ADDR e1 = PTE_ADDR e := by
  have h1 : PTE_ADDR (e1 ||| 0x27) = PTE_ADDR e1 := PTE_ADDR_or_small _ _ (by decide)
  rcases h with h | h
  · rw [← h1, h]; exact PTE_ADDR_or_small _ _ (by decide)
  · rw [← h1, h, PTE_ADDR_or_small _ _ (by decide), PTE_ADDR_idem]

theorem EntryKept_trans (e e1 e2 : Nat) (h1 : EntryKept e e1) (h2 : EntryKept e1 e2) :
    EntryKept e e2 := by
  have ha := EntryKept_addr e e1 h1
  rcases h2 with h2 | h2
  · rcases h1 with h1 | h1
    · exact Or.inl (h2.trans h1)
    · exact Or.inr (h2.trans h1)
  · exact Or.inr (by rw [h2, ha])

theorem EntriesKept_refl (m : Nat → Nat) : EntriesKept m m := fun _ _ => Or.inl rfl

theorem EntriesKept_trans (m m1 m2 : Nat → Nat) (h1 : EntriesKept m m1)
    (h2 : EntriesKept m1 m2) : EntriesKept m m2 :=
  fun a ha => EntryKept_trans _ _ _ (h1 a ha) (h2 a ha)

theorem EntriesKept_addr (m m1 : Nat → Nat) (h : EntriesKept m m1) : AddrPres m m1 :=
  fun a ha => EntryKept_addr _ _ (h a ha)

theorem EntriesKept_wr64 (m : Nat → Nat) (a v : Nat) (ha : a % 8 = 0) (hv : v < 2 ^ 64)
    (h : EntryKept (rd64 m a) v) : EntriesKept m (wr64 m a v) := by
  intro b hb
  by_cases e : b = a
  · subst e
    rw [rd64_wr64_same _ _ _ hv]
    exact h
  · rw [rd64_wr64_other]
    · exact Or.inl rfl
    · omega

theorem EntriesKept_mapTable_clrW (m : Nat → Nat) (hm : ByteMem m) (t : Nat)
    (ht : t % 4096 = 0) : EntriesKept m (mapTable m t t clrW) := by
  intro a ha
  by_cases hin : t ≤ a ∧ a < t + 4096
  · have e : a = t + 8 * ((a - t) / 8) := by omega
    have hi : (a - t) / 8 < NPTENTRIES := by unfold NPTENTRIES; omega
    rw [e, rd64_mapTable_in _ _ _ _ _ hi (clrW_lt _)]
    exact Or.inl (clrW_or_27 _ (rd64_lt m hm _))
  · rw [rd64_mapTable_out]
    · exact Or.inl rfl
    · unfold PAGESIZE
      omega

theorem walk_stage_no_memory (L : Layout) (K : KState) (pmtab la l : Nat)
    (hf : K.freelist = []) (hb : ByteMem K.mem) (hp : pmtab % 8 = 0) :
    (PTE_ADDR (rd64 K.mem (pmtab + 8 * PDX (l + 1) la)) = L.PTE_ZERO →
      pmap_walk_level L (l + 1) K pmtab la true = some (K, none)) ∧
    (PTE_ADDR (rd64 K.mem (pmtab + 8 * PDX (l + 1) la)) ≠ L.PTE_ZERO →
      (∃ Ka, pmap_walk_level L (l + 1) K pmtab la true = some (Ka, none) ∧
        Ka.refcount = K.refcount ∧ Ka.freelist = [] ∧ ByteMem Ka.mem ∧ EntriesKept K.mem Ka.mem) ∨
      (∃ Kb, Kb.refcount = K.refcount ∧ Kb.freelist = [] ∧ ByteMem Kb.mem ∧
        EntriesKept K.mem Kb.mem ∧
        pmap_walk_level L (l + 1) K pmtab la true =
          (if l = 0 then
            some (Kb, some (PTE_ADDR (rd64 K.mem (pmtab + 8 * PDX (l + 1) la)) + 8 * PDX 0 la))
          else pmap_walk_level L l Kb (PTE_ADDR (rd64 Kb.mem (pmtab + 8 * PDX (l + 1) la))) la
            true))) := by
  have ha : (pmtab + 8 * PDX (l + 1) la) % 8 = 0 := by omega
  have he : rd64 K.mem (pmtab + 8 * PDX (l + 1) la) < 2 ^ 64 := rd64_lt K.mem hb _
  have hv : rd64 K.mem (pmtab + 8 * PDX (l + 1) la) ||| PTE_P < 2 ^ 64 :=
    Nat.or_lt_two_pow he (by decide)
  have h1 := rd64_wr64_same K.mem (pmtab + 8 * PDX (l + 1) la) _ hv
  have h2 : PTE_ADDR (rd64 K.mem (pmtab + 8 * PDX (l + 1) la) ||| PTE_P)
      = PTE_ADDR (rd64 K.mem (pmtab + 8 * PDX (l + 1) la)) := PTE_ADDR_or_small _ _ (by decide)
  have hold : PTE_ADDR (rd64 K.mem (pmtab + 8 * PDX (l + 1) la)) < 2 ^ 64 := by
    unfold PTE_ADDR; omega
  have hmod := PTE_ADDR_mod (rd64 K.mem (pmtab + 8 * PDX (l + 1) la))
  have hbA : ByteMem (wr64 K.mem (pmtab + 8 * PDX (l + 1) la)
      (rd64 K.mem (pmtab + 8 * PDX (l + 1) la) ||| PTE_P)) := ByteMem_wr64 _ hb _ _
  have hpA : EntriesKept K.mem (wr64 K.mem (pmtab + 8 * PDX (l + 1) la)
      (rd64 K.mem (pmtab + 8 * PDX (l + 1) la) ||| PTE_P)) :=
    EntriesKept_wr64 _ _ _ ha hv (Or.inl (or_P_or_27 _))
  constructor
  · intro hz
    unfold pmap_walk_level
    simp only [hz, ne_eq, not_true_eq_false, if_false, Bool.not_eq_true, mem_alloc, hf]
  · intro hnz
    by_cases hw : (rd64 K.mem (pmtab + 8 * PDX (l + 1) la) ||| PTE_P) &&& PTE_W = 0
    · by_cases hrc : K.refcount (mem_phys2pi
          (PTE_ADDR (rd64 K.mem (pmtab + 8 * PDX (l + 1) la)))) = 1
      · right
        have hvi : interiorBits (PTE_ADDR (rd64 K.mem (pmtab + 8 * PDX (l + 1) la))) < 2 ^ 64 := by
          rw [interiorBits_eq]
          exact or_flags_lt _ _ hmod (by omega) hold
        have hpB : EntriesKept (wr64 K.mem (pmtab + 8 * PDX (l + 1) la)
              (rd64 K.mem (pmtab + 8 * PDX (l + 1) la) ||| PTE_P))
            (mapTable (wr64 K.mem (pmtab + 8 * PDX (l + 1) la)
              (rd64 K.mem (pmtab + 8 * PDX (l + 1) la) ||| PTE_P))
              (PTE_ADDR (rd64 K.mem (pmtab + 8 * PDX (l + 1) la)))
              (PTE_ADDR (rd64 K.mem (pmtab + 8 * PDX (l + 1) la))) clrW) :=
          EntriesKept_mapTable_clrW _ hbA _ hmod
        have hpC := EntriesKept_wr64
          (mapTable (wr64 K.mem (pmtab + 8 * PDX (l + 1) la)
              (rd64 K.mem (pmtab + 8 * PDX (l + 1) la) ||| PTE_P))
              (PTE_ADDR (rd64 K.mem (pmtab + 8 * PDX (l + 1) la)))
              (PTE_ADDR (rd64 K.mem (pmtab + 8 * PDX (l + 1) la))) clrW)
          (pmtab + 8 * PDX (l + 1) la)
          (interiorBits (PTE_ADDR (rd64 K.mem (pmtab + 8 * PDX (l + 1) la)))) ha hvi
          (Or.inr (by
            rw [EntriesKept_addr _ _ hpB _ ha, h1, h2, interiorBits_eq]
            exact or_27_or_27 _))
        refine ⟨KState.mk (wr64 (mapTable (wr64 K.mem (pmtab + 8 * PDX (l + 1) la)
              (rd64 K.mem (pmtab + 8 * PDX (l + 1) la) ||| PTE_P))
              (PTE_ADDR (rd64 K.mem (pmtab + 8 * PDX (l + 1) la)))
              (PTE_ADDR (rd64 K.mem (pmtab + 8 * PDX (l + 1) la))) clrW)
            (pmtab + 8 * PDX (l + 1) la)
            (interiorBits (PTE_ADDR (rd64 K.mem (pmtab + 8 * PDX (l + 1) la)))))
            K.refcount K.freelist, ?_, ?_, ?_,
          EntriesKept_trans _ _ _ hpA (EntriesKept_trans _ _ _ hpB hpC), ?_⟩
        pick_goal 4
        · conv_lhs =>
            unfold pmap_walk_level
            simp only [ne_eq, hnz, not_false_eq_true, if_true, h1, h2, hw, and_self, hrc]
        · rfl
        · exact hf
        · exact ByteMem_wr64 _ (ByteMem_mapTable _ hbA _ _ _) _ _
      · left
        refine ⟨KState.mk (wr64 K.mem (pmtab + 8 * PDX (l + 1) la)
            (rd64 K.mem (pmtab + 8 * PDX (l + 1) la) ||| PTE_P)) K.refcount K.freelist,
          ?_, rfl, hf, hbA, hpA⟩
        unfold pmap_walk_level
        simp only [ne_eq, hnz, not_false_eq_true, if_true, h1, h2, hw, and_self, hrc, if_false,
          mem_alloc, hf]
    · right
      refine ⟨KState.mk (wr64 K.mem (pmtab + 8 * PDX (l + 1) la)
          (rd64 K.mem (pmtab + 8 * PDX (l + 1) la) ||| PTE_P)) K.refcount K.freelist,
        rfl, hf, hbA, hpA, ?_⟩
      conv_lhs =>
        unfold pmap_walk_level
        simp only [ne_eq, hnz, not_false_eq_true, if_true, h1, h2, hw, and_false, if_false]
      simp only [h1, h2]

theorem pmap_walk_level_no_memory (L : Layout) (la : Nat) :
    ∀ (l : Nat) (K : KState) (pmtab : Nat), K.freelist = [] → ByteMem K.mem → pmtab % 8 = 0 →
      ∃ K1 r, pmap_walk_level L (l + 1) K pmtab la true = some (K1, r) ∧
        K1.refcount = K.refcount ∧ K1.freelist = [] ∧ ByteMem K1.mem ∧
        EntriesKept K.mem K1.mem ∧ (pathMissing L K.mem (l + 1) pmtab la → r = none) := by
  intro l
  induction l with
  | zero =>
    intro K pmtab hf hb hp
    obtain ⟨s1, s2⟩ := walk_stage_no_memory L K pmtab la 0 hf hb hp
    by_cases hz : PTE_ADDR (rd64 K.mem (pmtab + 8 * PDX (0 + 1) la)) = L.PTE_ZERO
    · exact ⟨K, none, s1 hz, rfl, hf, hb, EntriesKept_refl _, fun _ => rfl⟩
    · rcases s2 hz with ⟨Ka, e1, e2, e3, e4, e5⟩ | ⟨Kb, e1, e2, e3, e4, e5⟩
      · exact ⟨Ka, none, e1, e2, e3, e4, e5, fun _ => rfl⟩
      · rw [if_pos rfl] at e5
        refine ⟨Kb, _, e5, e1, e2, e3, e4, ?_⟩
        intro hm
        unfold pathMissing at hm
        rcases hm with hm | hm
        · exact absurd hm hz
        · unfold pathMissing at hm
          exact absurd hm id
  | succ l ih =>
    intro K pmtab hf hb hp
    obtain ⟨s1, s2⟩ := walk_stage_no_memory L K pmtab la (l + 1) hf hb hp
    by_cases hz : PTE_ADDR (rd64 K.mem (pmtab + 8 * PDX (l + 1 + 1) la)) = L.PTE_ZERO
    · exact ⟨K, none, s1 hz, rfl, hf, hb, EntriesKept_refl _, fun _ => rfl⟩
    · rcases s2 hz with ⟨Ka, e1, e2, e3, e4, e5⟩ | ⟨Kb, e1, e2, e3, e4, e5⟩
      · exact ⟨Ka, none, e1, e2, e3, e4, e5, fun _ => rfl⟩
      · rw [if_neg (Nat.succ_ne_zero l)] at e5
        have ha : (pmtab + 8 * PDX (l + 1 + 1) la) % 8 = 0 := by omega
        have ht := EntriesKept_addr _ _ e4 _ ha
        have hmod := PTE_ADDR_mod (rd64 K.mem (pmtab + 8 * PDX (l + 1 + 1) la))
        have ht8 : PTE_ADDR (rd64 Kb.mem (pmtab + 8 * PDX (l + 1 + 1) la)) % 8 = 0 := by
          rw [ht]; omega
        obtain ⟨K1, r, g1, g2, g3, g4, g5, g6⟩ :=
          ih Kb (PTE_ADDR (rd64 Kb.mem (pmtab + 8 * PDX (l + 1 + 1) la))) e2 e3 ht8
        refine ⟨K1, r, e5.trans g1, g2.trans e1, g3, g4, EntriesKept_trans _ _ _ e4 g5, ?_⟩
        intro hm
        unfold pathMissing at hm
        rcases hm with hm | hm
        · exact absurd hm hz
        · apply g6
          rw [ht]
          have h8 : PTE_ADDR (rd64 K.mem (pmtab + 8 * PDX (l + 1 + 1) la)) % 8 = 0 := by omega
          exact (pathMissing_AddrPres L K.mem Kb.mem (EntriesKept_addr _ _ e4) la (l + 1) _ h8).mpr hm

theorem exCowK_bytes (pde : Nat) : ByteMem (exCowK pde).mem := by
  show ByteMem (wr64 (wr64 (wr64 (exRoot (exRoot (exRoot (exRoot (fun _ => 0) 0x10000) 0x13000)
      0x16000) 0x17000) 0x10000 0x13027) 0x13008 0x16025) 0x16000 pde)
  apply ByteMem_wr64
  apply ByteMem_wr64
  apply ByteMem_wr64
  unfold exRoot
  apply ByteMem_mapTable
  apply ByteMem_mapTable
  apply ByteMem_mapTable
  apply ByteMem_mapTable
  intro a
  show 0 < 256
  omega

theorem rd64_byte (m : Nat → Nat) (a : Nat) (hm : ∀ k, k < 8 → m (a + k) < 256) (k : Nat)
    (hk : k < 8) : (rd64 m a / 256 ^ k) % 256 = m (a + k) := by
  unfold rd64
  have h0 := hm 0 (by omega)
  have h1 := hm 1 (by omega)
  have h2 := hm 2 (by omega)
  have h3 := hm 3 (by omega)
  have h4 := hm 4 (by omega)
  have h5 := hm 5 (by omega)
  have h6 := hm 6 (by omega)
  have h7 := hm 7 (by omega)
  rw [Nat.add_zero] at h0
  interval_cases k
  · simp only [pow_zero, Nat.div_one, Nat.add_zero]; omega
  · norm_num; omega
  · norm_num; omega
  · norm_num; omega
  · norm_num; omega
  · norm_num; omega
  · norm_num; omega
  · norm_num; omega

theorem wr64_rd64_id (m : Nat → Nat) (a : Nat) (hm : ∀ k, k < 8 → m (a + k) < 256) :
    wr64 m a (rd64 m a) = m := by
  funext x
  unfold wr64
  split
  · rename_i h
    have := rd64_byte m a hm (x - a) (by omega)
    rw [this]
    congr 1
    omega
  · rfl

theorem or_P_of_present (e : Nat) (h : e &&& PTE_P ≠ 0) : e ||| PTE_P = e := by
  apply Nat.eq_of_testBit_eq
  intro j
  rw [Nat.testBit_or]
  by_cases hj : j = 0
  · subst hj
    have h1 : e &&& 2 ^ 0 = (e.testBit 0).toNat * 2 ^ 0 := Nat.and_two_pow _ _
    have h2 : e.testBit 0 = true := by
      cases hb : e.testBit 0
      · rw [hb] at h1
        exact absurd h1 h
      · rfl
    rw [h2]; rfl
  · have : PTE_P.testBit j = false := by
      have := @Nat.testBit_two_pow_of_ne 0 j (fun e => hj e.symm)
      simpa [PTE_P] using this
    rw [this, Bool.or_false]

theorem walk_private (L : Layout) (la : Nat) :
    ∀ (l : Nat) (K : KState) (pmtab : Nat), pathPrivate L K.mem (l + 1) pmtab la →
      pmap_walk_level L (l + 1) K pmtab la true
        = some (K, some (leafAddr K.mem (l + 1) pmtab la)) := by
  intro l
  induction l with
  | zero =>
    intro K pmtab h
    unfold pathPrivate at h
    obtain ⟨hby, hnz, hP, hW, _⟩ := h
    have hid : wr64 K.mem (pmtab + 8 * PDX (0 + 1) la)
        (rd64 K.mem (pmtab + 8 * PDX (0 + 1) la) ||| PTE_P) = K.mem := by
      rw [or_P_of_present _ hP]; exact wr64_rd64_id _ _ hby
    unfold pmap_walk_level
    simp only [ne_eq, hnz, not_false_eq_true, if_true, hid, hW, and_false, if_false]
    rfl
  | succ l ih =>
    intro K pmtab h
    unfold pathPrivate at h
    obtain ⟨hby, hnz, hP, hW, hrest⟩ := h
    have hid : wr64 K.mem (pmtab + 8 * PDX (l + 1 + 1) la)
        (rd64 K.mem (pmtab + 8 * PDX (l + 1 + 1) la) ||| PTE_P) = K.mem := by
      rw [or_P_of_present _ hP]; exact wr64_rd64_id _ _ hby
    have hstep : pmap_walk_level L (l + 1 + 1) K pmtab la true
        = pmap_walk_level L (l + 1) K
            (PTE_ADDR (rd64 K.mem (pmtab + 8 * PDX (l + 1 + 1) la))) la true := by
      conv_lhs =>
        unfold pmap_walk_level
        simp only [ne_eq, hnz, not_false_eq_true, if_true, hid, hW, and_false, if_false,
          Nat.succ_ne_zero]
    rw [hstep, ih K _ hrest]
    rfl
theorem path_stable (L : Layout) (m m1 : Nat → Nat) (P : Nat → Prop) (leaf : Nat → Nat)
    (w : Nat)
    (hag : ∀ a, (∀ v, P v → a < leaf v ∨ leaf v + 8 ≤ a) → m1 a = m a) :
    ∀ (l pmtab : Nat), (∀ v, P v → pathApart m (leaf v) l pmtab w) →
      (pathPrivate L m l pmtab w → pathPrivate L m1 l pmtab w) ∧
      leafAddr m1 l pmtab w = leafAddr m l pmtab w ∧
      ∀ x, pathApart m x l pmtab w → pathApart m1 x l pmtab w := by
  intro l
  induction l with
  | zero =>
    intro pmtab _
    exact ⟨fun _ => trivial, rfl, fun _ _ => trivial⟩
  | succ l ih =>
    intro pmtab hsep
    have hby : ∀ k, k < 8 → m1 (pmtab + 8 * PDX (l + 1) w + k)
        = m (pmtab + 8 * PDX (l + 1) w + k) := by
      intro k hk
      apply hag
      intro v hv
      have h := hsep v hv
      unfold pathApart at h
      omega
    have hrd : rd64 m1 (pmtab + 8 * PDX (l + 1) w) = rd64 m (pmtab + 8 * PDX (l + 1) w) :=
      rd64_congr _ _ _ hby
    have hrest : ∀ v, P v → pathApart m (leaf v) l
        (PTE_ADDR (rd64 m (pmtab + 8 * PDX (l + 1) w))) w := by
      intro v hv
      have h := hsep v hv
      unfold pathApart at h
      exact h.2
    obtain ⟨i1, i2, i3⟩ := ih _ hrest
    refine ⟨?_, ?_, ?_⟩
    · intro hp
      unfold pathPrivate at hp ⊢
      rw [hrd]
      refine ⟨?_, hp.2.1, hp.2.2.1, hp.2.2.2.1, i1 hp.2.2.2.2⟩
      intro k hk
      rw [hby k hk]
      exact hp.1 k hk
    · unfold leafAddr
      rw [hrd]
      exact i2
    · intro x hx
      unfold pathApart at hx ⊢
      rw [hrd]
      exact ⟨hx.1, i3 x hx.2⟩

theorem leafAddr_aligned (m : Nat → Nat) (v : Nat) :
    ∀ (l pmtab : Nat), pmtab % 8 = 0 → leafAddr m l pmtab v % 8 = 0 := by
  intro l
  induction l with
  | zero =>
    intro pmtab h
    unfold leafAddr
    omega
  | succ l ih =>
    intro pmtab _
    unfold leafAddr
    apply ih
    have := PTE_ADDR_mod (rd64 m (pmtab + 8 * PDX (l + 1) v))
    omega

theorem LeavesSet_congr (f : Nat → Nat) (m m1 : Nat → Nat) (leaf leaf1 : Nat → Nat)
    (va vahi : Nat)
    (he : ∀ v, va ≤ v → v < vahi → v % PAGESIZE = 0 → leaf1 v = leaf v)
    (h : LeavesSet f m m1 leaf va vahi) : LeavesSet f m m1 leaf1 va vahi := by
  refine ⟨?_, ?_⟩
  · intro a ha
    apply h.1
    intro v h1 h2 h3
    rw [← he v h1 h2 h3]
    exact ha v h1 h2 h3
  · intro v h1 h2 h3
    rw [he v h1 h2 h3]
    exact h.2 v h1 h2 h3

theorem LeavesSet_empty (f : Nat → Nat) (m : Nat → Nat) (leaf : Nat → Nat) (va vahi : Nat)
    (h : vahi ≤ va) : LeavesSet f m m leaf va vahi :=
  ⟨fun _ _ => rfl, fun v h1 h2 _ => absurd h2 (by omega)⟩

theorem LeavesSet_append (f : Nat → Nat) (m m2 m1 : Nat → Nat) (leaf : Nat → Nat)
    (va mid vahi : Nat) (h1 : LeavesSet f m m2 leaf va mid)
    (h2 : LeavesSet f m2 m1 leaf mid vahi) (hlo : va ≤ mid) (hhi : mid ≤ vahi)
    (hal : ∀ v, leaf v % 8 = 0)
    (hinj : ∀ v w, va ≤ v → v < vahi → v % PAGESIZE = 0 → va ≤ w → w < vahi →
      w % PAGESIZE = 0 → leaf v = leaf w → v = w) :
    LeavesSet f m m1 leaf va vahi := by
  refine ⟨?_, ?_⟩
  · intro a ha
    rw [h2.1 a (fun v g1 g2 g3 => ha v (by omega) g2 g3),
      h1.1 a (fun v g1 g2 g3 => ha v g1 (by omega) g3)]
  · intro v g1 g2 g3
    by_cases hv : v < mid
    · have e : rd64 m1 (leaf v) = rd64 m2 (leaf v) := by
        apply rd64_congr
        intro k hk
        apply h2.1
        intro w w1 w2 w3
        have hne : leaf v ≠ leaf w := by
          intro e
          have := hinj v w g1 g2 g3 (by omega) w2 w3 e
          omega
        have a1 := hal v
        have a2 := hal w
        omega
      rw [e]
      exact h1.2 v g1 hv g3
    · have e : rd64 m2 (leaf v) = rd64 m (leaf v) := by
        apply rd64_congr
        intro k hk
        apply h1.1
        intro w w1 w2 w3
        have hne : leaf v ≠ leaf w := by
          intro e
          have := hinj v w g1 g2 g3 w1 (by omega) w3 e
          omega
        have a1 := hal v
        have a2 := hal w
        omega
      rw [← e]
      exact h2.2 v (by omega) g2 g3

theorem permLeaf_lt (pteand pteor e : Nat) (hand : pteand < 2 ^ 64)
    (hor : pteor < 2 ^ 64) : (e &&& pteand) ||| pteor < 2 ^ 64 := by
  have h1 : e &&& pteand ≤ pteand := Nat.and_le_right
  exact Nat.or_lt_two_pow (by omega) hor

theorem LeavesSet_one (f : Nat → Nat) (m m1 : Nat → Nat) (leaf : Nat → Nat) (va : Nat)
    (hva : va % PAGESIZE = 0)
    (h1 : ∀ a, (a < leaf va ∨ leaf va + 8 ≤ a) → m1 a = m a)
    (h2 : rd64 m1 (leaf va) = f (rd64 m (leaf va))) :
    LeavesSet f m m1 leaf va (va + PAGESIZE) := by
  refine ⟨?_, ?_⟩
  · intro a ha
    exact h1 a (ha va (by omega) (by unfold PAGESIZE; omega) hva)
  · intro v g1 g2 g3
    have : v = va := by
      unfold PAGESIZE at g2 g3 hva
      omega
    rw [this]
    exact h2

theorem setpermLoop_leaf (L : Layout) (pteand pteor : Nat) (hand : pteand < 2 ^ 64)
    (hor : pteor < 2 ^ 64) (lower : KState → Nat → Nat → Nat → Option KState) (T vahi : Nat)
    (hT : T % 8 = 0) (hvahi : vahi % PAGESIZE = 0) :
    ∀ (fuel : Nat) (K : KState) (va : Nat), va % PAGESIZE = 0 → vahi - va ≤ fuel →
      (∀ v w, va ≤ v → v < vahi → v % PAGESIZE = 0 → va ≤ w → w < vahi →
        w % PAGESIZE = 0 → T + 8 * PDX 0 v = T + 8 * PDX 0 w → v = w) →
      ∃ K', setpermLoop L 0 lower T vahi pteand pteor fuel K va = some K' ∧
        K'.refcount = K.refcount ∧ K'.freelist = K.freelist ∧
        LeavesSet (permLeaf L pteand pteor) K.mem K'.mem (fun v => T + 8 * PDX 0 v)
          va vahi := by
  intro fuel
  induction fuel with
  | zero =>
    intro K va _ hf _
    refine ⟨K, ?_, rfl, rfl, LeavesSet_empty _ _ _ _ _ (by omega)⟩
    unfold setpermLoop
    rw [if_neg (by omega)]
  | succ fuel ih =>
    intro K va hva hf hinj
    by_cases hlt : va < vahi
    · have hsz : PDSIZE 0 = 4096 := by decide
      have hpd : PDADDR 0 va + PDSIZE 0 = va + PAGESIZE := by
        unfold PDADDR
        rw [hsz]
        unfold PAGESIZE at *
        omega
      have hstep : va + PDSIZE 0 = va + PAGESIZE := by rw [hsz]; rfl
      have hnext : (va + PAGESIZE) % PAGESIZE = 0 := by
        unfold PAGESIZE at *
        omega
      have hle : va + PAGESIZE ≤ vahi := by
        unfold PAGESIZE at *
        omega
      have hal : ∀ v, (fun v => T + 8 * PDX 0 v) v % 8 = 0 := by
        intro v
        show (T + 8 * PDX 0 v) % 8 = 0
        omega
      by_cases hskip : PTE_ADDR (rd64 K.mem (T + 8 * PDX 0 va)) = L.PTE_ZERO ∧ pteor = 0
      · obtain ⟨K', e1, e2, e3, e4⟩ := ih K (va + PAGESIZE) hnext (by omega)
          (fun v w a1 a2 a3 b1 b2 b3 => hinj v w (by omega) a2 a3 (by omega) b2 b3)
        refine ⟨K', ?_, e2, e3, ?_⟩
        · conv_lhs =>
            unfold setpermLoop
            simp only [hlt, not_true_eq_false, if_false]
          rw [if_pos hskip, hpd]
          exact e1
        · refine LeavesSet_append _ K.mem K.mem K'.mem _ va (va + PAGESIZE) vahi
            (LeavesSet_one _ _ _ _ va hva (fun _ _ => rfl) ?_) e4 (by omega) hle hal hinj
          show rd64 K.mem (T + 8 * PDX 0 va) = permLeaf L pteand pteor _
          unfold permLeaf
          rw [if_pos hskip]
      · have hv := permLeaf_lt pteand pteor (rd64 K.mem (T + 8 * PDX 0 va)) hand hor
        obtain ⟨K', e1, e2, e3, e4⟩ := ih
          (KState.mk (wr64 K.mem (T + 8 * PDX 0 va)
            ((rd64 K.mem (T + 8 * PDX 0 va) &&& pteand) ||| pteor)) K.refcount K.freelist)
          (va + PAGESIZE) hnext (by omega)
          (fun v w a1 a2 a3 b1 b2 b3 => hinj v w (by omega) a2 a3 (by omega) b2 b3)
        refine ⟨K', ?_, e2, e3, ?_⟩
        · have hcov : PDOFF 0 va = 0 ∧ vahi - va ≥ PDSIZE 0 := by
            unfold PDOFF
            rw [hsz]
            unfold PAGESIZE at *
            omega
          conv_lhs =>
            unfold setpermLoop
            simp only [hlt, not_true_eq_false, if_false, hskip, gt_iff_lt, Nat.lt_irrefl,
              hcov, and_self, if_true, hstep]
          exact e1
        · refine LeavesSet_append _ K.mem _ K'.mem _ va (va + PAGESIZE) vahi
            (LeavesSet_one _ _ _ _ va hva ?_ ?_) e4 (by omega) hle hal hinj
          · intro a ha
            exact wr64_out _ _ _ _ ha
          · show rd64 (wr64 K.mem _ _) (T + 8 * PDX 0 va) = permLeaf L pteand pteor _
            unfold permLeaf
            rw [if_neg hskip]
            exact rd64_wr64_same _ _ _ hv
    · refine ⟨K, ?_, rfl, rfl, LeavesSet_empty _ _ _ _ _ (by omega)⟩
      unfold setpermLoop
      rw [if_pos hlt]

theorem PDSIZE_eq (l : Nat) : PDSIZE l = 4096 * 2 ^ (9 * l) := by
  unfold PDSIZE PDSHIFT
  rw [Nat.pow_add]

theorem span_facts (l va vahi hi : Nat) (hva : va % PAGESIZE = 0)
    (hvahi : vahi % PAGESIZE = 0) (hlt : va < vahi)
    (hdef : hi = if PDADDR l va + PDSIZE l > vahi then vahi else PDADDR l va + PDSIZE l) :
    va < hi ∧ hi ≤ vahi ∧ hi % PAGESIZE = 0 ∧
    (∀ v, va ≤ v → v < hi → PDX l v = PDX l va) ∧
    (PDOFF l va = 0 ∧ vahi - va ≥ PDSIZE l → va + PDSIZE l = hi) := by
  have hS := PDSIZE_eq l
  have hpos : 0 < 2 ^ (9 * l) := Nat.two_pow_pos _
  have hdm := Nat.div_add_mod va (PDSIZE l)
  have hr : va % PDSIZE l < PDSIZE l := Nat.mod_lt _ (by omega)
  have hq : PDSIZE l * (va / PDSIZE l) = 4096 * (2 ^ (9 * l) * (va / PDSIZE l)) := by
    rw [hS, Nat.mul_assoc]
  have hdiv : ∀ v, va ≤ v → v < PDADDR l va + PDSIZE l → v / PDSIZE l = va / PDSIZE l := by
    intro v h1 h2
    apply Nat.div_eq_of_lt_le
    · have := Nat.div_mul_le_self va (PDSIZE l)
      omega
    · unfold PDADDR at h2
      have e : (va / PDSIZE l + 1) * PDSIZE l = PDSIZE l * (va / PDSIZE l) + PDSIZE l := by
        rw [Nat.add_mul, Nat.one_mul, Nat.mul_comm]
      omega
  unfold PDADDR PDOFF at *
  unfold PAGESIZE at *
  generalize PDSIZE l * (va / PDSIZE l) = Sq at *
  generalize 2 ^ (9 * l) * (va / PDSIZE l) = c at *
  generalize 2 ^ (9 * l) = s at *
  refine ⟨?_, ?_, ?_, ?_, ?_⟩
  · rw [hdef]; split <;> omega
  · rw [hdef]; split <;> omega
  · rw [hdef]; split <;> omega
  · intro v h1 h2
    unfold PDX
    rw [hdiv v h1 ?_]
    rw [hdef] at h2
    split at h2 <;> omega
  · intro h
    rw [hdef]
    split <;> omega

theorem leafAddr_succ (m : Nat → Nat) (l pmtab v : Nat) :
    leafAddr m (l + 1) pmtab v
      = leafAddr m l (PTE_ADDR (rd64 m (pmtab + 8 * PDX (l + 1) v))) v := rfl

theorem PrivateRange_mono (L : Layout) (m : Nat → Nat) (l pmtab va vahi a0 a1 : Nat)
    (h : PrivateRange L m l pmtab va vahi) (h0 : va ≤ a0) (h1 : a1 ≤ vahi) :
    PrivateRange L m l pmtab a0 a1 := by
  intro v g1 g2 g3
  obtain ⟨p1, p2⟩ := h v (by omega) (by omega) g3
  exact ⟨p1, fun w w1 w2 w3 => p2 w (by omega) (by omega) w3⟩

theorem PrivateRange_down (L : Layout) (m : Nat → Nat) (l pmtab va hi vahi : Nat)
    (hpriv : PrivateRange L m (l + 1) pmtab va vahi) (hhi : hi ≤ vahi)
    (hpdx : ∀ v, va ≤ v → v < hi → PDX (l + 1) v = PDX (l + 1) va) :
    PrivateRange L m l (PTE_ADDR (rd64 m (pmtab + 8 * PDX (l + 1) va))) va hi ∧
    ∀ v, va ≤ v → v < hi →
      leafAddr m (l + 1) pmtab v
        = leafAddr m l (PTE_ADDR (rd64 m (pmtab + 8 * PDX (l + 1) va))) v := by
  have hleaf : ∀ v, va ≤ v → v < hi →
      leafAddr m (l + 1) pmtab v
        = leafAddr m l (PTE_ADDR (rd64 m (pmtab + 8 * PDX (l + 1) va))) v := by
    intro v h1 h2
    rw [leafAddr_succ, hpdx v h1 h2]
  refine ⟨?_, hleaf⟩
  intro v h1 h2 h3
  obtain ⟨p1, p2⟩ := hpriv v h1 (by omega) h3
  unfold pathPrivate at p1
  rw [hpdx v h1 h2] at p1
  refine ⟨p1.2.2.2.2, ?_⟩
  intro w w1 w2 w3
  obtain ⟨q1, q2⟩ := p2 w w1 (by omega) w3
  unfold pathApart at q1
  rw [hpdx w w1 w2, hleaf v h1 h2] at q1
  rw [hleaf v h1 h2, hleaf w w1 w2] at q2
  exact ⟨q1.2, q2⟩

theorem PrivateRange_stable (L : Layout) (m m1 : Nat → Nat) (l pmtab va vahi a0 a1 : Nat)
    (hpriv : PrivateRange L m l pmtab va vahi) (h0 : va ≤ a0) (h1 : a1 ≤ vahi)
    (hag : ∀ a, (∀ v, a0 ≤ v → v < a1 → v % PAGESIZE = 0 →
      a < leafAddr m l pmtab v ∨ leafAddr m l pmtab v + 8 ≤ a) → m1 a = m a) :
    PrivateRange L m1 l pmtab va vahi ∧
    ∀ w, va ≤ w → w < vahi → w % PAGESIZE = 0 →
      leafAddr m1 l pmtab w = leafAddr m l pmtab w := by
  have key : ∀ w, va ≤ w → w < vahi → w % PAGESIZE = 0 →
      (pathPrivate L m l pmtab w → pathPrivate L m1 l pmtab w) ∧
      leafAddr m1 l pmtab w = leafAddr m l pmtab w ∧
      ∀ x, pathApart m x l pmtab w → pathApart m1 x l pmtab w := by
    intro w w1 w2 w3
    apply path_stable L m m1 (fun v => a0 ≤ v ∧ v < a1 ∧ v % PAGESIZE = 0)
      (leafAddr m l pmtab) w
    · intro a ha
      exact hag a (fun v g1 g2 g3 => ha v ⟨g1, g2, g3⟩)
    · intro v hv
      exact ((hpriv v (by omega) (by omega) hv.2.2).2 w w1 w2 w3).1
  refine ⟨?_, fun w w1 w2 w3 => (key w w1 w2 w3).2.1⟩
  intro v g1 g2 g3
  obtain ⟨p1, p2⟩ := hpriv v g1 g2 g3
  refine ⟨(key v g1 g2 g3).1 p1, ?_⟩
  intro w w1 w2 w3
  obtain ⟨q1, q2⟩ := p2 w w1 w2 w3
  rw [(key v g1 g2 g3).2.1, (key w w1 w2 w3).2.1]
  exact ⟨(key w w1 w2 w3).2.2 _ q1, q2⟩

theorem setpermLoop_interior (L : Layout) (pteand pteor : Nat) (l pmtab vahi : Nat)
    (hp : pmtab % 8 = 0) (hvahi : vahi % PAGESIZE = 0)
    (hl : ∀ (K : KState) (T va vahi : Nat), T % 8 = 0 → va % PAGESIZE = 0 →
      vahi % PAGESIZE = 0 → PrivateRange L K.mem l T va vahi →
      ∃ K', pmap_setperm_level L l K T va vahi pteand pteor = some K' ∧
        K'.refcount = K.refcount ∧ K'.freelist = K.freelist ∧
        LeavesSet (permLeaf L pteand pteor) K.mem K'.mem (leafAddr K.mem l T) va vahi) :
    ∀ (fuel : Nat) (K : KState) (va : Nat), va % PAGESIZE = 0 → vahi - va ≤ fuel →
      PrivateRange L K.mem (l + 1) pmtab va vahi →
      ∃ K', setpermLoop L (l + 1)
          (fun K1 tab va1 vahi1 => pmap_setperm_level L l K1 tab va1 vahi1 pteand pteor)
          pmtab vahi pteand pteor fuel K va = some K' ∧
        K'.refcount = K.refcount ∧ K'.freelist = K.freelist ∧
        LeavesSet (permLeaf L pteand pteor) K.mem K'.mem (leafAddr K.mem (l + 1) pmtab)
          va vahi := by
  intro fuel
  induction fuel with
  | zero =>
    intro K va _ hf _
    refine ⟨K, ?_, rfl, rfl, LeavesSet_empty _ _ _ _ _ (by omega)⟩
    unfold setpermLoop
    rw [if_neg (by omega)]
  | succ fuel ih =>
    intro K va hva hf hpriv
    by_cases hlt : va < vahi
    · obtain ⟨hi, hdef⟩ : ∃ h, h = if PDADDR (l + 1) va + PDSIZE (l + 1) > vahi then vahi
          else PDADDR (l + 1) va + PDSIZE (l + 1) := ⟨_, rfl⟩
      obtain ⟨s1, s2, s3, s4, s5⟩ := span_facts (l + 1) va vahi hi hva hvahi hlt hdef
      have hpath := (hpriv va (Nat.le_refl _) hlt hva).1
      have hwalk := walk_private L va l K pmtab hpath
      have hnz : PTE_ADDR (rd64 K.mem (pmtab + 8 * PDX (l + 1) va)) ≠ L.PTE_ZERO := by
        unfold pathPrivate at hpath
        exact hpath.2.1
      have hnskip : ¬ (PTE_ADDR (rd64 K.mem (pmtab + 8 * PDX (l + 1) va)) = L.PTE_ZERO ∧
          pteor = 0) := fun h => hnz h.1
      obtain ⟨d1, d2⟩ := PrivateRange_down L K.mem l pmtab va hi vahi hpriv s2 s4
      have hT : PTE_ADDR (rd64 K.mem (pmtab + 8 * PDX (l + 1) va)) % 8 = 0 := by
        have := PTE_ADDR_mod (rd64 K.mem (pmtab + 8 * PDX (l + 1) va))
        omega
      obtain ⟨K2, e1, e2, e3, e4⟩ := hl K _ va hi hT hva s3 d1
      have e4a : LeavesSet (permLeaf L pteand pteor) K.mem K2.mem
          (leafAddr K.mem (l + 1) pmtab) va hi :=
        LeavesSet_congr _ _ _ _ _ va hi (fun v g1 g2 _ => d2 v g1 g2) e4
      obtain ⟨t1, t2⟩ := PrivateRange_stable L K.mem K2.mem (l + 1) pmtab va vahi va hi hpriv
        (Nat.le_refl _) s2 e4a.1
      obtain ⟨K', f1, f2, f3, f4⟩ := ih K2 hi s3 (by omega)
        (PrivateRange_mono L K2.mem (l + 1) pmtab va vahi hi vahi t1 (by omega) (Nat.le_refl _))
      have f4a : LeavesSet (permLeaf L pteand pteor) K2.mem K'.mem
          (leafAddr K.mem (l + 1) pmtab) hi vahi :=
        LeavesSet_congr _ _ _ _ _ hi vahi
          (fun v g1 g2 g3 => (t2 v (by omega) g2 g3).symm) f4
      refine ⟨K', ?_, f2.trans e2, f3.trans e3, ?_⟩
      · have hstep : setpermLoop L (l + 1)
            (fun K1 tab va1 vahi1 => pmap_setperm_level L l K1 tab va1 vahi1 pteand pteor)
            pmtab vahi pteand pteor (fuel + 1) K va
            = setpermLoop L (l + 1)
              (fun K1 tab va1 vahi1 => pmap_setperm_level L l K1 tab va1 vahi1 pteand pteor)
              pmtab vahi pteand pteor fuel K2 hi := by
          conv_lhs =>
            unfold setpermLoop
            simp only [hlt, not_true_eq_false, if_false]
          rw [if_neg hnskip]
          simp only [gt_iff_lt, Nat.zero_lt_succ, if_true, hwalk, Option.map_some']
          by_cases hcov : PDOFF (l + 1) va = 0 ∧ vahi - va ≥ PDSIZE (l + 1)
          · rw [if_pos hcov]
            simp only [Nat.succ_ne_zero, if_false, s5 hcov, e1]
          · rw [if_neg hcov]
            simp only [← hdef, e1]
        rw [hstep]
        exact f1
      · exact LeavesSet_append _ K.mem K2.mem K'.mem _ va hi vahi e4a f4a (by omega) s2
          (fun v => leafAddr_aligned K.mem v (l + 1) pmtab hp)
          (fun v w a1 a2 a3 b1 b2 b3 => ((hpriv v a1 a2 a3).2 w b1 b2 b3).2)
    · refine ⟨K, ?_, rfl, rfl, LeavesSet_empty _ _ _ _ _ (by omega)⟩
      unfold setpermLoop
      rw [if_pos hlt]

theorem setperm_level_private (L : Layout) (pteand pteor : Nat) (hand : pteand < 2 ^ 64)
    (hor : pteor < 2 ^ 64) :
    ∀ (l : Nat) (K : KState) (T va vahi : Nat), T % 8 = 0 → va % PAGESIZE = 0 →
      vahi % PAGESIZE = 0 → PrivateRange L K.mem l T va vahi →
      ∃ K', pmap_setperm_level L l K T va vahi pteand pteor = some K' ∧
        K'.refcount = K.refcount ∧ K'.freelist = K.freelist ∧
        LeavesSet (permLeaf L pteand pteor) K.mem K'.mem (leafAddr K.mem l T) va vahi := by
  intro l
  induction l with
  | zero =>
    intro K T va vahi hT hva hvahi hpriv
    unfold pmap_setperm_level
    exact setpermLoop_leaf L pteand pteor hand hor _ T vahi hT hvahi (vahi - va) K va hva
      (Nat.le_refl _) (fun v w a1 a2 a3 b1 b2 b3 => ((hpriv v a1 a2 a3).2 w b1 b2 b3).2)
  | succ l ih =>
    intro K T va vahi hT hva hvahi hpriv
    unfold pmap_setperm_level
    exact setpermLoop_interior L pteand pteor l T vahi hT hvahi ih (vahi - va) K va hva
      (Nat.le_refl _) hpriv

theorem or_and_absorb (y c d : Nat) (h : c &&& d = d) : (y ||| c) &&& d = d := by
  apply Nat.eq_of_testBit_eq
  intro j
  have hj := congrArg (fun n => n.testBit j) h
  simp only [Nat.testBit_and, Nat.testBit_or] at hj ⊢
  cases hy : y.testBit j <;> cases hc : c.testBit j <;> cases hd : d.testBit j <;>
    simp_all

theorem and_or_clear (x m c d : Nat) (h1 : m &&& d = 0) (h2 : c &&& d = 0) :
    ((x &&& m) ||| c) &&& d = 0 := by
  apply Nat.eq_of_testBit_eq
  intro j
  have g1 := congrArg (fun n => n.testBit j) h1
  have g2 := congrArg (fun n => n.testBit j) h2
  simp only [Nat.testBit_and, Nat.testBit_or, Nat.zero_testBit] at g1 g2 ⊢
  cases hx : x.testBit j <;> cases hm : m.testBit j <;> cases hc : c.testBit j <;>
    cases hd : d.testBit j <;> simp_all

theorem or_and_keep (x c d : Nat) (h : c &&& d = 0) : (x ||| c) &&& d = x &&& d := by
  apply Nat.eq_of_testBit_eq
  intro j
  have g := congrArg (fun n => n.testBit j) h
  simp only [Nat.testBit_and, Nat.testBit_or, Nat.zero_testBit] at g ⊢
  cases hx : x.testBit j <;> cases hc : c.testBit j <;> cases hd : d.testBit j <;> simp_all

theorem and_not64_zero (x : Nat) (hx : x < 2 ^ 64) : x &&& not64 0 = x := by
  have h : not64 0 = 2 ^ 64 - 1 := by decide
  rw [h, Nat.and_pow_two_sub_one_eq_mod, Nat.mod_eq_of_lt hx]

theorem PTE_ADDR_and_noperm (x : Nat) (hx : x < 2 ^ 64) :
    PTE_ADDR (x &&& not64 (SYS_RW ||| PTE_W ||| PTE_P)) = PTE_ADDR x := by
  rw [PTE_ADDR_eq_mul, PTE_ADDR_eq_mul]
  congr 1
  have h1 := shr_and x (not64 (SYS_RW ||| PTE_W ||| PTE_P)) 12
  have h2 : not64 (SYS_RW ||| PTE_W ||| PTE_P) >>> 12 = 2 ^ 52 - 1 := by decide
  have h3 : x >>> 12 < 2 ^ 52 := by
    rw [Nat.shiftRight_eq_div_pow]
    omega
  rw [h2, Nat.and_pow_two_sub_one_eq_mod, Nat.mod_eq_of_lt h3, Nat.shiftRight_eq_div_pow,
    Nat.shiftRight_eq_div_pow] at h1
  exact h1

theorem pmap_setperm_none_eq (L : Layout) (K : KState) (pml4 va size : Nat)
    (hva : va % PAGESIZE = 0) (hsz : size % PAGESIZE = 0)
    (hwin : L.VM_USERLO ≤ va ∧ va < L.VM_USERHI) (hfit : size ≤ L.VM_USERHI - va) :
    pmap_setperm L K pml4 va size 0
      = (pmap_setperm_level L NPTLVLS K pml4 va (va + size)
          (not64 (SYS_RW ||| PTE_W ||| PTE_P)) 0).map (fun K1 => (K1, 1)) := by
  unfold pmap_setperm
  have h : va % PAGESIZE = 0 ∧ size % PAGESIZE = 0 ∧ L.VM_USERLO ≤ va ∧ va < L.VM_USERHI
      ∧ size ≤ L.VM_USERHI - va ∧ 0 &&& not64 SYS_RW = 0 :=
    ⟨hva, hsz, hwin.1, hwin.2, hfit, Nat.zero_and _⟩
  rw [if_pos h]
  simp only [Nat.zero_and, if_true]

theorem pmap_setperm_rw_eq (L : Layout) (K : KState) (pml4 va size : Nat)
    (hva : va % PAGESIZE = 0) (hsz : size % PAGESIZE = 0)
    (hwin : L.VM_USERLO ≤ va ∧ va < L.VM_USERHI) (hfit : size ≤ L.VM_USERHI - va) :
    pmap_setperm L K pml4 va size SYS_RW
      = (pmap_setperm_level L NPTLVLS K pml4 va (va + size) (not64 0)
          (SYS_RW ||| PTE_U ||| PTE_P ||| PTE_A ||| PTE_D)).map (fun K1 => (K1, 1)) := by
  unfold pmap_setperm
  have h : va % PAGESIZE = 0 ∧ size % PAGESIZE = 0 ∧ L.VM_USERLO ≤ va ∧ va < L.VM_USERHI
      ∧ size ≤ L.VM_USERHI - va ∧ SYS_RW &&& not64 SYS_RW = 0 :=
    ⟨hva, hsz, hwin.1, hwin.2, hfit, by decide⟩
  rw [if_pos h]
  have h1 : ¬ (SYS_RW &&& SYS_READ = 0) := by decide
  have h2 : ¬ (SYS_RW &&& SYS_WRITE = 0) := by decide
  simp only [h1, h2, if_false]

theorem exPrivK_bytes : ByteMem exPrivK.mem := by
  show ByteMem (wr64 (wr64 (wr64 (wr64 (wr64 (exRoot (exRoot (exRoot (exRoot (fun _ => 0)
      0x10000) 0x13000) 0x16000) 0x17000) 0x10000 0x13027) 0x13008 0x16027) 0x16000 0x17027)
      0x17000 0x80601) 0x17010 0x81667)
  apply ByteMem_wr64
  apply ByteMem_wr64
  apply ByteMem_wr64
  apply ByteMem_wr64
  apply ByteMem_wr64
  unfold exRoot
  apply ByteMem_mapTable
  apply ByteMem_mapTable
  apply ByteMem_mapTable
  apply ByteMem_mapTable
  intro a
  show 0 < 256
  omega

theorem exPrivK_range : PrivateRange exLayout exPrivK.mem NPTLVLS 0x10000 UL (UL + 0x3000) := by
  have hcases : ∀ v, UL ≤ v → v < UL + 0x3000 → v % PAGESIZE = 0 →
      v = UL ∨ v = UL + 0x1000 ∨ v = UL + 0x2000 := by
    intro v h1 h2 h3
    unfold UL PAGESIZE at *
    omega
  intro v h1 h2 h3
  refine ⟨?_, ?_⟩
  · rcases hcases v h1 h2 h3 with rfl | rfl | rfl <;> decide!
  · intro w w1 w2 w3
    rcases hcases v h1 h2 h3 with rfl | rfl | rfl <;>
      rcases hcases w w1 w2 w3 with rfl | rfl | rfl <;> decide!


theorem upd_same (S : Sched) (p : Nat) (f : Proc → Proc) : (S.upd p f).procs p = f (S.procs p) := by
  simp [Sched.upd]

theorem upd_other (S : Sched) (p q : Nat) (f : Proc → Proc) (h : q ≠ p) :
    (S.upd p f).procs q = S.procs q := by
  simp [Sched.upd, h]

theorem proc_ready_state (S : Sched) (p : Nat) : ((proc_ready S p).procs p).state = PROC_READY := by
  unfold proc_ready
  cases h : S.readytail with
  | head => simp [Sched.upd, h]
  | next q =>
    by_cases hq : p = q
    · subst hq; simp [Sched.upd, h]
    · simp [Sched.upd, h, hq]

theorem wakeClear_waitproc (S : Sched) (p : Nat) :
    ((wakeClear S p).procs p).waitproc = none ↔ awaitDone S p := by
  unfold wakeClear awaitDone
  cases hw : (S.procs p).waitproc with
  | none => simp [hw]
  | some cp =>
    by_cases hc : some cp = S.proc_net ∨ (S.procs cp).state = PROC_STOP ∨ (S.procs cp).state = PROC_BLOCK
    · simp only [hc, if_true, upd_same]
    · simp [hc, hw]

theorem wakeClear_keeps (S : Sched) (p : Nat) :
    ((wakeClear S p).procs p).ts = (S.procs p).ts ∧
    ((wakeClear S p).procs p).state = (S.procs p).state := by
  unfold wakeClear
  cases hw : (S.procs p).waitproc with
  | none => simp
  | some cp =>
    by_cases hc : some cp = S.proc_net ∨ (S.procs cp).state = PROC_STOP ∨ (S.procs cp).state = PROC_BLOCK
    · simp only [hc, if_true, upd_same, and_self]
    · simp [hc]

theorem wakeTime_ts (S : Sched) (p time : Nat) :
    ((wakeTime S p time).procs p).ts = 0 ↔ (time > (S.procs p).ts ∨ (S.procs p).ts = 0) := by
  unfold wakeTime
  by_cases ht : time > (S.procs p).ts
  · simp only [ht, if_true, upd_same, true_or]
  · simp [ht]

theorem wakeTime_keeps (S : Sched) (p time : Nat) :
    ((wakeTime S p time).procs p).waitproc = (S.procs p).waitproc ∧
    ((wakeTime S p time).procs p).state = (S.procs p).state := by
  unfold wakeTime
  by_cases ht : time > (S.procs p).ts
  · simp only [ht, if_true, upd_same, and_self]
  · simp [ht]

/-- C18 (amended): for a locked process `p` in WAIT, `proc_wake(p, time)` returns,
and it makes `p` READY exactly when the awaited process is done (`awaitDone`) and
the time is strictly after the pacing timestamp or the timestamp is already 0;
otherwise `p` stays in WAIT. -/
theorem proc_wake_ready_iff (S : Sched) (p time : Nat)
    (hl : (S.procs p).lock = true) (hs : (S.procs p).state = PROC_WAIT) :
    ∃ S1, proc_wake S p time = some S1 ∧
      ((S1.procs p).state = PROC_READY ↔
        (awaitDone S p ∧ (time > (S.procs p).ts ∨ (S.procs p).ts = 0))) ∧
      ((S1.procs p).state = PROC_READY ∨ (S1.procs p).state = PROC_WAIT) := by
  have h1 := wakeClear_waitproc S p
  have h2 := wakeClear_keeps S p
  have h3 := wakeTime_ts (wakeClear S p) p time
  have h4 := wakeTime_keeps (wakeClear S p) p time
  rw [h2.1] at h3
  unfold proc_wake
  simp only [hl, hs, not_true_eq_false, if_false, ne_eq]
  by_cases hc : ((wakeTime (wakeClear S p) p time).procs p).waitproc = none ∧
      ((wakeTime (wakeClear S p) p time).procs p).ts = 0
  · rw [if_pos hc]
    refine ⟨_, rfl, ?_, Or.inl (proc_ready_state _ _)⟩
    simp only [proc_ready_state, true_iff]
    exact ⟨h1.mp (h4.1 ▸ hc.1), h3.mp hc.2⟩
  · rw [if_neg hc]
    refine ⟨_, rfl, ?_, Or.inr (by rw [h4.2, h2.2, hs])⟩
    rw [h4.2, h2.2, hs]
    constructor
    · intro h; exact absurd h (by decide)
    · intro h; exact absurd ⟨h4.1.trans (h1.mpr h.1), h3.mpr h.2⟩ hc

theorem proc_ready_self (S : Sched) (p : Nat) :
    (proc_ready S p).procs p =
      { S.procs p with state := PROC_READY, waitproc := none,
                       readynext := if S.readytail = Link.next p then some p else none } := by
  unfold proc_ready
  cases h : S.readytail with
  | head => simp [Sched.upd, h]
  | next q =>
    by_cases hq : p = q
    · subst hq; simp [Sched.upd, h]
    · have hq2 : q ≠ p := fun e => hq e.symm
      simp [Sched.upd, h, hq, hq2]

theorem proc_ready_other (S : Sched) (p q : Nat) (hq : q ≠ p) :
    (proc_ready S p).procs q =
      { S.procs q with
        readynext := if S.readytail = Link.next q then some p else (S.procs q).readynext } := by
  unfold proc_ready
  cases h : S.readytail with
  | head => simp [Sched.upd, h, hq]
  | next r =>
    by_cases hr : q = r
    · subst hr; simp [Sched.upd, h, hq]
    · have hr2 : r ≠ q := fun e => hr e.symm
      simp [Sched.upd, h, hq, hr, hr2]

theorem proc_ready_tail (S : Sched) (p : Nat) :
    (proc_ready S p).readytail = Link.next p ∧ readyAt (proc_ready S p) S.readytail = some p := by
  unfold proc_ready readyAt
  cases h : S.readytail with
  | head => simp [Sched.upd, h]
  | next q =>
    by_cases hq : p = q
    · subst hq; simp [Sched.upd, h]
    · simp [Sched.upd, h, hq]

@[simp] theorem upd_cur (S : Sched) (p : Nat) (f : Proc → Proc) : (S.upd p f).cur = S.cur := rfl
@[simp] theorem upd_readyhead (S : Sched) (p : Nat) (f : Proc → Proc) :
    (S.upd p f).readyhead = S.readyhead := rfl
@[simp] theorem upd_readytail (S : Sched) (p : Nat) (f : Proc → Proc) :
    (S.upd p f).readytail = S.readytail := rfl
@[simp] theorem upd_pacinghead (S : Sched) (p : Nat) (f : Proc → Proc) :
    (S.upd p f).pacinghead = S.pacinghead := rfl
@[simp] theorem upd_pacingtail (S : Sched) (p : Nat) (f : Proc → Proc) :
    (S.upd p f).pacingtail = S.pacingtail := rfl
@[simp] theorem upd_proc_net (S : Sched) (p : Nat) (f : Proc → Proc) :
    (S.upd p f).proc_net = S.proc_net := rfl

theorem proc_wake_zero (S : Sched) (p cp : Nat) (hl : (S.procs p).lock = true)
    (hs : (S.procs p).state = PROC_WAIT) (hw : (S.procs p).waitproc = some cp)
    (hc : (S.procs cp).state = PROC_STOP) :
    proc_wake S p 0 = some (if (S.procs p).ts = 0
      then proc_ready (S.upd p (fun r => { r with waitproc := none })) p
      else S.upd p (fun r => { r with waitproc := none })) := by
  unfold proc_wake wakeTime wakeClear
  simp only [hl, hs, hw, hc, not_true_eq_false, if_false, ne_eq, true_or, or_true, if_true,
    gt_iff_lt, Nat.not_lt_zero, upd_same, true_and]
  split <;> rfl

theorem proc_ret_tail (S S3 : Sched) (cp p : Nat) (tf : Nat) (hne : p ≠ cp)
    (hp : S3.procs p = { S.procs p with lock := true })
    (hc1 : (S3.procs cp).state = PROC_STOP) (hc2 : (S3.procs cp).sv_tf = tf)
    (hh : S3.readyhead = S.readyhead) (ht : S3.readytail = S.readytail) :
    ∃ S1, Option.map (fun S5 : Sched => S5.upd p (fun r => { r with lock := false }))
        (if (S3.procs p).state = PROC_WAIT ∧ (S3.procs p).waitproc = some cp
          then proc_wake S3 p 0 else some S3) = some S1 ∧
      (S1.procs cp).state = PROC_STOP ∧ (S1.procs cp).sv_tf = tf ∧
      (((S.procs p).state = PROC_WAIT ∧ (S.procs p).waitproc = some cp) →
        (((S.procs p).ts = 0 → (S1.procs p).state = PROC_READY ∧
            readyAt S1 S.readytail = some p ∧ S1.readytail = Link.next p) ∧
         ((S.procs p).ts ≠ 0 → S1.procs p = { S.procs p with lock := false, waitproc := none } ∧
            S1.readyhead = S.readyhead ∧ S1.readytail = S.readytail))) ∧
      (¬ ((S.procs p).state = PROC_WAIT ∧ (S.procs p).waitproc = some cp) →
        S1.procs p = { S.procs p with lock := false } ∧ S1.readyhead = S.readyhead ∧
          S1.readytail = S.readytail) := by
  have hne2 : cp ≠ p := fun e => hne e.symm
  have hps : (S3.procs p).state = (S.procs p).state := by rw [hp]
  have hpw : (S3.procs p).waitproc = (S.procs p).waitproc := by rw [hp]
  have hpt : (S3.procs p).ts = (S.procs p).ts := by rw [hp]
  rw [hps, hpw]
  by_cases hw : (S.procs p).state = PROC_WAIT ∧ (S.procs p).waitproc = some cp
  · rw [if_pos hw, proc_wake_zero S3 p cp (by rw [hp]) (hps.trans hw.1) (hpw.trans hw.2) hc1, hpt]
    by_cases h0 : (S.procs p).ts = 0
    · rw [if_pos h0]
      refine ⟨_, rfl, ?_, ?_, fun _ => ⟨fun _ => ⟨?_, ?_, ?_⟩, fun h => absurd h0 h⟩,
        fun h => absurd hw h⟩
      · rw [upd_other _ _ _ _ hne2, proc_ready_other _ _ _ hne2, upd_other _ _ _ _ hne2]; exact hc1
      · rw [upd_other _ _ _ _ hne2, proc_ready_other _ _ _ hne2, upd_other _ _ _ _ hne2]; exact hc2
      · rw [upd_same, proc_ready_self]
      · have := (proc_ready_tail (S3.upd p (fun r => { r with waitproc := none })) p).2
        rw [upd_readytail, ht] at this
        cases hq : S.readytail with
        | head => rw [hq] at this; exact this
        | next q =>
          rw [hq] at this
          simp only [readyAt] at this ⊢
          by_cases hqp : q = p
          · subst hqp; rw [upd_same]; exact this
          · rw [upd_other _ _ _ _ hqp]; exact this
      · exact (proc_ready_tail (S3.upd p (fun r => { r with waitproc := none })) p).1
    · rw [if_neg h0]
      refine ⟨_, rfl, ?_, ?_, fun _ => ⟨fun h => absurd h h0, fun _ => ⟨?_, hh, ht⟩⟩,
        fun h => absurd hw h⟩
      · rw [upd_other _ _ _ _ hne2, upd_other _ _ _ _ hne2]; exact hc1
      · rw [upd_other _ _ _ _ hne2, upd_other _ _ _ _ hne2]; exact hc2
      · rw [upd_same, upd_same, hp]
  · rw [if_neg hw]
    refine ⟨_, rfl, ?_, ?_, fun h => absurd h hw, fun _ => ⟨?_, hh, ht⟩⟩
    · rw [upd_other _ _ _ _ hne2]; exact hc1
    · rw [upd_other _ _ _ _ hne2]; exact hc2
    · rw [upd_same, hp]

/-- C17 (amended): when the running child `cp` of an unlocked parent `p` returns
with `proc_ret`, the call reaches `proc_sched` with the child in STOP and its trap
frame saved.  If the parent is in WAIT with `waitproc` equal to the child, then
a parent with pacing timestamp 0 is made READY and appended to the ready queue,
while a parent with a non-zero timestamp stays in WAIT with `waitproc` cleared
and the ready queue is unchanged.  A parent that is not waiting on this child
is left unchanged. -/
theorem proc_ret_sync (S : Sched) (tf : Nat) (entry : Int) (cp p : Nat)
    (hcur : S.cur = some cp) (hst : (S.procs cp).state = PROC_RUN)
    (hrc : (S.procs cp).runcpu = some 0) (hpar : (S.procs cp).parent = some p)
    (hne : p ≠ cp) (hlk : (S.procs p).lock = false) :
    ∃ S1, proc_ret S tf entry true = some S1 ∧
      (S1.procs cp).state = PROC_STOP ∧ (S1.procs cp).sv_tf = tf ∧
      (((S.procs p).state = PROC_WAIT ∧ (S.procs p).waitproc = some cp) →
        (((S.procs p).ts = 0 → (S1.procs p).state = PROC_READY ∧
            readyAt S1 S.readytail = some p ∧ S1.readytail = Link.next p) ∧
         ((S.procs p).ts ≠ 0 → S1.procs p = { S.procs p with waitproc := none } ∧
            S1.readyhead = S.readyhead ∧ S1.readytail = S.readytail))) ∧
      (¬ ((S.procs p).state = PROC_WAIT ∧ (S.procs p).waitproc = some cp) →
        S1.procs p = S.procs p ∧ S1.readyhead = S.readyhead ∧ S1.readytail = S.readytail) := by
  have hne2 : cp ≠ p := fun e => hne e.symm
  have hself : ({ S.procs p with lock := false } : Proc) = S.procs p := by
    rw [← hlk]
  unfold proc_ret proc_save
  simp only [hcur, hst, hrc, hpar, hlk, and_self, not_true_eq_false, if_false, not_false_eq_true,
    Bool.false_eq_true, ne_eq, if_true, upd_cur]
  have key := proc_ret_tail S
    (((S.upd p (fun r => { r with lock := true })).upd cp
        (fun r => { r with state := PROC_STOP, runcpu := none })).upd cp
        (fun r => { r with sv_tf := tf,
                           pff_reexec := if entry = 0 then true else r.pff_reexec }))
    cp p tf hne
    (by rw [upd_other _ _ _ _ hne, upd_other _ _ _ _ hne, upd_same])
    (by rw [upd_same, upd_same]) (by rw [upd_same]) rfl rfl
  rw [hself] at key
  exact key

/-- Witness for C18 (amended): process 1 of `exWaiting` at time 6. -/
theorem proc_wake_ready_iff_witness :
    ∃ S1, proc_wake exWaiting 1 6 = some S1 ∧
      ((S1.procs 1).state = PROC_READY ↔
        (awaitDone exWaiting 1 ∧ (6 > (exWaiting.procs 1).ts ∨ (exWaiting.procs 1).ts = 0))) ∧
      ((S1.procs 1).state = PROC_READY ∨ (S1.procs 1).state = PROC_WAIT) :=
  proc_wake_ready_iff exWaiting 1 6 (by decide) (by decide)

/-- C18, counterexample: process 1 of `exWaiting` is in WAIT with pacing timestamp
5 and awaits nobody; at time 5, which satisfies `time >= ts`, `proc_wake` leaves
it in WAIT with its timestamp. -/
theorem proc_wake_at_timestamp_stays :
    (exWaiting.procs 1).state = PROC_WAIT ∧ (exWaiting.procs 1).waitproc = none ∧
    5 ≥ (exWaiting.procs 1).ts ∧
    (proc_wake exWaiting 1 5).map (fun S => ((S.procs 1).state, (S.procs 1).ts, S.readyhead))
      = some (PROC_WAIT, 5, none) := by
  decide

/-- Witness for C17 (amended): the child 2 of `exChildRunning` returns. -/
theorem proc_ret_sync_witness :
    ∃ S1, proc_ret exChildRunning 200 1 true = some S1 ∧
      (S1.procs 2).state = PROC_STOP ∧ (S1.procs 2).sv_tf = 200 ∧
      (((exChildRunning.procs 1).state = PROC_WAIT ∧
          (exChildRunning.procs 1).waitproc = some 2) →
        (((exChildRunning.procs 1).ts = 0 → (S1.procs 1).state = PROC_READY ∧
            readyAt S1 exChildRunning.readytail = some 1 ∧ S1.readytail = Link.next 1) ∧
         ((exChildRunning.procs 1).ts ≠ 0 →
            S1.procs 1 = { exChildRunning.procs 1 with waitproc := none } ∧
            S1.readyhead = exChildRunning.readyhead ∧
            S1.readytail = exChildRunning.readytail))) ∧
      (¬ ((exChildRunning.procs 1).state = PROC_WAIT ∧
          (exChildRunning.procs 1).waitproc = some 2) →
        S1.procs 1 = exChildRunning.procs 1 ∧ S1.readyhead = exChildRunning.readyhead ∧
          S1.readytail = exChildRunning.readytail) :=
  proc_ret_sync exChildRunning 200 1 2 1 (by decide) (by decide) (by decide) (by decide)
    (by decide) (by decide)

/-- C17, counterexample: in `scChildRuns 7` the child 2 runs and its parent 1 is in
WAIT with `waitproc` equal to the child and pacing timestamp 7; after the
child's `proc_ret` the parent is still in WAIT, with `waitproc` cleared, and the
ready queue is empty. -/
theorem proc_ret_paced_parent_stays :
    (scChildRuns 7).map (fun S => (S.cur, (S.procs 2).state, (S.procs 1).state,
        (S.procs 1).waitproc, (S.procs 1).ts))
      = some (some 2, PROC_RUN, PROC_WAIT, some 2, 7) ∧
    ((scChildRuns 7).bind (fun S => proc_ret S 200 1 true)).map
        (fun S => ((S.procs 2).state, (S.procs 1).state, (S.procs 1).waitproc, S.readyhead))
      = some (PROC_STOP, PROC_WAIT, none, none) := by
  decide

/-- C20, the code at a reachable state: process 1 starts its child 2 and waits for
it with pacing timestamp 5, the timer tick `proc_wake_all(10)` comes while the
child runs, then the child returns.  Process 1 is then READY, it is the head of
the ready queue and the head of the pacing list, and the next timer tick fails
the assertion of `proc_wake`. -/
theorem proc_ret_leaves_ready_on_pacing_list :
    scBothLists.map (fun S => (S.pacinghead, S.readyhead, (S.procs 1).state))
      = some (some 1, some 1, PROC_READY) ∧
    (scBothLists.bind (fun S => proc_wake_all 4 S 20)).isNone = true := by
  decide

/-- C27, the code at a reachable state: the pacing list holds 1 and 2, the timer
tick removes 2 (the last one) and keeps 1; `pacingtail` still addresses the link
field of 2, so process 3, which then waits with a timestamp, is linked after 2
and is not reachable from `pacinghead`: the list from `pacinghead` is just 1.
A later tick at time 1000 empties the list and leaves 3 in WAIT. -/
theorem proc_wake_all_leaves_tail_dangling :
    scTailLost.map (fun S => (S.pacinghead, (S.procs 1).pacingnext, S.pacingtail,
        (S.procs 2).pacingnext))
      = some (some 1, none, Link.next 3, some 3) ∧
    scTailLost.map (fun S => ((S.procs 2).state, (S.procs 3).state, (S.procs 3).ts))
      = some (PROC_READY, PROC_WAIT, 7) ∧
    (scTailLost.bind (fun S => proc_wake_all 4 S 1000)).map
        (fun S => (S.pacinghead, (S.procs 1).state, (S.procs 3).state))
      = some (none, PROC_READY, PROC_WAIT) := by
  decide

theorem tailLink_cons_cons (a b : Nat) (l : List Nat) :
    tailLink (a :: b :: l) = tailLink (b :: l) := rfl

theorem tailLink_mem (q : Nat) : ∀ l : List Nat, tailLink l = Link.next q → q ∈ l
  | [], h => by simp [tailLink] at h
  | [a], h => by
    simp only [tailLink, Link.next.injEq] at h
    simp [h]
  | a :: b :: l, h => by
    rw [tailLink_cons_cons] at h
    exact List.mem_cons_of_mem _ (tailLink_mem q (b :: l) h)

theorem tailLink_snoc (p : Nat) : ∀ l : List Nat, tailLink (l ++ [p]) = Link.next p
  | [] => rfl
  | [a] => rfl
  | a :: b :: l => by
    have := tailLink_snoc p (b :: l)
    simpa [tailLink_cons_cons] using this

theorem tailLink_eq_head : ∀ l : List Nat, tailLink l = Link.head ↔ l = []
  | [] => by simp [tailLink]
  | [a] => by simp [tailLink]
  | a :: b :: l => by
    rw [tailLink_cons_cons, tailLink_eq_head (b :: l)]
    simp

theorem Chain_congr (next next1 : Nat → Option Nat) :
    ∀ (l : List Nat) (h : Option Nat), (∀ q ∈ l, next1 q = next q) → Chain next h l →
      Chain next1 h l
  | [], _, _, hc => hc
  | a :: t, h, hn, hc => by
    refine ⟨hc.1, ?_⟩
    rw [hn a (List.mem_cons_self _ _)]
    exact Chain_congr next next1 t _ (fun q hq => hn q (List.mem_cons_of_mem _ hq)) hc.2

theorem Chain_snoc (next next1 : Nat → Option Nat) (p : Nat) :
    ∀ (l : List Nat) (h : Option Nat), Chain next h l → (l ++ [p]).Nodup →
      (∀ q ∈ l, tailLink l ≠ Link.next q → next1 q = next q) →
      (∀ q, tailLink l = Link.next q → next1 q = some p) → next1 p = none →
      Chain next1 (if l = [] then some p else h) (l ++ [p])
  | [], h, _, _, _, _, hp => by
    simp only [if_true, List.nil_append]
    exact ⟨rfl, hp⟩
  | [a], h, hc, _, _, ht, hp => by
    simp only [List.cons_ne_nil, if_false, List.singleton_append]
    refine ⟨hc.1, ?_⟩
    rw [ht a rfl]
    exact ⟨rfl, hp⟩
  | a :: b :: t, h, hc, hd, hk, ht, hp => by
    simp only [List.cons_ne_nil, if_false, List.cons_append]
    refine ⟨hc.1, ?_⟩
    have hd2 : ((b :: t) ++ [p]).Nodup := by
      have := hd
      simp only [List.cons_append, List.nodup_cons] at this ⊢
      exact this.2
    have ha : a ∉ (b :: t) := by
      have := hd
      simp only [List.cons_append, List.nodup_cons, List.mem_cons, List.mem_append] at this
      intro hm
      simp only [List.mem_cons] at hm
      apply this.1
      rcases hm with hm | hm
      · exact Or.inl hm
      · exact Or.inr (Or.inl hm)
    have hna : next1 a = next a := by
      apply hk a (List.mem_cons_self _ _)
      rw [tailLink_cons_cons]
      intro he
      exact ha (tailLink_mem a _ he)
    rw [hna]
    have ih := Chain_snoc next next1 p (b :: t) (next a) hc.2 hd2
      (fun q hq hq2 => hk q (List.mem_cons_of_mem _ hq) (by rw [tailLink_cons_cons]; exact hq2))
      (fun q hq => ht q (by rw [tailLink_cons_cons]; exact hq)) hp
    simpa using ih

theorem proc_ready_readyhead (S : Sched) (p : Nat) :
    (proc_ready S p).readyhead = if S.readytail = Link.head then some p else S.readyhead := by
  unfold proc_ready
  cases h : S.readytail <;> simp [h]

theorem proc_ready_lock (S : Sched) (p q : Nat) :
    ((proc_ready S p).procs q).lock = (S.procs q).lock := by
  by_cases h : q = p
  · subst h; rw [proc_ready_self]
  · rw [proc_ready_other _ _ _ h]

theorem proc_ready_ReadyQ (S : Sched) (l : List Nat) (p : Nat) (h : ReadyQ S l) (hp : p ∉ l) :
    ReadyQ (proc_ready S p) (l ++ [p]) := by
  obtain ⟨hc, ht, hd⟩ := h
  have hd2 : (l ++ [p]).Nodup := by
    rw [List.nodup_append]
    refine ⟨hd, List.nodup_singleton p, ?_⟩
    intro a ha hb
    simp only [List.mem_singleton] at hb
    subst hb; exact hp ha
  have hnp : S.readytail ≠ Link.next p := by
    rw [ht]; intro he; exact hp (tailLink_mem p l he)
  refine ⟨?_, ?_, hd2⟩
  · have := Chain_snoc (fun q => (S.procs q).readynext)
      (fun q => ((proc_ready S p).procs q).readynext) p l S.readyhead hc hd2 ?_ ?_ ?_
    · rw [proc_ready_readyhead, ht]
      simp only [tailLink_eq_head]
      exact this
    · intro q hq hq2
      have hqp : q ≠ p := fun e => hp (e ▸ hq)
      simp only [proc_ready_other _ _ _ hqp, ht, if_neg hq2]
    · intro q hq
      have hqp : q ≠ p := fun e => hp (e ▸ tailLink_mem q l hq)
      simp only [proc_ready_other _ _ _ hqp, ht, hq, if_true]
    · simp only [proc_ready_self, if_neg hnp]
  · rw [(proc_ready_tail S p).1, tailLink_snoc]

theorem proc_sched_ReadyQ (S : Sched) (p : Nat) (l : List Nat) (h : ReadyQ S (p :: l))
    (hl : (S.procs p).lock = false) :
    ∃ S1, proc_sched S = some (S1, p) ∧ ReadyQ S1 l ∧ (S1.procs p).readynext = none ∧
      ∀ q, q ≠ p → S1.procs q = S.procs q := by
  obtain ⟨hc, ht, hd⟩ := h
  have hpl : p ∉ l := (List.nodup_cons.mp hd).1
  have hdl : l.Nodup := (List.nodup_cons.mp hd).2
  have hh : S.readyhead = some p := hc.1
  have hc2 : Chain (fun q => (S.procs q).readynext) (S.procs p).readynext l := hc.2
  have hkeep : ∀ (S1 : Sched), (∀ q, q ≠ p → S1.procs q = S.procs q) →
      Chain (fun q => (S1.procs q).readynext) (S.procs p).readynext l := by
    intro S1 h1
    refine Chain_congr _ _ l _ ?_ hc2
    intro q hq
    have hqp : q ≠ p := fun e => hpl (e ▸ hq)
    simp only [h1 q hqp]
  unfold proc_sched sched_dequeue proc_run
  simp only [hh]
  cases l with
  | nil =>
    have ht1 : S.readytail = Link.next p := ht
    have hn : (S.procs p).readynext = none := hc2
    simp only [ht1, hn, if_true, ne_eq, not_true_eq_false, if_false, upd_same, hl,
      Bool.false_eq_true, Option.map_some', not_false_eq_true]
    refine ⟨_, rfl, ⟨rfl, rfl, List.nodup_nil⟩, ?_, ?_⟩
    · simp [Sched.upd]
    · intro q hq
      simp [Sched.upd, hq]
  | cons b t =>
    have ht1 : S.readytail ≠ Link.next p := by
      rw [ht, tailLink_cons_cons]
      intro he
      exact hpl (tailLink_mem p _ he)
    simp only [ht1, if_false, upd_same, hl, Bool.false_eq_true, Option.map_some',
      not_false_eq_true, not_true_eq_false]
    refine ⟨_, rfl, ⟨?_, ?_, hdl⟩, ?_, ?_⟩
    · apply hkeep
      intro q hq
      simp [Sched.upd, hq]
    · simp only [upd_readytail]
      rw [ht, tailLink_cons_cons]
    · simp [Sched.upd]
    · intro q hq
      simp [Sched.upd, hq]

theorem schedN_ReadyQ : ∀ (l : List Nat) (S : Sched), ReadyQ S l →
    (∀ p ∈ l, (S.procs p).lock = false) →
    ∃ S1, schedN l.length S = some (S1, l) ∧ ReadyQ S1 [] ∧
      ∀ q, (q ∈ l ∨ (S.procs q).readynext = none) → (S1.procs q).readynext = none
  | [], S, h, _ => ⟨S, rfl, h, fun q hq => by simpa using hq⟩
  | p :: l, S, h, hl => by
    obtain ⟨S1, h1, h2, h3, h4⟩ := proc_sched_ReadyQ S p l h (hl p (List.mem_cons_self _ _))
    have hpl : p ∉ l := (List.nodup_cons.mp h.2.2).1
    obtain ⟨S2, k1, k2, k3⟩ := schedN_ReadyQ l S1 h2 (by
      intro q hq
      have hqp : q ≠ p := fun e => hpl (e ▸ hq)
      rw [h4 q hqp]
      exact hl q (List.mem_cons_of_mem _ hq))
    refine ⟨S2, ?_, k2, ?_⟩
    · simp only [List.length_cons, schedN, h1, k1, Option.map_some']
    · intro q hq
      by_cases hqp : q = p
      · subst hqp; exact k3 q (Or.inr h3)
      · rcases hq with hq | hq
        · rcases List.mem_cons.mp hq with e | hm
          · exact absurd e hqp
          · exact k3 q (Or.inl hm)
        · exact k3 q (Or.inr (by rw [h4 q hqp]; exact hq))

theorem readyAll_ReadyQ : ∀ (l2 l1 : List Nat) (S : Sched), ReadyQ S l1 → (l1 ++ l2).Nodup →
    ReadyQ (readyAll S l2) (l1 ++ l2)
  | [], l1, S, h, _ => by simpa [readyAll] using h
  | p :: l2, l1, S, h, hd => by
    have hp : p ∉ l1 := by
      intro hm
      have := List.nodup_append.mp hd
      exact this.2.2 hm (List.mem_cons_self _ _)
    have h1 := proc_ready_ReadyQ S l1 p h hp
    have := readyAll_ReadyQ l2 (l1 ++ [p]) (proc_ready S p) h1 (by simpa using hd)
    simpa [readyAll] using this

theorem readyAll_lock : ∀ (l : List Nat) (S : Sched) (q : Nat),
    ((readyAll S l).procs q).lock = (S.procs q).lock
  | [], _, _ => rfl
  | p :: l, S, q => by
    have := readyAll_lock l (proc_ready S p) q
    rw [proc_ready_lock] at this
    simpa [readyAll] using this

/-- C16: the ready queue is FIFO.  Starting from the empty queue of `proc_init`,
after `proc_ready` is called on the distinct unlocked processes of `l` in
order, the next `l.length` runs of `proc_sched` dequeue exactly the processes of
`l` in that order; afterwards the queue is empty (`readyhead` is NULL and
`readytail` addresses it) and every dequeued process has `readynext = NULL`. -/
theorem proc_sched_fifo (procs : Nat → Proc) (net : Option Nat) (l : List Nat)
    (hd : l.Nodup) (hl : ∀ p ∈ l, (procs p).lock = false) :
    ∃ S1, schedN l.length (readyAll (proc_init procs net) l) = some (S1, l) ∧
      S1.readyhead = none ∧ S1.readytail = Link.head ∧
      ∀ p ∈ l, (S1.procs p).readynext = none := by
  have h0 : ReadyQ (proc_init procs net) [] := ⟨rfl, rfl, List.nodup_nil⟩
  have h1 := readyAll_ReadyQ l [] (proc_init procs net) h0 (by simpa using hd)
  rw [List.nil_append] at h1
  obtain ⟨S1, k1, k2, k3⟩ := schedN_ReadyQ l _ h1 (by
    intro p hp
    rw [readyAll_lock]
    exact hl p hp)
  exact ⟨S1, k1, k2.1, k2.2.1, fun p hp => k3 p (Or.inl hp)⟩

/-- Witness for C16: the processes 3, 1, 2 are readied in this order. -/
theorem proc_sched_fifo_witness :
    ∃ S1, schedN [3, 1, 2].length (readyAll (proc_init exProcs none) [3, 1, 2])
        = some (S1, [3, 1, 2]) ∧
      S1.readyhead = none ∧ S1.readytail = Link.head ∧
      ∀ p ∈ [3, 1, 2], (S1.procs p).readynext = none :=
  proc_sched_fifo exProcs none [3, 1, 2] (by decide) (by decide)

theorem wakeStage_other (S : Sched) (p time q : Nat) (h : q ≠ p) :
    (wakeTime (wakeClear S p) p time).procs q = S.procs q := by
  have h1 : (wakeClear S p).procs q = S.procs q := by
    unfold wakeClear
    split
    · rfl
    · split
      · exact upd_other _ _ _ _ h
      · rfl
  unfold wakeTime
  split
  · rw [upd_other _ _ _ _ h, h1]
  · exact h1

theorem wakeStage_self (S : Sched) (p time : Nat) :
    ((wakeTime (wakeClear S p) p time).procs p).pacingnext = (S.procs p).pacingnext ∧
    ((wakeTime (wakeClear S p) p time).procs p).lock = (S.procs p).lock ∧
    ((wakeTime (wakeClear S p) p time).procs p).state = (S.procs p).state := by
  have h1 : ((wakeClear S p).procs p).pacingnext = (S.procs p).pacingnext ∧
      ((wakeClear S p).procs p).lock = (S.procs p).lock ∧
      ((wakeClear S p).procs p).state = (S.procs p).state := by
    unfold wakeClear
    split
    · exact ⟨rfl, rfl, rfl⟩
    · split
      · rw [upd_same]; exact ⟨rfl, rfl, rfl⟩
      · exact ⟨rfl, rfl, rfl⟩
  unfold wakeTime
  split
  · rw [upd_same]; exact h1
  · exact h1

theorem wakeStage_globals (S : Sched) (p time : Nat) :
    (wakeTime (wakeClear S p) p time).pacinghead = S.pacinghead ∧
    (wakeTime (wakeClear S p) p time).pacingtail = S.pacingtail ∧
    (wakeTime (wakeClear S p) p time).proc_net = S.proc_net := by
  have h1 : (wakeClear S p).pacinghead = S.pacinghead ∧
      (wakeClear S p).pacingtail = S.pacingtail ∧ (wakeClear S p).proc_net = S.proc_net := by
    unfold wakeClear
    split
    · exact ⟨rfl, rfl, rfl⟩
    · split <;> exact ⟨rfl, rfl, rfl⟩
  unfold wakeTime
  split
  · exact h1
  · exact h1

theorem proc_ready_globals (S : Sched) (p : Nat) :
    (proc_ready S p).pacinghead = S.pacinghead ∧ (proc_ready S p).pacingtail = S.pacingtail ∧
    (proc_ready S p).proc_net = S.proc_net := by
  unfold proc_ready
  simp only [upd_readytail]
  cases S.readytail <;> exact ⟨rfl, rfl, rfl⟩

theorem proc_wake_spec (S : Sched) (p time : Nat)
    (hl : (S.procs p).lock = true) (hs : (S.procs p).state = PROC_WAIT) :
    ∃ S1, proc_wake S p time = some S1 ∧
      ((S1.procs p).state = PROC_READY ↔ wakeable S time p) ∧
      ((S1.procs p).state = PROC_READY ∨ (S1.procs p).state = PROC_WAIT) ∧
      S1.pacinghead = S.pacinghead ∧ S1.pacingtail = S.pacingtail ∧
      S1.proc_net = S.proc_net ∧
      (∀ q, (S1.procs q).pacingnext = (S.procs q).pacingnext ∧
        (S1.procs q).lock = (S.procs q).lock) ∧
      (∀ q, q ≠ p → (S1.procs q).state = (S.procs q).state ∧
        (S1.procs q).waitproc = (S.procs q).waitproc ∧ (S1.procs q).ts = (S.procs q).ts) := by
  have h1 := wakeClear_waitproc S p
  have h2 := wakeClear_keeps S p
  have h3 := wakeTime_ts (wakeClear S p) p time
  have h4 := wakeTime_keeps (wakeClear S p) p time
  have h5 := wakeStage_self S p time
  have h6 := wakeStage_globals S p time
  rw [h2.1] at h3
  unfold proc_wake wakeable
  simp only [hl, hs, not_true_eq_false, if_false, ne_eq]
  by_cases hc : ((wakeTime (wakeClear S p) p time).procs p).waitproc = none ∧
      ((wakeTime (wakeClear S p) p time).procs p).ts = 0
  · rw [if_pos hc]
    have hg := proc_ready_globals (wakeTime (wakeClear S p) p time) p
    refine ⟨_, rfl, ?_, Or.inl (proc_ready_state _ _), hg.1.trans h6.1, hg.2.1.trans h6.2.1,
      hg.2.2.trans h6.2.2, ?_, ?_⟩
    · simp only [proc_ready_state, true_iff]
      exact ⟨h1.mp (h4.1 ▸ hc.1), h3.mp hc.2⟩
    · intro q
      by_cases hq : q = p
      · subst hq; rw [proc_ready_self]; exact ⟨h5.1, h5.2.1⟩
      · rw [proc_ready_other _ _ _ hq, ← wakeStage_other S p time q hq]; exact ⟨rfl, rfl⟩
    · intro q hq
      rw [proc_ready_other _ _ _ hq, ← wakeStage_other S p time q hq]; exact ⟨rfl, rfl, rfl⟩
  · rw [if_neg hc]
    refine ⟨_, rfl, ?_, Or.inr (by rw [h4.2, h2.2, hs]), h6.1, h6.2.1, h6.2.2, ?_, ?_⟩
    · rw [h4.2, h2.2, hs]
      constructor
      · intro h; exact absurd h (by decide)
      · intro h; exact absurd ⟨h4.1.trans (h1.mpr h.1), h3.mpr h.2⟩ hc
    · intro q
      by_cases hq : q = p
      · subst hq; exact ⟨h5.1, h5.2.1⟩
      · rw [wakeStage_other S p time q hq]; exact ⟨rfl, rfl⟩
    · intro q hq
      rw [wakeStage_other S p time q hq]; exact ⟨rfl, rfl, rfl⟩

theorem pacingSet_procs (S : Sched) (l : Link) (v : Option Nat) (q : Nat) :
    (pacingSet S l v).procs q =
      if l = Link.next q then { S.procs q with pacingnext := v } else S.procs q := by
  cases l with
  | head => simp [pacingSet]
  | next r =>
    by_cases h : q = r
    · subst h; simp [pacingSet, Sched.upd]
    · have h2 : r ≠ q := fun e => h e.symm
      simp [pacingSet, Sched.upd, h, h2]

theorem pacingSet_globals (S : Sched) (l : Link) (v : Option Nat) :
    (pacingSet S l v).pacingtail = S.pacingtail ∧ (pacingSet S l v).proc_net = S.proc_net ∧
    (pacingSet S l v).pacinghead = if l = Link.head then v else S.pacinghead := by
  cases l <;> simp [pacingSet]

theorem wakeable_lock (S : Sched) (time p : Nat) :
    wakeable (S.upd p (fun r => { r with lock := true })) time p ↔ wakeable S time p := by
  have hst : ∀ q, ((S.upd p (fun r => { r with lock := true })).procs q).state
      = (S.procs q).state := by
    intro q
    by_cases h : q = p
    · subst h; rw [upd_same]
    · rw [upd_other _ _ _ _ h]
  unfold wakeable awaitDone
  rw [upd_same]
  simp only [upd_proc_net, hst]

theorem wakeAllBody_spec (S : Sched) (pp : Link) (p time : Nat)
    (hl : (S.procs p).lock = false) (hs : (S.procs p).state = PROC_WAIT)
    (ha : pp = Link.head → S.pacingtail = Link.next p → (S.procs p).pacingnext = none) :
    ∃ S5 pp1, wakeAllBody time S pp p = some (S5, pp1) ∧ S5.proc_net = S.proc_net ∧
      (∀ q, q ≠ p → (S5.procs q).state = (S.procs q).state ∧
        (S5.procs q).waitproc = (S.procs q).waitproc ∧ (S5.procs q).ts = (S.procs q).ts ∧
        (S5.procs q).lock = (S.procs q).lock) ∧
      (wakeable S time p → pp1 = pp ∧ (S5.procs p).state = PROC_READY ∧
        (S5.procs p).pacingnext = none ∧
        S5.pacinghead = (if pp = Link.head then (S.procs p).pacingnext else S.pacinghead) ∧
        S5.pacingtail = (if pp = Link.head ∧ S.pacingtail = Link.next p then Link.head
                          else S.pacingtail) ∧
        ∀ q, q ≠ p → (S5.procs q).pacingnext =
          if pp = Link.next q then (S.procs p).pacingnext else (S.procs q).pacingnext) ∧
      (¬ wakeable S time p → pp1 = Link.next p ∧ (S5.procs p).state = PROC_WAIT ∧
        S5.pacinghead = S.pacinghead ∧ S5.pacingtail = S.pacingtail ∧
        ∀ q, (S5.procs q).pacingnext = (S.procs q).pacingnext) := by
  obtain ⟨S1, e1, f1, f2, f3, f4, f5, f6, f7⟩ :=
    proc_wake_spec (S.upd p (fun r => { r with lock := true })) p time
      (by rw [upd_same]) (by rw [upd_same]; exact hs)
  rw [wakeable_lock] at f1
  simp only [upd_pacinghead, upd_pacingtail, upd_proc_net] at f3 f4 f5
  have g6 : ∀ q, (S1.procs q).pacingnext = (S.procs q).pacingnext := by
    intro q
    rw [(f6 q).1]
    by_cases h : q = p
    · subst h; rw [upd_same]
    · rw [upd_other _ _ _ _ h]
  have g7 : ∀ q, q ≠ p → (S1.procs q).state = (S.procs q).state ∧
      (S1.procs q).waitproc = (S.procs q).waitproc ∧ (S1.procs q).ts = (S.procs q).ts ∧
      (S1.procs q).lock = (S.procs q).lock := by
    intro q h
    have := f7 q h
    rw [upd_other _ _ _ _ h] at this
    refine ⟨this.1, this.2.1, this.2.2, ?_⟩
    rw [(f6 q).2, upd_other _ _ _ _ h]
  unfold wakeAllBody
  simp only [hl, Bool.false_eq_true, if_false, e1]
  by_cases hw : wakeable S time p
  · have hr : (S1.procs p).state = PROC_READY := f1.mpr hw
    simp only [hr, if_true]
    have gs := pacingSet_globals S1 pp (S1.procs p).pacingnext
    simp only [gs.1, f4]
    by_cases hc : pp = Link.head ∧ S.pacingtail = Link.next p
    · have hh : (pacingSet S1 pp (S1.procs p).pacingnext).pacinghead = none := by
        rw [gs.2.2, if_pos hc.1, g6]
        exact ha hc.1 hc.2
      rw [if_pos hc]
      simp only [hh, ne_eq, not_true_eq_false, if_false]
      refine ⟨_, _, rfl, ?_, ?_, fun _ => ⟨rfl, ?_, ?_, ?_, ?_, ?_⟩, fun h => absurd hw h⟩
      · exact gs.2.1.trans f5
      · intro q hq
        rw [upd_other _ _ _ _ hq]
        show ((pacingSet S1 pp (S1.procs p).pacingnext).procs q).state = _ ∧ _
        rw [pacingSet_procs]
        split
        · exact g7 q hq
        · exact g7 q hq
      · rw [upd_same]
        show ((pacingSet S1 pp (S1.procs p).pacingnext).procs p).state = _
        rw [pacingSet_procs]
        split
        · exact hr
        · exact hr
      · rw [upd_same]
      · show (none : Option Nat) = _
        rw [if_pos hc.1]
        exact (ha hc.1 hc.2).symm
      · show Link.head = _
        rw [if_pos hc]
      · intro q hq
        rw [upd_other _ _ _ _ hq]
        show ((pacingSet S1 pp (S1.procs p).pacingnext).procs q).pacingnext = _
        rw [pacingSet_procs, g6 p]
        split
        · rfl
        · exact g6 q
    · rw [if_neg hc]
      refine ⟨_, _, rfl, ?_, ?_, fun _ => ⟨rfl, ?_, ?_, ?_, ?_, ?_⟩, fun h => absurd hw h⟩
      · rw [upd_proc_net]; exact gs.2.1.trans f5
      · intro q hq
        rw [upd_other _ _ _ _ hq, pacingSet_procs]
        split
        · exact g7 q hq
        · exact g7 q hq
      · rw [upd_same, pacingSet_procs]
        split
        · exact hr
        · exact hr
      · rw [upd_same]
      · rw [upd_pacinghead, gs.2.2, g6 p, f3]
      · rw [upd_pacingtail, gs.1, f4, if_neg hc]
      · intro q hq
        rw [upd_other _ _ _ _ hq, pacingSet_procs, g6 p]
        split
        · rfl
        · exact g6 q
  · have hr : (S1.procs p).state ≠ PROC_READY := fun h => hw (f1.mp h)
    have hwt : (S1.procs p).state = PROC_WAIT := f2.resolve_left hr
    simp only [hr, if_false]
    refine ⟨_, _, rfl, ?_, ?_, fun h => absurd h hw, fun _ => ⟨rfl, ?_, ?_, ?_, ?_⟩⟩
    · rw [upd_proc_net]; exact f5
    · intro q hq
      rw [upd_other _ _ _ _ hq]
      exact g7 q hq
    · rw [upd_same]; exact hwt
    · rw [upd_pacinghead]; exact f3
    · rw [upd_pacingtail]; exact f4
    · intro q
      by_cases h : q = p
      · subst h; rw [upd_same]; exact g6 q
      · rw [upd_other _ _ _ _ h]; exact g6 q

theorem pacingAt_eq (S : Sched) (l : Link) :
    pacingAt S l = linkVal (fun q => (S.procs q).pacingnext) S.pacinghead l := by
  cases l <;> rfl

theorem tailLink_ne_nil : ∀ l : List Nat, l ≠ [] → ∃ q, tailLink l = Link.next q ∧ q ∈ l
  | [], h => absurd rfl h
  | [a], _ => ⟨a, rfl, List.mem_cons_self _ _⟩
  | a :: b :: l, _ => by
    obtain ⟨q, h1, h2⟩ := tailLink_ne_nil (b :: l) (by simp)
    exact ⟨q, by rw [tailLink_cons_cons]; exact h1, List.mem_cons_of_mem _ h2⟩

theorem tailLink_append : ∀ (k r : List Nat), r ≠ [] → tailLink (k ++ r) = tailLink r
  | [], r, _ => rfl
  | [a], r, hr => by
    cases r with
    | nil => exact absurd rfl hr
    | cons b t => rfl
  | a :: b :: k, r, hr => by
    have := tailLink_append (b :: k) r hr
    simpa [tailLink_cons_cons] using this

theorem Chain_at_tail (next : Nat → Option Nat) :
    ∀ (kept : List Nat) (h : Option Nat) (r : List Nat), Chain next h (kept ++ r) →
      Chain next (linkVal next h (tailLink kept)) r
  | [], h, r, hc => hc
  | [a], h, r, hc => hc.2
  | a :: b :: k, h, r, hc => by
    have ih := Chain_at_tail next (b :: k) (next a) r hc.2
    rw [tailLink_cons_cons]
    obtain ⟨q, hq, _⟩ := tailLink_ne_nil (b :: k) (by simp)
    rw [hq] at ih ⊢
    exact ih

theorem Chain_remove (next next1 : Nat → Option Nat) (p : Nat) (r : List Nat) :
    ∀ (kept : List Nat) (h : Option Nat), Chain next h (kept ++ p :: r) →
      (kept ++ p :: r).Nodup →
      (∀ q ∈ kept ++ r, tailLink kept ≠ Link.next q → next1 q = next q) →
      (∀ q, tailLink kept = Link.next q → next1 q = next p) →
      Chain next1 (if kept = [] then next p else h) (kept ++ r)
  | [], h, hc, hd, hk, _ => by
    simp only [if_true, List.nil_append]
    refine Chain_congr next next1 r _ ?_ hc.2
    intro q hq
    exact hk q hq (by simp [tailLink])
  | [a], h, hc, hd, hk, ht => by
    simp only [List.cons_ne_nil, if_false, List.singleton_append]
    refine ⟨hc.1, ?_⟩
    rw [ht a rfl]
    refine Chain_congr next next1 r _ ?_ hc.2.2
    intro q hq
    apply hk q (by simp [hq])
    simp only [tailLink, ne_eq, Link.next.injEq]
    intro e
    subst e
    simp only [List.singleton_append, List.nodup_cons, List.mem_cons] at hd
    exact hd.1 (Or.inr hq)
  | a :: b :: k, h, hc, hd, hk, ht => by
    simp only [List.cons_ne_nil, if_false, List.cons_append]
    refine ⟨hc.1, ?_⟩
    have hd2 : ((b :: k) ++ p :: r).Nodup := by
      have := hd
      simp only [List.cons_append, List.nodup_cons] at this ⊢
      exact this.2
    have ha : a ∉ (b :: k) := by
      have := hd
      simp only [List.cons_append, List.nodup_cons, List.mem_cons, List.mem_append] at this
      intro hm
      simp only [List.mem_cons] at hm
      apply this.1
      rcases hm with hm | hm
      · exact Or.inl hm
      · exact Or.inr (Or.inl hm)
    have hna : next1 a = next a := by
      apply hk a (by simp)
      rw [tailLink_cons_cons]
      intro he
      exact ha (tailLink_mem a _ he)
    rw [hna]
    have ih := Chain_remove next next1 p r (b :: k) (next a) hc.2 hd2
      (fun q hq hq2 => hk q (by
          simp only [List.cons_append, List.mem_cons] at hq ⊢
          exact Or.inr hq) (by rw [tailLink_cons_cons]; exact hq2))
      (fun q hq => ht q (by rw [tailLink_cons_cons]; exact hq))
    simpa using ih

theorem tailLink_cons_eq (p : Nat) (rest : List Nat) (hd : (p :: rest).Nodup)
    (h : tailLink (p :: rest) = Link.next p) : rest = [] := by
  cases rest with
  | nil => rfl
  | cons b t =>
    rw [tailLink_cons_cons] at h
    exact absurd (tailLink_mem p _ h) (List.nodup_cons.mp hd).1

theorem wakeable_inv (S0 S : Sched) (time p : Nat) (hn : S.proc_net = S0.proc_net)
    (hst : ∀ q, ((S.procs q).state = PROC_STOP ↔ (S0.procs q).state = PROC_STOP) ∧
        ((S.procs q).state = PROC_BLOCK ↔ (S0.procs q).state = PROC_BLOCK))
    (hw : (S.procs p).waitproc = (S0.procs p).waitproc) (hts : (S.procs p).ts = (S0.procs p).ts) :
    wakeable S time p ↔ wakeable S0 time p := by
  unfold wakeable awaitDone
  rw [hw, hts, hn]
  cases (S0.procs p).waitproc with
  | none => exact Iff.rfl
  | some cp =>
    simp only [(hst cp).1, (hst cp).2]

theorem wakeAllBody_inv (S0 S : Sched) (kept : List Nat) (p : Nat) (rest : List Nat)
    (time : Nat) (h : PacingInv S0 S kept (p :: rest)) :
    ∃ S1 pp1, wakeAllBody time S (tailLink kept) p = some (S1, pp1) ∧
      (wakeable S0 time p → pp1 = tailLink kept ∧ PacingInv S0 S1 kept rest ∧
        (S1.procs p).state = PROC_READY ∧ (S1.procs p).pacingnext = none) ∧
      (¬ wakeable S0 time p → pp1 = tailLink (kept ++ [p]) ∧
        PacingInv S0 S1 (kept ++ [p]) rest ∧ (S1.procs p).state = PROC_WAIT) ∧
      (∀ q, q ≠ p → (S1.procs q).state = (S.procs q).state ∧
        (q ∉ kept → (S1.procs q).pacingnext = (S.procs q).pacingnext)) := by
  obtain ⟨hc, hd, ht, hn, hst, hr⟩ := h
  obtain ⟨hps, hpl, hpw, hpt⟩ := hr p (List.mem_cons_self _ _)
  have ht1 : S.pacingtail = tailLink (kept ++ p :: rest) := ht (by simp)
  have hdk : (p :: rest).Nodup := (List.nodup_append.mp hd).2.1
  have hpr : p ∉ rest := (List.nodup_cons.mp hdk).1
  have hpk : p ∉ kept := by
    intro hm
    exact (List.nodup_append.mp hd).2.2 hm (List.mem_cons_self _ _)
  have hd2 : (kept ++ rest).Nodup := by
    rw [List.nodup_append] at hd ⊢
    refine ⟨hd.1, (List.nodup_cons.mp hd.2.1).2, ?_⟩
    intro a ha hb
    exact hd.2.2 ha (List.mem_cons_of_mem _ hb)
  have hcond : tailLink kept = Link.head → S.pacingtail = Link.next p → rest = [] := by
    intro h1 h2
    have hk : kept = [] := (tailLink_eq_head kept).mp h1
    subst hk
    rw [ht1] at h2
    exact tailLink_cons_eq p rest hdk h2
  have ha : tailLink kept = Link.head → S.pacingtail = Link.next p →
      (S.procs p).pacingnext = none := by
    intro h1 h2
    have hk : kept = [] := (tailLink_eq_head kept).mp h1
    have hre := hcond h1 h2
    subst hk; subst hre
    exact hc.2
  have hwk := wakeable_inv S0 S time p hn hst hpw hpt
  obtain ⟨S5, pp1, e, g1, g2, g3, g4⟩ := wakeAllBody_spec S (tailLink kept) p time hpl hps ha
  rw [hwk] at g3 g4
  have hstate : ∀ q, q ≠ p → (S5.procs q).state = (S.procs q).state := fun q hq => (g2 q hq).1
  have hnotsb : (S0.procs p).state ≠ PROC_STOP ∧ (S0.procs p).state ≠ PROC_BLOCK := by
    constructor
    · intro h0
      have := (hst p).1.mpr h0
      rw [hps] at this
      exact absurd this (by decide)
    · intro h0
      have := (hst p).2.mpr h0
      rw [hps] at this
      exact absurd this (by decide)
  have hst5 : ∀ s : proc_state, (s = PROC_READY ∨ s = PROC_WAIT) → (S5.procs p).state = s →
      ∀ q, ((S5.procs q).state = PROC_STOP ↔ (S0.procs q).state = PROC_STOP) ∧
        ((S5.procs q).state = PROC_BLOCK ↔ (S0.procs q).state = PROC_BLOCK) := by
    intro s hs h5 q
    by_cases hq : q = p
    · subst hq
      rw [h5]
      constructor
      · constructor
        · intro e0
          rcases hs with hs | hs <;> (rw [hs] at e0; exact absurd e0 (by decide))
        · intro e0; exact absurd e0 hnotsb.1
      · constructor
        · intro e0
          rcases hs with hs | hs <;> (rw [hs] at e0; exact absurd e0 (by decide))
        · intro e0; exact absurd e0 hnotsb.2
    · rw [hstate q hq]; exact hst q
  have hrest5 : ∀ q ∈ rest, (S5.procs q).state = PROC_WAIT ∧ (S5.procs q).lock = false ∧
      (S5.procs q).waitproc = (S0.procs q).waitproc ∧ (S5.procs q).ts = (S0.procs q).ts := by
    intro q hq
    have hqp : q ≠ p := fun e0 => hpr (e0 ▸ hq)
    obtain ⟨a1, a2, a3, a4⟩ := g2 q hqp
    obtain ⟨b1, b2, b3, b4⟩ := hr q (List.mem_cons_of_mem _ hq)
    exact ⟨a1.trans b1, a4.trans b2, a2.trans b3, a3.trans b4⟩
  refine ⟨S5, pp1, e, ?_, ?_, ?_⟩
  · intro hw
    obtain ⟨k1, k2, k3, k4, k5, k6⟩ := g3 hw
    refine ⟨k1, ⟨?_, hd2, ?_, g1.trans hn, hst5 _ (Or.inl rfl) k2, hrest5⟩, k2, k3⟩
    · have := Chain_remove (fun q => (S.procs q).pacingnext)
        (fun q => (S5.procs q).pacingnext) p rest kept S.pacinghead hc hd ?_ ?_
      · rw [k4]
        simp only [tailLink_eq_head]
        exact this
      · intro q hq hq2
        have hqp : q ≠ p := by
          intro e0
          subst e0
          rcases List.mem_append.mp hq with hm | hm
          · exact hpk hm
          · exact hpr hm
        show (S5.procs q).pacingnext = (S.procs q).pacingnext
        rw [k6 q hqp, if_neg hq2]
      · intro q hq
        have hqp : q ≠ p := fun e0 => hpk (e0 ▸ tailLink_mem q kept hq)
        show (S5.procs q).pacingnext = (S.procs p).pacingnext
        rw [k6 q hqp, if_pos hq]
    · intro hne
      have hc0 : ¬ (tailLink kept = Link.head ∧ S.pacingtail = Link.next p) :=
        fun hh => hne (hcond hh.1 hh.2)
      rw [k5, if_neg hc0, ht1, tailLink_append kept _ (by simp),
        tailLink_append kept rest hne]
      cases rest with
      | nil => exact absurd rfl hne
      | cons b t => rfl
  · intro hw
    obtain ⟨k1, k2, k3, k4, k5⟩ := g4 hw
    refine ⟨by rw [k1, tailLink_snoc], ⟨?_, ?_, ?_, g1.trans hn, hst5 _ (Or.inr rfl) k2, hrest5⟩,
      k2⟩
    · rw [List.append_assoc, k3]
      refine Chain_congr _ _ _ _ ?_ hc
      intro q _
      exact k5 q
    · rw [List.append_assoc]; exact hd
    · intro hne
      rw [List.append_assoc, k4]
      exact ht1
  · intro q hq
    refine ⟨hstate q hq, ?_⟩
    intro hqk
    by_cases hw : wakeable S0 time p
    · obtain ⟨k1, k2, k3, k4, k5, k6⟩ := g3 hw
      rw [k6 q hq, if_neg]
      intro e0
      exact hqk (tailLink_mem q kept e0)
    · exact (g4 hw).2.2.2.2 q

theorem wakeAllLoop_inv (S0 : Sched) (time : Nat) :
    ∀ (rest kept : List Nat) (S : Sched), PacingInv S0 S kept rest →
      ∃ S1, wakeAllLoop time rest.length S (tailLink kept) = some S1 ∧
        Chain (fun q => (S1.procs q).pacingnext) S1.pacinghead
          (kept ++ rest.filter (fun p => decide (¬ wakeable S0 time p))) ∧
        (∀ p ∈ rest, (wakeable S0 time p →
            (S1.procs p).state = PROC_READY ∧ (S1.procs p).pacingnext = none) ∧
          (¬ wakeable S0 time p → (S1.procs p).state = PROC_WAIT)) ∧
        (∀ q, q ∉ rest → (S1.procs q).state = (S.procs q).state ∧
          (q ∉ kept → (S1.procs q).pacingnext = (S.procs q).pacingnext))
  | [], kept, S, h => by
    have hat := Chain_at_tail _ kept _ [] h.1
    rw [← pacingAt_eq] at hat
    have hat2 : pacingAt S (tailLink kept) = none := hat
    refine ⟨S, ?_, ?_, ?_, ?_⟩
    · simp only [List.length_nil, wakeAllLoop, hat2]
    · simpa using h.1
    · intro p hp; exact absurd hp (List.not_mem_nil _)
    · intro q _; exact ⟨rfl, fun _ => rfl⟩
  | p :: r, kept, S, h => by
    have hat := Chain_at_tail _ kept _ (p :: r) h.1
    rw [← pacingAt_eq] at hat
    have hat2 : pacingAt S (tailLink kept) = some p := hat.1
    have hdk : (p :: r).Nodup := (List.nodup_append.mp h.2.1).2.1
    have hpr : p ∉ r := (List.nodup_cons.mp hdk).1
    have hpk : p ∉ kept := by
      intro hm
      exact (List.nodup_append.mp h.2.1).2.2 hm (List.mem_cons_self _ _)
    obtain ⟨S1, pp1, e, b1, b2, b3⟩ := wakeAllBody_inv S0 S kept p r time h
    by_cases hw : wakeable S0 time p
    · obtain ⟨c1, c2, c3, c4⟩ := b1 hw
      obtain ⟨S2, d1, d2, d3, d4⟩ := wakeAllLoop_inv S0 time r kept S1 c2
      refine ⟨S2, ?_, ?_, ?_, ?_⟩
      · simp only [List.length_cons, wakeAllLoop, hat2, e, c1, d1]
      · have hf : (p :: r).filter (fun p => decide (¬ wakeable S0 time p))
            = r.filter (fun p => decide (¬ wakeable S0 time p)) := by
          rw [List.filter_cons_of_neg]
          simp [hw]
        rw [hf]; exact d2
      · intro q hq
        rcases List.mem_cons.mp hq with e0 | hm
        · subst e0
          obtain ⟨k1, k2⟩ := d4 q hpr
          refine ⟨fun _ => ⟨k1.trans c3, (k2 hpk).trans c4⟩, fun hn => absurd hw hn⟩
        · exact d3 q hm
      · intro q hq
        have hqp : q ≠ p := fun e0 => hq (e0 ▸ List.mem_cons_self _ _)
        have hqr : q ∉ r := fun hm => hq (List.mem_cons_of_mem _ hm)
        obtain ⟨k1, k2⟩ := d4 q hqr
        obtain ⟨m1, m2⟩ := b3 q hqp
        exact ⟨k1.trans m1, fun hk => (k2 hk).trans (m2 hk)⟩
    · obtain ⟨c1, c2, c3⟩ := b2 hw
      obtain ⟨S2, d1, d2, d3, d4⟩ := wakeAllLoop_inv S0 time r (kept ++ [p]) S1 c2
      refine ⟨S2, ?_, ?_, ?_, ?_⟩
      · simp only [List.length_cons, wakeAllLoop, hat2, e, c1, d1]
      · have hf : (p :: r).filter (fun p => decide (¬ wakeable S0 time p))
            = p :: r.filter (fun p => decide (¬ wakeable S0 time p)) := by
          rw [List.filter_cons_of_pos]
          simp [hw]
        rw [hf]
        rw [List.append_assoc] at d2
        exact d2
      · intro q hq
        rcases List.mem_cons.mp hq with e0 | hm
        · subst e0
          obtain ⟨k1, _⟩ := d4 q hpr
          exact ⟨fun h0 => absurd h0 hw, fun _ => k1.trans c3⟩
        · exact d3 q hm
      · intro q hq
        have hqp : q ≠ p := fun e0 => hq (e0 ▸ List.mem_cons_self _ _)
        have hqr : q ∉ r := fun hm => hq (List.mem_cons_of_mem _ hm)
        obtain ⟨k1, k2⟩ := d4 q hqr
        obtain ⟨m1, m2⟩ := b3 q hqp
        refine ⟨k1.trans m1, fun hk => (k2 ?_).trans (m2 hk)⟩
        intro hm
        rcases List.mem_append.mp hm with h1 | h1
        · exact hk h1
        · exact hqp (List.mem_singleton.mp h1)

/-- C19 (amended): let the pacing list of `S` be the well-formed list `l` of
unlocked processes in WAIT.  Then `proc_wake_all(time)` returns, and exactly the
processes of `l` that satisfy the wake condition of `proc_wake` (the awaited
process is done and the time is past the timestamp) are made READY and
unlinked; the others, among them every process whose awaited child has not
stopped, stay in WAIT and stay on the list, in their order. -/
theorem proc_wake_all_wakes (S : Sched) (l : List Nat) (time : Nat) (hq : PacingQ S l)
    (hw : ∀ p ∈ l, (S.procs p).state = PROC_WAIT ∧ (S.procs p).lock = false) :
    ∃ S1, proc_wake_all l.length S time = some S1 ∧
      Chain (fun q => (S1.procs q).pacingnext) S1.pacinghead
        (l.filter (fun p => decide (¬ wakeable S time p))) ∧
      ∀ p ∈ l, (wakeable S time p →
          (S1.procs p).state = PROC_READY ∧ (S1.procs p).pacingnext = none) ∧
        (¬ wakeable S time p → (S1.procs p).state = PROC_WAIT) := by
  have hinv : PacingInv S S [] l :=
    ⟨hq.1, hq.2.2, fun _ => hq.2.1, rfl, fun _ => ⟨Iff.rfl, Iff.rfl⟩,
      fun p hp => ⟨(hw p hp).1, (hw p hp).2, rfl, rfl⟩⟩
  obtain ⟨S1, h1, h2, h3, _⟩ := wakeAllLoop_inv S time l [] S hinv
  exact ⟨S1, h1, by simpa using h2, h3⟩

/-- Witness for C19 (amended): the list of `exPaced` at time 10. -/
theorem proc_wake_all_wakes_witness :
    ∃ S1, proc_wake_all [1, 2].length exPaced 10 = some S1 ∧
      Chain (fun q => (S1.procs q).pacingnext) S1.pacinghead
        ([1, 2].filter (fun p => decide (¬ wakeable exPaced 10 p))) ∧
      ∀ p ∈ [1, 2], (wakeable exPaced 10 p →
          (S1.procs p).state = PROC_READY ∧ (S1.procs p).pacingnext = none) ∧
        (¬ wakeable exPaced 10 p → (S1.procs p).state = PROC_WAIT) :=
  proc_wake_all_wakes exPaced [1, 2] 10 ⟨⟨rfl, rfl, rfl⟩, rfl, by decide⟩ (by decide)

/-- C19, counterexample: in `scChildRuns 5` process 1 is on the pacing list with
timestamp 5 and its child 2 runs; after `proc_wake_all(10)` process 1 is still in
WAIT and still the head of the pacing list (its timestamp is now 0). -/
theorem proc_wake_all_keeps_waiting_parent :
    (scChildRuns 5).map (fun S => (S.pacinghead, (S.procs 1).state, (S.procs 1).ts,
        (S.procs 2).state)) = some (some 1, PROC_WAIT, 5, PROC_RUN) ∧
    ((scChildRuns 5).bind (fun S => proc_wake_all 4 S 10)).map
        (fun S => (S.pacinghead, (S.procs 1).state, (S.procs 1).ts, S.readyhead))
      = some (some 1, PROC_WAIT, 0, none) := by
  decide

theorem ulen_of_nonneg (len : Int) (h0 : 0 ≤ len) (h1 : len < 2 ^ 31) (n : Nat)
    (h : len < n) : ulen len < n := by
  unfold ulen
  have h2 : len % 2 ^ 64 = len := Int.emod_eq_of_lt h0 (by omega)
  rw [h2]
  omega

/-- C21: a malformed packet is dropped without effect.  If the packet (of a length
`0 <= len < 2^31`) is shorter than the common header, or its destination MAC is
not this node's, or its source MAC is outside the cluster, or its EtherType
field is not the reserved one, or its length is below the minimum of its
message type, or its type is unknown, then `net_rx` selects no handler and
returns the state unchanged, whatever the handlers are. -/
theorem net_rx_drops_malformed {σ : Type} (C : NetCfg) (net_mac : List Nat)
    (H : MsgKind → σ → σ) (N : σ) (h : net_hdr) (len : Int) (h0 : 0 ≤ len) (h1 : len < 2 ^ 31)
    (hbad : len < C.sz_hdr ∨ h.dst.take 6 ≠ net_mac.take 6 ∨
      (h.src.take 5 ≠ net_mac.take 5 ∨ h.src.getD 5 0 < 1 ∨ h.src.getD 5 0 > C.NET_MAXNODES) ∨
      h.ethtype ≠ htons NET_ETHERTYPE ∨
      (∃ k, tagOf C h.type = some k ∧ len < minLen C k) ∨
      tagOf C h.type = none) :
    net_rx_dispatch C net_mac h len = none ∧ net_rx C net_mac H N h len = N := by
  have hd : net_rx_dispatch C net_mac h len = none := by
    unfold net_rx_dispatch
    by_cases c1 : ulen len < C.sz_hdr
    · rw [if_pos c1]
    rw [if_neg c1]
    by_cases c2 : h.dst.take 6 ≠ net_mac.take 6
    · rw [if_pos c2]
    rw [if_neg c2]
    by_cases c3 : h.src.take 5 ≠ net_mac.take 5 ∨ h.src.getD 5 0 < 1 ∨
        h.src.getD 5 0 > C.NET_MAXNODES
    · rw [if_pos c3]
    rw [if_neg c3]
    by_cases c4 : h.ethtype ≠ htons NET_ETHERTYPE
    · rw [if_pos c4]
    rw [if_neg c4]
    rcases hbad with hb | hb | hb | hb | hb | hb
    · exact absurd (ulen_of_nonneg len h0 h1 _ hb) c1
    · exact absurd hb c2
    · exact absurd hb c3
    · exact absurd hb c4
    · obtain ⟨k, hk, hl⟩ := hb
      rw [hk]
      simp only
      rw [if_pos (ulen_of_nonneg len h0 h1 _ hl)]
    · rw [hb]
  exact ⟨hd, by unfold net_rx; rw [hd]⟩

/-- Witness for C21: a RECVRP header (type 8) with a length of 20 bytes, below
`sizeof(net_recvrp)`; the handlers count the calls. -/
theorem net_rx_drops_malformed_witness :
    net_rx_dispatch exCfg exMac (exHdr 8) 20 = none ∧
      net_rx exCfg exMac (fun _ n => n + 1) 0 (exHdr 8) 20 = 0 :=
  net_rx_drops_malformed exCfg exMac (fun _ n => n + 1) 0 (exHdr 8) 20 (by decide) (by decide)
    (Or.inr (Or.inr (Or.inr (Or.inr (Or.inl ⟨MsgKind.RECVRP, by decide, by decide⟩)))))

theorem net_rx_dispatch_accepts :
    net_rx_dispatch exCfg exMac (exHdr 8) 64 = some MsgKind.RECVRP := by
  decide

theorem linkAfter_snoc : ∀ (l : List Nat) (pp : Link) (p : Nat),
    linkAfter pp (l ++ [p]) = Link.next p
  | [], _, _ => rfl
  | a :: t, _, p => by
    simp only [List.cons_append, linkAfter]
    exact linkAfter_snoc t (Link.next a) p

theorem linkAfter_head : ∀ (l : List Nat), linkAfter Link.head l = tailLink l := by
  intro l
  induction l using List.reverseRecOn with
  | nil => rfl
  | append_singleton l a _ => rw [linkAfter_snoc, tailLink_snoc]

theorem Chain_linkVal_after (next : Nat → Option Nat) (h : Option Nat) :
    ∀ (l1 : List Nat) (pp : Link) (r : List Nat), Chain next (linkVal next h pp) (l1 ++ r) →
      Chain next (linkVal next h (linkAfter pp l1)) r
  | [], _, _, hc => hc
  | a :: t, pp, r, hc => by
    simp only [linkAfter]
    exact Chain_linkVal_after next h t (Link.next a) r hc.2

theorem migrFind_found (N : Net) (home p : Nat) (l2 : List Nat) :
    ∀ (l1 : List Nat) (pp : Link) (k : Nat),
      Chain (fun q => (N.proc q).migrnext)
        (linkVal (fun q => (N.proc q).migrnext) N.net_migrlist pp) (l1 ++ p :: l2) →
      (∀ q ∈ l1, (N.proc q).home ≠ home) → (N.proc p).home = home →
      migrFind N home (l1.length + 1 + k) pp = some (some (p, linkAfter pp l1))
  | [], pp, k, hc, _, hp => by
    have h1 : linkVal (fun q => (N.proc q).migrnext) N.net_migrlist pp = some p := hc.1
    simp only [List.length_nil, Nat.zero_add, Nat.add_comm 1 k, migrFind, h1, hp, if_true,
      linkAfter]
  | a :: t, pp, k, hc, hn, hp => by
    have h1 : linkVal (fun q => (N.proc q).migrnext) N.net_migrlist pp = some a := hc.1
    have ha : (N.proc a).home ≠ home := hn a (List.mem_cons_self _ _)
    have e : (a :: t).length + 1 + k = (t.length + 1 + k) + 1 := by
      simp only [List.length_cons]; omega
    rw [e]
    simp only [migrFind, h1, ha, if_false, linkAfter]
    exact migrFind_found N home p l2 t (Link.next a) k hc.2
      (fun q hq => hn q (List.mem_cons_of_mem _ hq)) hp

theorem migrFind_none (N : Net) (home : Nat) :
    ∀ (l : List Nat) (pp : Link) (k : Nat),
      Chain (fun q => (N.proc q).migrnext)
        (linkVal (fun q => (N.proc q).migrnext) N.net_migrlist pp) l →
      (∀ q ∈ l, (N.proc q).home ≠ home) →
      migrFind N home (l.length + 1 + k) pp = some none
  | [], pp, k, hc, _ => by
    have h1 : linkVal (fun q => (N.proc q).migrnext) N.net_migrlist pp = none := hc
    simp only [List.length_nil, Nat.zero_add, Nat.add_comm 1 k, migrFind, h1]
  | a :: t, pp, k, hc, hn => by
    have h1 : linkVal (fun q => (N.proc q).migrnext) N.net_migrlist pp = some a := hc.1
    have ha : (N.proc a).home ≠ home := hn a (List.mem_cons_self _ _)
    have e : (a :: t).length + 1 + k = (t.length + 1 + k) + 1 := by
      simp only [List.length_cons]; omega
    rw [e]
    simp only [migrFind, h1, ha, if_false]
    exact migrFind_none N home t (Link.next a) k hc.2
      (fun q hq => hn q (List.mem_cons_of_mem _ hq))

theorem Net_upd_same (N : Net) (p : Nat) (f : Proc → Proc) :
    (N.upd p f).proc p = f (N.proc p) := by
  simp [Net.upd, Net.proc, Sched.upd]

theorem Net_upd_other (N : Net) (p q : Nat) (f : Proc → Proc) (h : q ≠ p) :
    (N.upd p f).proc q = N.proc q := by
  simp [Net.upd, Net.proc, Sched.upd, h]

theorem migrSet_proc (N : Net) (l : Link) (v : Option Nat) (q : Nat) :
    (migrSet N l v).proc q =
      if l = Link.next q then { N.proc q with migrnext := v } else N.proc q := by
  cases l with
  | head => simp [migrSet, Net.proc]
  | next r =>
    by_cases h : q = r
    · subst h; simp [migrSet, Net_upd_same]
    · have h2 : r ≠ q := fun e => h e.symm
      simp [migrSet, Net_upd_other _ _ _ _ h, h2]

theorem migrSet_head (N : Net) (l : Link) (v : Option Nat) :
    (migrSet N l v).net_migrlist = if l = Link.head then v else N.net_migrlist := by
  cases l <;> simp [migrSet, Net.upd]

/-- C25: migration acknowledgement.  Let the migrating list be the well-formed
list `l` (distinct processes linked through `migrnext`), `net_lock` free and
the source node of the MIGRP valid.  If no process of `l` has the home
reference of the packet, `net_rxmigrp` returns the state unchanged.  If `p` is
the first process of `l = l1 ++ p :: l2` with that home reference (and
`migrdest` set, as for every migrating process), the list becomes `l1 ++ l2`,
`p` is AWAY with `migrdest` and `migrnext` cleared, and the other processes
keep their state, home reference and `migrdest`. -/
theorem net_rxmigrp_ack (C : NetCfg) (N : Net) (m : net_migrp) (l : List Nat)
    (hc : Chain (fun q => (N.proc q).migrnext) N.net_migrlist l) (hd : l.Nodup)
    (hsrc : m.src5 > 0 ∧ m.src5 ≤ C.NET_MAXNODES) (hlk : N.net_lock = false) :
    ((∀ q ∈ l, (N.proc q).home ≠ m.home) → net_rxmigrp C (l.length + 1) N m = some N) ∧
    (∀ l1 p l2, l = l1 ++ p :: l2 → (∀ q ∈ l1, (N.proc q).home ≠ m.home) →
      (N.proc p).home = m.home → (N.proc p).migrdest ≠ 0 →
      ∃ N1, net_rxmigrp C (l.length + 1) N m = some N1 ∧
        Chain (fun q => (N1.proc q).migrnext) N1.net_migrlist (l1 ++ l2) ∧
        (N1.proc p).state = PROC_AWAY ∧ (N1.proc p).migrdest = 0 ∧
        (N1.proc p).migrnext = none ∧
        ∀ q, q ≠ p → (N1.proc q).state = (N.proc q).state ∧
          (N1.proc q).home = (N.proc q).home ∧ (N1.proc q).migrdest = (N.proc q).migrdest) := by
  constructor
  · intro hn
    have hf := migrFind_none N m.home l Link.head 0 hc hn
    unfold net_rxmigrp
    simp only [hsrc, and_self, not_true_eq_false, if_false, hlk, Bool.false_eq_true,
      Nat.add_zero] at hf ⊢
    rw [hf]
  · intro l1 p l2 hl hn hp hm
    subst hl
    have hf := migrFind_found N m.home p l2 l1 Link.head (l2.length + 1) hc hn hp
    have e : (l1 ++ p :: l2).length + 1 = l1.length + 1 + (l2.length + 1) := by
      simp only [List.length_append, List.length_cons]; omega
    have hpl1 : p ∉ l1 := by
      intro hm1
      exact (List.nodup_append.mp hd).2.2 hm1 (List.mem_cons_self _ _)
    have hpl2 : p ∉ l2 := (List.nodup_cons.mp (List.nodup_append.mp hd).2.1).1
    have hpt : linkAfter Link.head l1 ≠ Link.next p := by
      rw [linkAfter_head]
      intro he
      exact hpl1 (tailLink_mem p l1 he)
    unfold net_rxmigrp
    simp only [hsrc, and_self, not_true_eq_false, if_false, hlk, Bool.false_eq_true, e, hf]
    have hmd : ((migrSet N (linkAfter Link.head l1) (N.proc p).migrnext).proc p).migrdest
        = (N.proc p).migrdest := by
      rw [migrSet_proc, if_neg hpt]
    rw [hmd, if_neg hm]
    refine ⟨_, rfl, ?_, ?_, ?_, ?_, ?_⟩
    · have := Chain_remove (fun q => (N.proc q).migrnext)
        (fun q => (((migrSet N (linkAfter Link.head l1) (N.proc p).migrnext).upd p
          (fun r => { r with migrdest := 0, migrnext := none, state := PROC_AWAY })).proc
            q).migrnext) p l2 l1 N.net_migrlist hc hd ?_ ?_
      · have hh : ((migrSet N (linkAfter Link.head l1) (N.proc p).migrnext).upd p
            (fun r => { r with migrdest := 0, migrnext := none,
                               state := PROC_AWAY })).net_migrlist
            = if l1 = [] then (N.proc p).migrnext else N.net_migrlist := by
          show (migrSet N (linkAfter Link.head l1) (N.proc p).migrnext).net_migrlist = _
          rw [migrSet_head, linkAfter_head]
          simp only [tailLink_eq_head]
        rw [hh]
        exact this
      · intro q hq hq2
        have hqp : q ≠ p := by
          intro e0
          subst e0
          rcases List.mem_append.mp hq with h1 | h1
          · exact hpl1 h1
          · exact hpl2 h1
        show ((Net.upd _ p _).proc q).migrnext = (N.proc q).migrnext
        rw [Net_upd_other _ _ _ _ hqp, migrSet_proc, linkAfter_head, if_neg hq2]
      · intro q hq
        have hqp : q ≠ p := fun e0 => hpl1 (e0 ▸ tailLink_mem q l1 hq)
        show ((Net.upd _ p _).proc q).migrnext = (N.proc p).migrnext
        rw [Net_upd_other _ _ _ _ hqp, migrSet_proc, linkAfter_head, if_pos hq]
    · rw [Net_upd_same]
    · rw [Net_upd_same]
    · rw [Net_upd_same]
    · intro q hq
      rw [Net_upd_other _ _ _ _ hq, migrSet_proc]
      split <;> exact ⟨rfl, rfl, rfl⟩

/-- Witness for C25: the MIGRP for the home reference 40 of process 4, the middle
one of the migrating list 3, 4, 5 of `exNet`. -/
theorem net_rxmigrp_ack_witness :
    ∃ N1, net_rxmigrp exCfg ([3, 4, 5].length + 1) exNet { src5 := 2, home := 40 } = some N1 ∧
      Chain (fun q => (N1.proc q).migrnext) N1.net_migrlist ([3] ++ [5]) ∧
      (N1.proc 4).state = PROC_AWAY ∧ (N1.proc 4).migrdest = 0 ∧
      (N1.proc 4).migrnext = none ∧
      ∀ q, q ≠ 4 → (N1.proc q).state = (exNet.proc q).state ∧
        (N1.proc q).home = (exNet.proc q).home ∧
        (N1.proc q).migrdest = (exNet.proc q).migrdest :=
  (net_rxmigrp_ack exCfg exNet { src5 := 2, home := 40 } [3, 4, 5] ⟨rfl, rfl, rfl, rfl⟩
    (by decide) (by decide) rfl).2 [3] 4 [5] rfl (by decide) (by decide) (by decide)

theorem pullFind_found (N : Net) (rr p : Nat) (l2 : List Nat) :
    ∀ (l1 : List Nat) (pp : Link) (k : Nat),
      Chain (fun q => (N.proc q).pullnext)
        (linkVal (fun q => (N.proc q).pullnext) N.net_pulllist pp) (l1 ++ p :: l2) →
      (∀ q ∈ l1, (N.proc q).state = PROC_PULL ∧ (N.proc q).pullrr ≠ rr) →
      (N.proc p).state = PROC_PULL → (N.proc p).pullrr = rr →
      pullFind N rr (l1.length + 1 + k) pp = some (some (p, linkAfter pp l1))
  | [], pp, k, hc, _, hs, hp => by
    have h1 : linkVal (fun q => (N.proc q).pullnext) N.net_pulllist pp = some p := hc.1
    simp only [List.length_nil, Nat.zero_add, Nat.add_comm 1 k, pullFind, h1, hs, hp, if_true,
      linkAfter, ne_eq, not_true_eq_false, if_false]
  | a :: t, pp, k, hc, hn, hs, hp => by
    have h1 : linkVal (fun q => (N.proc q).pullnext) N.net_pulllist pp = some a := hc.1
    have ha := hn a (List.mem_cons_self _ _)
    have e : (a :: t).length + 1 + k = (t.length + 1 + k) + 1 := by
      simp only [List.length_cons]; omega
    rw [e]
    simp only [pullFind, h1, ha.1, ha.2, if_false, linkAfter, ne_eq, not_true_eq_false]
    exact pullFind_found N rr p l2 t (Link.next a) k hc.2
      (fun q hq => hn q (List.mem_cons_of_mem _ hq)) hs hp

theorem pullFind_none (N : Net) (rr : Nat) :
    ∀ (l : List Nat) (pp : Link) (k : Nat),
      Chain (fun q => (N.proc q).pullnext)
        (linkVal (fun q => (N.proc q).pullnext) N.net_pulllist pp) l →
      (∀ q ∈ l, (N.proc q).state = PROC_PULL ∧ (N.proc q).pullrr ≠ rr) →
      pullFind N rr (l.length + 1 + k) pp = some none
  | [], pp, k, hc, _ => by
    have h1 : linkVal (fun q => (N.proc q).pullnext) N.net_pulllist pp = none := hc
    simp only [List.length_nil, Nat.zero_add, Nat.add_comm 1 k, pullFind, h1]
  | a :: t, pp, k, hc, hn => by
    have h1 : linkVal (fun q => (N.proc q).pullnext) N.net_pulllist pp = some a := hc.1
    have ha := hn a (List.mem_cons_self _ _)
    have e : (a :: t).length + 1 + k = (t.length + 1 + k) + 1 := by
      simp only [List.length_cons]; omega
    rw [e]
    simp only [pullFind, h1, ha.1, ha.2, if_false, ne_eq, not_true_eq_false]
    exact pullFind_none N rr t (Link.next a) k hc.2
      (fun q hq => hn q (List.mem_cons_of_mem _ hq))

/-- C22: duplicate and malformed pull parts are discarded.  Let the pull list be
the list `l` of processes in PULL, `net_lock` free, and the message a PULLRP.
If no process of `l` pulls the remote reference of the message,
`net_rxpullrp` returns with the whole state unchanged (nothing copied, arrived
masks, pull list and process states as before).  The same holds when the first
process `p` of `l` that pulls this reference already has the part (its bit is
set in `p->arrived`), when the part index is outside 0..2, and when the data
length differs from the length of that part. -/
theorem net_rxpullrp_discards (C : NetCfg) (N : Net) (rp : net_pullrphdr) (len : Int)
    (l : List Nat) (hc : Chain (fun q => (N.proc q).pullnext) N.net_pulllist l)
    (hs : ∀ q ∈ l, (N.proc q).state = PROC_PULL) (hty : rp.type = C.NET_PULLRP)
    (hlk : N.net_lock = false) :
    ((∀ q ∈ l, (N.proc q).pullrr ≠ rp.rr) →
      net_rxpullrp C (l.length + 1) N rp len = some (N, false)) ∧
    (∀ l1 p l2, l = l1 ++ p :: l2 → (∀ q ∈ l1, (N.proc q).pullrr ≠ rp.rr) →
      (N.proc p).pullrr = rp.rr →
      ((rp.part < 0 ∨ rp.part > 2) ∨ (N.proc p).arrived &&& (1 <<< rp.part.toNat) ≠ 0 ∨
        len - C.sz_pullrphdr ≠ partlen C rp.part.toNat) →
      net_rxpullrp C (l.length + 1) N rp len = some (N, false)) := by
  constructor
  · intro hn
    have hf := pullFind_none N rp.rr l Link.head 0 hc (fun q hq => ⟨hs q hq, hn q hq⟩)
    unfold net_rxpullrp
    simp only [hty, ne_eq, not_true_eq_false, if_false, hlk, Bool.false_eq_true,
      Nat.add_zero] at hf ⊢
    rw [hf]
  · intro l1 p l2 hl hn hp hbad
    subst hl
    have hf := pullFind_found N rp.rr p l2 l1 Link.head (l2.length + 1) hc
      (fun q hq => ⟨hs q (List.mem_append_left _ hq), hn q hq⟩)
      (hs p (List.mem_append_right _ (List.mem_cons_self _ _))) hp
    have e : (l1 ++ p :: l2).length + 1 = l1.length + 1 + (l2.length + 1) := by
      simp only [List.length_append, List.length_cons]; omega
    unfold net_rxpullrp
    simp only [hty, ne_eq, not_true_eq_false, if_false, hlk, Bool.false_eq_true, e, hf]
    by_cases c1 : rp.part < 0 ∨ rp.part > 2
    · rw [if_pos c1]
    rw [if_neg c1]
    by_cases c2 : (N.proc p).arrived &&& (1 <<< rp.part.toNat) = 0
    · rw [if_neg (not_not.mpr c2)]
      rcases hbad with hb | hb | hb
      · exact absurd hb c1
      · exact absurd c2 hb
      · simp only [hb, not_false_eq_true, if_true]
    · rw [if_pos c2]

/-- Witness for C22: process 6 of `exNet` pulls `0x77` and already has part 0;
part 0 arrives again. -/
theorem net_rxpullrp_discards_witness :
    net_rxpullrp exCfg ([6].length + 1) exNet
        { type := 4, rr := 0x77, part := 0, data := fun _ => 0xEE } (24 + 1368)
      = some (exNet, false) :=
  (net_rxpullrp_discards exCfg exNet { type := 4, rr := 0x77, part := 0, data := fun _ => 0xEE }
    (24 + 1368) [6] ⟨rfl, rfl⟩ (by decide) rfl rfl).2 [] 6 [] rfl (by decide) rfl
    (Or.inr (Or.inl (by decide)))

theorem net_rxpullrp_accepts :
    (net_rxpullrp exCfg 2 exNet { type := 4, rr := 0x77, part := 1, data := fun _ => 0xEE }
        (24 + 1368)).map
      (fun r => ((r.1.proc 6).arrived, r.1.K.mem (0x30000 + 1368), r.1.net_pulllist, r.2))
      = some (3, 0xEE, some 6, false) := by
  decide

theorem Net_upd_sent (N : Net) (p : Nat) (f : Proc → Proc) : (N.upd p f).sent = N.sent := rfl

theorem Net_upd_K (N : Net) (p : Nat) (f : Proc → Proc) : (N.upd p f).K = N.K := rfl

theorem Net_upd_node (N : Net) (p : Nat) (f : Proc → Proc) :
    (N.upd p f).net_node = N.net_node := rfl

theorem Net_upd_proc_net (N : Net) (p : Nat) (f : Proc → Proc) :
    (N.upd p f).S.proc_net = N.S.proc_net := rfl

/-- C24, the code at a failing input: process 10 of `exNet` is in RECV (it has
accepted a RECVRP and fetches); a second RECVRP for its message id makes it
READY and puts it on the ready queue.  A RECVRP for the unregistered message
id 99 does the same to the null process, which `mid_find` returns. -/
theorem net_rxrecvrp_readies_unblocked :
    (exNet.proc 10).state = PROC_RECV ∧ exNet.S.readyhead = none ∧
    (net_rxrecvrp exCfg 4 exNet (exRecvrp 82 0x1000)).map
        (fun N => ((N.proc 10).state, N.S.readyhead)) = some (PROC_READY, some 10) ∧
    mid_find exNet 99 = some proc_null ∧
    (net_rxrecvrp exCfg 4 exNet (exRecvrp 99 0x1000)).map
        (fun N => ((N.proc proc_null).state, N.S.readyhead))
      = some (PROC_READY, some proc_null) := by
  decide

/-- C29, the code at failing inputs: a FETCHRQ for the unregistered source id 99,
and a FETCHRQ for the sender 11 of `exNet` (in SEND, peer id matching) with an
address above `remotelimit`, both take the `nak` path, where `net_txfetchrp` is
called after the lock is released and its assertions fail.  A FETCHRQ at
`remotelimit` is answered. -/
theorem net_rxfetchrq_nak_fails_assertion :
    (net_rxfetchrq exLayout exCfg exNet (exFetchrq 99 0x40005000)).isNone = true ∧
    (exNet.proc 11).state = PROC_SEND ∧
    (net_rxfetchrq exLayout exCfg exNet (exFetchrq 83 0x40005000)).isNone = true ∧
    (net_rxfetchrq exLayout exCfg exNet (exFetchrq 83 0x40001000)).isSome = true := by
  decide

/-- C28, the code at a failing input: process 10 of `exNet` receives into the page
at `UL` of its address space, which is not mapped.  `pmap_walk` creates the
tables and returns a leaf that holds the zero-mapping `PTE_ZERO`; the body of
the accepted FETCHRP is copied into the frame of that leaf, the canonical zero
frame: its first byte is 0 before and `0xAB` after the call, and so is the
last byte of the part. -/
theorem net_rxfetchrp_writes_zero_frame :
    rd8 exNet.K.mem exLayout.PTE_ZERO = 0 ∧
    (pmap_walk exLayout exNet.K rootP UL true).map
        (fun r => r.2.map (fun pte => PTE_ADDR (rd64 r.1.mem pte)))
      = some (some exLayout.PTE_ZERO) ∧
    (net_rxfetchrp exLayout exCfg 4 exNet exFetchrp (48 + 1368)).map
        (fun N => (rd8 N.K.mem exLayout.PTE_ZERO, rd8 N.K.mem (exLayout.PTE_ZERO + 1367),
          (N.proc 10).arrived))
      = some (0xAB, 0xAB, 1) := by
  decide!
/-- C3, the code at a failing input: a page-aligned merge of the two pages
`[UL + 0x1FF000, UL + 0x201000)`, which lie in two page tables.  At the second
page the destination equals the reference (both map frame `0x82`, byte `0xC3`)
and the source differs (frame `0x81`, byte `0xB2`); `pmap_merge` returns 1 and
the destination page still reads `0xC3`: the second page was skipped. -/
theorem pmap_merge_skips_second_table :
    byteAt scMergeUnaligned rootR (UL + 0x200000) 0 = some (some 0xC3) ∧
    byteAt scMergeUnaligned rootP (UL + 0x200000) 0 = some (some 0xC3) ∧
    byteAt scMergeUnaligned rootS (UL + 0x200000) 0 = some (some 0xB2) ∧
    scMergeUnaligned.bind (fun K =>
      (pmap_merge exLayout K rootR rootS (UL + 0x1FF000) rootP (UL + 0x1FF000) 0x2000).map
        (fun r => (r.2.1, (va2pa r.1 rootP (UL + 0x200000)).map (fun pg => r.1.mem pg))))
      = some (1, some 0xC3) := by
  decide!


/-- C4, the code at a failing input: a merge of the single page at `UL`.  The
destination's page-directory-pointer entry equals the reference's and the
source's differs, so the whole gigabyte is copied from the source: the
destination's mapping at `UL + PAGESIZE`, outside the range, changes from frame
`0x81` to frame `0x83`. -/
theorem pmap_merge_one_page_changes_sibling :
    lookAt scMergeOnePage rootP (UL + 0x1000) = some (some 0x81000) ∧
    scMergeOnePage.bind (fun K =>
      (pmap_merge exLayout K rootR rootS UL rootP UL 0x1000).map
        (fun r => (r.2.1, va2pa r.1 rootP (UL + 0x1000))))
      = some (1, some 0x83000) := by
  decide!


/-- C5, the code at a failing input: source and destination share a page table
and two pages are copied from `UL + PAGESIZE` in the source to `UL` in the
destination.  `pmap_copy` returns 1; afterwards the destination page at `UL`
maps frame `0x81` while the corresponding source page at `UL + PAGESIZE` maps
frame `0x82` (before the call it mapped `0x81`: the copy wrote through the
shared table).  Copying from `UL` to `UL + PAGESIZE` instead leaves the second
destination page on frame `0x80`, where the source had frame `0x81`. -/
theorem pmap_copy_shared_table_mismatch :
    lookAt scCopyShared rootS (UL + 0x1000) = some (some 0x81000) ∧
    scCopyShared.bind (fun K =>
      (pmap_copy exLayout K rootS (UL + 0x1000) rootP UL 0x2000).map
        (fun r => (r.2, va2pa r.1 rootP UL, va2pa r.1 rootS (UL + 0x1000))))
      = some (1, some 0x81000, some 0x82000) ∧
    scCopyShared.bind (fun K =>
      (pmap_copy exLayout K rootS UL rootP (UL + 0x1000) 0x2000).map
        (fun r => (r.2, va2pa r.1 rootP (UL + 0x2000))))
      = some (1, some 0x80000) := by
  decide!


/-- C7, the code at a failing input: after a fork in which parent and child each
touched the region, the one-page merge at `UL` returns 1 and the reference page
map, which mapped frame `0x80` at `UL`, maps the child's frame `0x82` there:
the merge wrote through the page table the destination shares with the
reference. -/
theorem pmap_merge_mutates_reference :
    scMergeFork.map (fun K => (va2pa K rootR UL,
      (pmap_merge exLayout K rootR rootS UL rootP UL 0x1000).map
        (fun r => (r.2.1, va2pa r.1 rootR UL))))
      = some (some 0x80000, some (1, some 0x82000)) := by
  decide!


/-- C8, the code at a failing input: with an empty free list and a destination
that lacks the page directory, `pmap_copy` of one mapped page does not return:
the ignored `NULL` of `pmap_walk_level` trips the assertion of line 642. -/
theorem pmap_copy_no_memory_panics :
    lookAt scNoMemory rootS UL = some (some 0x80000) ∧
    scNoMemory.map (fun K => K.freelist) = some [] ∧
    scNoMemory.map (fun K => (pmap_copy exLayout K rootS UL rootP UL 0x1000).map Prod.snd)
      = some none := by
  decide!


/-- C11, the code at a failing input: the page at `UL + PAGESIZE` is a
zero-mapping with `SYS_READ`, hence present (`PTE_ZERO | 0x225`).
`pmap_remove` of that page skips the entry (lines 482-487): afterwards the leaf
is unchanged and `va2pa` still finds a present leaf. -/
theorem pmap_remove_keeps_zero_mapping :
    leafAt scReadZero rootP (UL + 0x1000) = some (some 0x1225) ∧
    leafAt (thenRemove scReadZero rootP (UL + 0x1000) 0x1000) rootP (UL + 0x1000)
      = some (some 0x1225) ∧
    lookAt (thenRemove scReadZero rootP (UL + 0x1000) 0x1000) rootP (UL + 0x1000)
      = some (some 0x1000) := by
  decide!

/-- Evaluation of a remove beside a mapped page, as in `pmap_check` (lines
1053-1056): frame `0x80` is mapped at `UL` and at `UL + PAGESIZE`; removing the
page at `UL` leaves no translation there, keeps the translation of
`UL + PAGESIZE` and leaves the frame with one reference. -/
theorem pmap_remove_keeps_sibling :
    (exMappedTwice.refcount 0x80, va2pa exMappedTwice rootP UL,
        va2pa exMappedTwice rootP (UL + 0x1000)) = (2, some 0x80000, some 0x80000) ∧
    (pmap_remove exLayout exMappedTwice rootP UL 0x1000).map
        (fun K => (K.refcount 0x80, va2pa K rootP UL, va2pa K rootP (UL + 0x1000)))
      = some (1, none, some 0x80000) := by
  decide!

/-- C13, the code at a failing input: with an empty free list
`pmap_setperm(root, UL, PAGESIZE, SYS_READ)` returns 1, the page at `UL` is still
unmapped, and the canonical zero page at `0x1000`, all zero before, holds a
non-zero word: the `NULL` of `pmap_walk_level` is ignored (line 908) and the
descent continues into the zero page as if it were a table. -/
theorem pmap_setperm_no_memory_writes_zero_page :
    rd64 scFreshNoMemory.mem 0x1000 = 0 ∧
    (pmap_setperm exLayout scFreshNoMemory rootP UL 0x1000 SYS_READ).map
      (fun r => (r.2, va2pa r.1 rootP UL, rd64 r.1.mem 0x1000)) = some (1, none, 1) := by
  decide!

/-- C30, the code at a failing input: the child's page-directory entry points
read-only to the parent's page table at `0x23000`, which has two references and
whose entry 0 maps frame `0x80`.  A one-page `pmap_copy` from `UL + PAGESIZE` in
the parent to `UL` in the child returns 1; the shared table still has two
references and its entry 0 now maps frame `0x82`, so the parent's own page at
`UL` changed too: the table was written in place. -/
theorem pmap_copy_writes_shared_table :
    scSharedPT.map (fun K => (rd64 K.mem 0x20000, K.refcount 0x23, rd64 K.mem 0x23000,
      va2pa K rootP UL)) = some (0x23025, 2, 0x80601, some 0x80000) ∧
    scSharedPT.bind (fun K =>
      (pmap_copy exLayout K rootP (UL + 0x1000) rootS UL 0x1000).map
        (fun r => (r.2, r.1.refcount 0x23, rd64 r.1.mem 0x23000, va2pa r.1 rootP UL)))
      = some (1, 2, 0x82601, some 0x82000) := by
  decide!

/-- Evaluation of the write fault in `exMapped`: the leaf `0x80601` (frame `0x80`,
one reference, not writable) becomes `0x80667`, the frame keeps its single
reference and no frame is allocated. -/
theorem pmap_pagefault_keeps_private_frame :
    (pmap_pagefault exLayout exMapped rootP UL 7).map
        (fun r => (rd64 r.1.mem 0x21000, r.1.refcount 0x80, r.1.freelist.length, r.2))
      = some (0x80667, 1, exMapped.freelist.length, true) ∧
    rd64 exMapped.mem 0x21000 = 0x80601 := by
  decide!

/-- C26, counterexample: `pmap_walk_level` is called at level 2 with `writing` set
through the read-only entry `0x16025` of the table at `0x13000`; the page
directory at `0x16000` it points to has one reference and its entry 0 is
`0x17027`.  The call succeeds, the entry is writable and points to the same
table, but entry 0 of that table is `0x17027`, not the old entry with the
writable bit cleared (`0x17025`): the descent to level 1 has made it writable
again. -/
theorem pmap_walk_level_rewrites_path_entry :
    rd64 (exCowK 0x17027).mem 0x13008 &&& PTE_W = 0 ∧
    (exCowK 0x17027).refcount 0x16 = 1 ∧
    clrW (rd64 (exCowK 0x17027).mem 0x16000) = 0x17025 ∧
    (pmap_walk_level exLayout 2 (exCowK 0x17027) 0x13000 UL true).map
        (fun r => (r.2, rd64 r.1.mem 0x13008, r.1.refcount 0x16, rd64 r.1.mem 0x16000))
      = some (some 0x17000, 0x16027, 1, 0x17027) := by
  decide!

theorem exCowShared_entries : ∀ i, i < NPTENTRIES →
    PTE_ADDR (rd64 exCowShared.mem
      (PTE_ADDR (rd64 exCowShared.mem (0x16000 + 8 * PDX (0 + 1) UL)) + 8 * i)) ≠ 0 := by
  decide!

theorem exCowSharedDir_entries : ∀ i, i < NPTENTRIES →
    PTE_ADDR (rd64 exCowSharedDir.mem
      (PTE_ADDR (rd64 exCowSharedDir.mem (0x13000 + 8 * PDX (1 + 1) UL)) + 8 * i)) ≠ 0 := by
  decide!

theorem exCowShared_refs :
    refsIn exLayout exCowShared.mem 0x17000 0x20 NPTENTRIES 0 = 0 ∧
    refsIn exLayout exCowShared.mem 0x17000 0x17 NPTENTRIES 0 = 0 := by
  decide!

theorem exCowSharedDir_refs :
    refsIn exLayout exCowSharedDir.mem 0x16000 0x20 NPTENTRIES 0 = 0 ∧
    refsIn exLayout exCowSharedDir.mem 0x16000 0x16 NPTENTRIES 0 = 0 ∧
    refsIn exLayout exCowSharedDir.mem 0x16000 0x17 NPTENTRIES 0 = 1 := by
  decide!

/-- Witness for C26 (amended).  In place, at level 2: the walk of `exCowK 0x17027`
from the table at `0x13000` passes the read-only entry `0x16025` to the page
directory at `0x16000`, which has one reference; the directory is kept, its
entries lose the writable bit, and the call is the level-1 walk from that
state.  Copy, at level 1: in `exCowShared` the page table at `0x17000` has two
references; the walk from the directory at `0x16000` takes the frame `0x20`
from the free list, copies the table there and returns the leaf pointer.
Copy, at level 2: in `exCowSharedDir` the page directory at `0x16000` has two
references; the walk from the table at `0x13000` copies it to the frame `0x20`,
the page table `0x17` it maps gains a reference, and the call is the level-1
walk from that state in the copy. -/
theorem pmap_walk_level_cow_witness :
    (∃ Kb, pmap_walk_level exLayout 2 (exCowK 0x17027) 0x13000 UL true
          = pmap_walk_level exLayout 1 Kb 0x16000 UL true ∧
        rd64 Kb.mem 0x13008 &&& PTE_W ≠ 0 ∧
        PTE_ADDR (rd64 Kb.mem 0x13008) = 0x16000 ∧
        Kb.refcount = (exCowK 0x17027).refcount ∧ Kb.freelist = [0x20, 0x21] ∧
        ∀ i, i < NPTENTRIES →
          rd64 Kb.mem (0x16000 + 8 * i) = clrW (rd64 (exCowK 0x17027).mem (0x16000 + 8 * i))) ∧
    (∃ Kb, pmap_walk_level exLayout 1 exCowShared 0x16000 UL true
          = some (Kb, some (0x20000 + 8 * PDX 0 UL)) ∧
        rd64 Kb.mem 0x16000 &&& PTE_W ≠ 0 ∧
        PTE_ADDR (rd64 Kb.mem 0x16000) = 0x20000 ∧
        Kb.freelist = [0x21] ∧
        (∀ i, i < NPTENTRIES →
          rd64 Kb.mem (0x20000 + 8 * i) = clrW (rd64 exCowShared.mem (0x17000 + 8 * i))) ∧
        (∀ i, i < NPTENTRIES →
          rd64 Kb.mem (0x17000 + 8 * i) = rd64 exCowShared.mem (0x17000 + 8 * i)) ∧
        Kb.refcount 0x20 = 1 ∧ Kb.refcount 0x17 = 1) ∧
    (∃ Kb, pmap_walk_level exLayout 2 exCowSharedDir 0x13000 UL true
          = pmap_walk_level exLayout 1 Kb 0x20000 UL true ∧
        rd64 Kb.mem 0x13008 &&& PTE_W ≠ 0 ∧
        PTE_ADDR (rd64 Kb.mem 0x13008) = 0x20000 ∧
        Kb.freelist = [0x21] ∧
        (∀ i, i < NPTENTRIES →
          rd64 Kb.mem (0x20000 + 8 * i) = clrW (rd64 exCowSharedDir.mem (0x16000 + 8 * i))) ∧
        (∀ i, i < NPTENTRIES →
          rd64 Kb.mem (0x16000 + 8 * i) = rd64 exCowSharedDir.mem (0x16000 + 8 * i)) ∧
        Kb.refcount 0x20 = 1 ∧ Kb.refcount 0x16 = 1 ∧ Kb.refcount 0x17 = 2) := by
  have a1 : PTE_ADDR (rd64 (exCowK 0x17027).mem (0x13000 + 8 * PDX (1 + 1) UL)) = 0x16000 := by
    decide!
  have a2 : 0x13000 + 8 * PDX (1 + 1) UL = 0x13008 := by decide
  have b1 : PTE_ADDR (rd64 exCowShared.mem (0x16000 + 8 * PDX (0 + 1) UL)) = 0x17000 := by
    decide!
  have b2 : 0x16000 + 8 * PDX (0 + 1) UL = 0x16000 := by decide
  have b3 : mem_pi2phys 0x20 = 0x20000 := by decide
  have c1 : PTE_ADDR (rd64 exCowSharedDir.mem (0x13000 + 8 * PDX (1 + 1) UL)) = 0x16000 := by
    decide!
  refine ⟨?_, ?_, ?_⟩
  · obtain ⟨Kb, h1, h2, h3, h4, h5, h6, _⟩ :=
      (pmap_walk_level_cow exLayout (exCowK 0x17027) 0x13000 UL 1 (exCowK_bytes 0x17027)
        (by decide!) (by decide!) (by decide!)).1 (by decide!)
    rw [a1] at h1 h3 h6
    rw [a2] at h2 h3
    rw [if_neg (by decide)] at h1
    exact ⟨Kb, h1, h2, h3, h4, h5, h6⟩
  · obtain ⟨Kb, h1, h2, h3, h4, h5, h6, h7, _⟩ :=
      (pmap_walk_level_cow exLayout exCowShared 0x16000 UL 0 (exCowK_bytes 0x17025)
        (by decide!) (by decide!) (by decide!)).2 (by decide!) 0x20 [0x21] rfl (by decide)
        (by decide!) (by decide!) exCowShared_entries
    rw [b1] at h5 h6 h7
    rw [b2] at h2 h3
    rw [b3] at h1 h3 h5
    rw [if_pos rfl] at h1
    obtain ⟨r1, r2⟩ := exCowShared_refs
    refine ⟨Kb, h1, h2, h3, h4, h5, h6, ?_, ?_⟩
    · rw [h7 0x20, r1]; decide!
    · rw [h7 0x17, r2]; decide!
  · obtain ⟨Kb, h1, h2, h3, h4, h5, h6, h7, _⟩ :=
      (pmap_walk_level_cow exLayout exCowSharedDir 0x13000 UL 1 (exCowK_bytes 0x17027)
        (by decide!) (by decide!) (by decide!)).2 (by decide!) 0x20 [0x21] rfl (by decide)
        (by decide!) (by decide!) exCowSharedDir_entries
    rw [c1] at h5 h6 h7
    rw [a2] at h2 h3
    rw [b3] at h1 h3 h5
    rw [if_neg (by decide)] at h1
    obtain ⟨r1, r2, r3⟩ := exCowSharedDir_refs
    have g1 := h7 0x20
    have g2 := h7 0x16
    have g3 := h7 0x17
    rw [r1] at g1
    rw [r2] at g2
    rw [r3] at g3
    have k1 : Kb.refcount 0x20 = 1 := g1.trans (by decide!)
    have k2 : Kb.refcount 0x16 = 1 := g2.trans (by decide!)
    have k3 : Kb.refcount 0x17 = 2 := g3.trans (by decide!)
    exact ⟨Kb, h1, h2, h3, h4, h5, h6, k1, k2, k3⟩

/-- Evaluation of a walk at level 1 in place: in `exCowK 0x17025` the table at
`0x17000` has one reference, so it is kept; the entry becomes `0x17027` and no
frame is taken from the free list. -/
theorem pmap_walk_level_cow_inplace_example :
    (exCowK 0x17025).refcount 0x17 = 1 ∧
    (pmap_walk_level exLayout 1 (exCowK 0x17025) 0x16000 UL true).map
        (fun r => (r.2, rd64 r.1.mem 0x16000, r.1.refcount 0x17, r.1.freelist))
      = some (some 0x17000, 0x17027, 1, [0x20, 0x21]) := by
  decide!

/-- Evaluation of the call of the witness: it returns `NULL`; the read-only entry
`0x16025` has become `0x16027` and entry 0 of the page directory `0x17027` has
become `0x17025`: the frame addresses are kept, the flag bits are not. -/
theorem pmap_insert_no_memory_example :
    (rd64 exCowNoMem.mem 0x13008, rd64 exCowNoMem.mem 0x16000) = (0x16025, 0x17027) ∧
    (pmap_insert exLayout exCowNoMem 0x10000 0x82 (UL + 0x200000) 0x600).map
        (fun r => (r.2, rd64 r.1.mem 0x13008, rd64 r.1.mem 0x16000, r.1.refcount 0x82))
      = some (none, 0x16027, 0x17025, 0) := by
  decide!

end Pios
